import Mathlib

/-!
Verification development for golibhub/decimal.

`decimal.Decimal` is a thin wrapper `struct { v *apd.Decimal }` over the
arbitrary-precision decimal of `github.com/cockroachdb/apd/v3`.  The wrapper
holds a *pointer*, so the embedding threads an explicit heap of `apd.Decimal`
cells through every operation: a method with a value receiver works on a copy
of the one-word struct (the pointer), never on a copy of the pointee.

The namespace `apd` embeds the functions of that library which the wrapper
calls, under the context the wrapper uses (`apd.BaseContext`: precision 0,
no rounder set, exponent limits `±100000`, default traps).  The library is a
dependency of the repository, not part of its sources, and the repository
pins no release of it.  Where releases differ, the embedding follows the
current one (v3.2.2): `Quo` has no upper limit on the precision, a sign inside
the mantissa of a number is a parse error, and a zero with an exponent in
`[-2000, 0)` is written in plain notation.

A Go panic (and an error return of a constructor) is the result `none`.
-/

namespace apd

/-- The `apd.Form` of a decimal; `Finite` is the zero value of the type. -/
inductive Form where
  | Finite
  | Infinite
  | NaNSignaling
  | NaN
  deriving DecidableEq, Repr

/-- The struct `apd.Decimal`: value is `(-1)^Negative * Coeff * 10^Exponent`.
`Exponent` is an `int32` in the source; every store into it in the modelled
paths is range-checked first, so it is kept as an `Int`. -/
structure Decimal where
  Form : Form
  Negative : Bool
  Exponent : Int
  Coeff : Nat
  deriving DecidableEq, Repr

/-- The package limit `apd.MaxExponent`. -/
def MaxExponent : Int := 100000

/-- The package limit `apd.MinExponent`. -/
def MinExponent : Int := -100000

/-- The Go zero value `var x apd.Decimal`. -/
def zeroValue : Decimal :=
  { Form := Form.Finite, Negative := false, Exponent := 0, Coeff := 0 }

/-- Embeds `apd.New(coeff, exponent)`: the sign is split off the coefficient. -/
def New (coeff : Int) (exponent : Int) : Decimal :=
  { Form := Form.Finite, Negative := decide (coeff < 0), Exponent := exponent,
    Coeff := coeff.natAbs }

/-- The character of one decimal digit. -/
def digitChar (d : Nat) : Char := Char.ofNat (48 + d)

/-- Decimal digits of `n`, most significant first, on `fuel` steps. -/
def digitsAux : Nat → Nat → List Char → List Char
  | 0, _, acc => acc
  | fuel + 1, n, acc =>
    let acc1 := Char.ofNat (48 + n % 10) :: acc
    if n / 10 = 0 then acc1 else digitsAux fuel (n / 10) acc1

/-- The text of `Coeff.Append(_, 10)`: the decimal digits, `"0"` for zero. -/
def digits (n : Nat) : List Char := digitsAux (n + 1) n []

/-- Embeds `apd.NumDigits`: the number of decimal digits, 1 for zero. -/
def NumDigits (n : Nat) : Nat := (digits n).length

/-- Embeds `Decimal.Sign`: 0 for a finite zero, otherwise by the sign bit. -/
def Decimal.Sign (d : Decimal) : Int :=
  if d.Form = Form.Finite ∧ d.Coeff = 0 then 0
  else if d.Negative then -1 else 1

/-- Embeds `Decimal.IsZero`. -/
def Decimal.IsZero (d : Decimal) : Bool := decide (d.Sign = 0)

/-- The trailing-zero loop of `Reduce` (`for i%10 == 0 { i /= 10; nd++ }`),
entered with a non-zero coefficient; returns the stripped coefficient and the
number of zeros removed. -/
def stripZeros : Nat → Nat → Nat → Nat × Nat
  | 0, c, nd => (c, nd)
  | fuel + 1, c, nd =>
    if c ≠ 0 ∧ c % 10 = 0 then stripZeros fuel (c / 10) (nd + 1) else (c, nd)

/-- Embeds `func (d *Decimal) Reduce(x *Decimal) (*Decimal, int)`: sets the RECEIVER
`d` to `x` with all trailing zeros removed.  The result is the new content of
the receiver; of the old content only the digit count is read (for the count
returned in the zero case). -/
def Reduce (d x : Decimal) : Decimal × Int :=
  if x.Form ≠ Form.Finite then (x, 0)
  else if x.Sign = 0 then
    (New 0 0, (NumDigits d.Coeff : Int) - 1)
  else
    let r := stripZeros x.Coeff x.Coeff 0
    ({ x with Coeff := r.1, Exponent := x.Exponent + r.2 }, r.2)

/-- Embeds `fmtF`: plain decimal notation. -/
def fmtF (d : Decimal) (ds : List Char) : List Char :=
  if d.Exponent < 0 then
    let left : Int := -d.Exponent - ds.length
    if left ≥ 0 then
      ['0', '.'] ++ List.replicate left.toNat '0' ++ ds
    else
      let offset := (-left).toNat
      ds.take offset ++ ['.'] ++ ds.drop offset
  else
    ds ++ List.replicate d.Exponent.toNat '0'

/-- Embeds `fmtE`: scientific notation with the marker `E`. -/
def fmtE (d : Decimal) (ds : List Char) : List Char :=
  let adj : Int := d.Exponent + ds.length - 1
  let mant := if ds.length > 1 then ds.take 1 ++ ['.'] ++ ds.drop 1 else ds.take 1
  mant ++ ['E'] ++ (if adj < 0 then ['-'] else ['+']) ++ digits adj.natAbs

/-- The constant `lowestZeroNegativeCoefficientCockroach`. -/
def lowestZeroNegativeCoefficientCockroach : Int := -2000

/-- The constant `adjExponentLimit` of the `'G'` format. -/
def adjExponentLimit : Int := -6

/-- Embeds `Decimal.String` (`Text('G')`): plain notation when the exponent is at
most 0 and the adjusted exponent at least `adjExponentLimit`, scientific
notation otherwise.  For a zero coefficient with an exponent in
`[-2000, 0)` the digit length is padded by the exponent, so that such a zero
is always written plainly (`0.000`). -/
def Decimal.String (d : Decimal) : String :=
  let sign := if d.Negative then ['-'] else []
  match d.Form with
  | Form.NaN => String.mk (sign ++ "NaN".toList)
  | Form.NaNSignaling => String.mk (sign ++ "sNaN".toList)
  | Form.Infinite => String.mk (sign ++ "Infinity".toList)
  | Form.Finite =>
    let ds := digits d.Coeff
    let digitLen : Int :=
      if d.Coeff = 0 ∧ d.Exponent ≥ lowestZeroNegativeCoefficientCockroach ∧ d.Exponent < 0
      then (ds.length : Int) + -d.Exponent else (ds.length : Int)
    let adj : Int := d.Exponent + (digitLen - 1)
    if d.Exponent ≤ 0 ∧ adj ≥ adjExponentLimit then String.mk (sign ++ fmtF d ds)
    else String.mk (sign ++ fmtE d ds)

end apd

/-- Go's `string`. -/
abbrev GoString := String

/-- A pointer `*apd.Decimal`: an index into the heap. -/
abbrev Ptr := Nat

/-- The heap of `apd.Decimal` cells; allocation appends a cell. -/
abbrev Heap := List apd.Decimal

/-- Embeds `type Decimal struct { v *apd.Decimal }`; `none` is the nil pointer. -/
structure Decimal where
  v : Option Ptr
  deriving DecidableEq, Repr

/-- Allocate a cell holding `x`; returns its address and the new heap. -/
def Heap.alloc (h : Heap) (x : apd.Decimal) : Ptr × Heap := (h.length, h ++ [x])

/-- Embeds `ensureInitialized` on the callee's copy of the receiver: a nil pointer
is replaced by a fresh `apd.New(0, 0)`. -/
def ensureInitialized (h : Heap) (d : Decimal) : Decimal × Heap :=
  match d.v with
  | none => ({ v := some h.length }, h ++ [apd.New 0 0])
  | some _ => (d, h)

/-- Embeds `FromInt(i)`: `Decimal{v: apd.New(i, 0)}`. -/
def FromInt (h : Heap) (i : Int) : Decimal × Heap :=
  ({ v := some h.length }, h ++ [apd.New i 0])

/-- Embeds `Decimal.String`: initialise the copy, then render the pointee. -/
def Decimal.String (h : Heap) (d : Decimal) : Option GoString :=
  let (d1, h1) := ensureInitialized h d
  match d1.v with
  | none => none
  | some p => h1[p]?.map apd.Decimal.String

/-- Embeds `Decimal.Reduce`:
```go
var x apd.Decimal
d.v.Reduce(&x)
return Decimal{v: &x}
```
The receiver of `apd.Reduce` is the destination, so the call overwrites the
cell `d.v` with the reduction of the fresh zero value `x`, and `x` itself is
returned untouched.  There is no `ensureInitialized`: a nil `d.v` is written
through, which panics. -/
def Decimal.Reduce (h : Heap) (d : Decimal) : Option (Decimal × Heap) :=
  let px := h.length
  let h1 := h ++ [apd.zeroValue]
  match d.v with
  | none => none
  | some p =>
    match h1[p]?, h1[px]? with
    | some dst, some x => some ({ v := some px }, h1.set p (apd.Reduce dst x).1)
    | _, _ => none

namespace apd

/-- Three-way comparison of two rationals, as the integers -1, 0, 1. -/
def cmpQ (x y : ℚ) : Int := if x < y then -1 else if x = y then 0 else 1

/-- The exact rational value of a finite decimal. -/
def Decimal.value (d : Decimal) : ℚ :=
  (if d.Negative then -1 else 1) * (d.Coeff : ℚ) * (10 : ℚ) ^ d.Exponent

/-- Embeds `Decimal.Cmp`: sign comparison first, then equal exponents, then the
adjusted exponents (digit count plus exponent), then aligned coefficients. -/
def Decimal.Cmp (d x : Decimal) : Int :=
  let ds := d.Sign
  let xs := x.Sign
  if ds < xs then -1
  else if ds > xs then 1
  else if ds = 0 ∧ xs = 0 then 0
  else
    let gt : Int := if ds = -1 then -1 else 1
    if d.Form = Form.Infinite then
      (if x.Form = Form.Infinite then 0 else gt)
    else if x.Form = Form.Infinite then -gt
    else if d.Exponent = x.Exponent then
      let cmp : Int := if d.Coeff < x.Coeff then -1 else if d.Coeff = x.Coeff then 0 else 1
      if ds < 0 then -cmp else cmp
    else
      let dn : Int := NumDigits d.Coeff + d.Exponent
      let xn : Int := NumDigits x.Coeff + x.Exponent
      if dn < xn then -gt
      else if dn > xn then gt
      else
        let cmp : Int :=
          if d.Exponent < x.Exponent then
            let xScaled := x.Coeff * 10 ^ (x.Exponent - d.Exponent).toNat
            if d.Coeff < xScaled then -1 else if d.Coeff = xScaled then 0 else 1
          else
            let dScaled := d.Coeff * 10 ^ (d.Exponent - x.Exponent).toNat
            if dScaled < x.Coeff then -1 else if dScaled = x.Coeff then 0 else 1
        if ds < 0 then -cmp else cmp

/-- The magnitude comparison made by `Cmp` once the signs agree and are
non-zero. -/
def magCmp (ca cb : Nat) (ea eb : Int) : Int :=
  if ea = eb then (if ca < cb then -1 else if ca = cb then 0 else 1)
  else if (NumDigits ca : Int) + ea < (NumDigits cb : Int) + eb then -1
  else if (NumDigits ca : Int) + ea > (NumDigits cb : Int) + eb then 1
  else if ea < eb then
    (if ca < cb * 10 ^ (eb - ea).toNat then -1
     else if ca = cb * 10 ^ (eb - ea).toNat then 0 else 1)
  else
    (if ca * 10 ^ (ea - eb).toNat < cb then -1
     else if ca * 10 ^ (ea - eb).toNat = cb then 0 else 1)

/-- Embeds `Decimal.setExponent(c, nd, res, xs...)` for a context whose
`MinExponent`/`MaxExponent` are the package limits (`BaseContext` and its
`WithPrecision` copies): every summand and the adjusted exponent
`sum + nd - 1` must lie within the limits, otherwise a trapped
`SystemOverflow`/`SystemUnderflow` condition is returned (`none`).  With
these contexts the subnormal and clamping branches cannot be reached, because
the adjusted exponent is already within `[MinExponent, MaxExponent]`. -/
def setExponent (coeff : Nat) (xs : List Int) : Option Int :=
  if xs.any (fun x => decide (x > MaxExponent ∨ x < MinExponent)) then none
  else
    let sum := xs.sum
    let adj := sum + NumDigits coeff - 1
    if adj > MaxExponent ∨ adj < MinExponent then none else some sum

/-- Embeds `Context.round(d, d)` with `Precision == 0` (rounding disabled): only the
exponent range is re-checked. -/
def roundDisabled (d : Decimal) : Option Decimal :=
  (setExponent d.Coeff [d.Exponent]).map (fun e => { d with Exponent := e })

/-- Embeds `Context.setIfNaN`: a signalling NaN operand wins and raises the trapped
`InvalidOperation`; otherwise the first quiet NaN is the result. `none`
means no operand is a NaN. -/
def setIfNaN (vals : List Decimal) : Option (Option Decimal) :=
  match vals.find? (fun v => decide (v.Form = Form.NaNSignaling)) with
  | some _ => some none
  | none =>
    match vals.find? (fun v => decide (v.Form = Form.NaN)) with
    | some v => some (some v)
    | none => none

/-- Embeds `upscale(a, b)`: align two coefficients on the smaller exponent; fails
when the exponents differ by more than `MaxExponent`. -/
def upscale (a b : Decimal) : Option (Nat × Nat × Int) :=
  if a.Exponent = b.Exponent then some (a.Coeff, b.Coeff, a.Exponent)
  else if a.Exponent < b.Exponent then
    let s := b.Exponent - a.Exponent
    if s > MaxExponent then none
    else some (a.Coeff, b.Coeff * 10 ^ s.toNat, a.Exponent)
  else
    let s := a.Exponent - b.Exponent
    if s > MaxExponent then none
    else some (a.Coeff * 10 ^ s.toNat, b.Coeff, b.Exponent)

/-- Embeds `Context.add(d, x, y, subtract)` under `BaseContext` (no rounding, rounding
mode not `RoundFloor`). -/
def add (x y : Decimal) (subtract : Bool) : Option Decimal :=
  let xn := x.Negative
  let yn := (y.Negative != subtract)
  match setIfNaN [x, y] with
  | some r => r
  | none =>
    if x.Form = Form.Infinite ∨ y.Form = Form.Infinite then
      if x.Form = Form.Infinite ∧ y.Form = Form.Infinite ∧ xn ≠ yn then none
      else if x.Form = Form.Infinite then some x
      else some { Form := Form.Infinite, Negative := yn, Exponent := 0, Coeff := 0 }
    else
      match upscale x y with
      | none => none
      | some (a, b, s) =>
        let r : Decimal :=
          if xn = yn then
            { Form := Form.Finite, Negative := xn, Exponent := s, Coeff := a + b }
          else if a < b then
            { Form := Form.Finite, Negative := !xn, Exponent := s, Coeff := b - a }
          else if a = b then
            { Form := Form.Finite, Negative := false, Exponent := s, Coeff := 0 }
          else
            { Form := Form.Finite, Negative := xn, Exponent := s, Coeff := a - b }
        roundDisabled r

/-- Embeds `BaseContext.Add`. -/
def Add (x y : Decimal) : Option Decimal := add x y false

/-- Embeds `BaseContext.Sub`. -/
def Sub (x y : Decimal) : Option Decimal := add x y true

/-- Embeds `BaseContext.Mul`. -/
def Mul (x y : Decimal) : Option Decimal :=
  match setIfNaN [x, y] with
  | some r => r
  | none =>
    let neg := (x.Negative != y.Negative)
    if x.Form = Form.Infinite ∨ y.Form = Form.Infinite then
      if x.IsZero ∨ y.IsZero then none
      else some { Form := Form.Infinite, Negative := neg, Exponent := 0, Coeff := 0 }
    else
      let c := x.Coeff * y.Coeff
      match setExponent c [x.Exponent, y.Exponent] with
      | none => none
      | some e =>
        roundDisabled { Form := Form.Finite, Negative := neg, Exponent := e, Coeff := c }

end apd

/-- Shape shared by `Add`, `Sub`, `Mul`, `DivPrecision`: initialise both
copies, run the `apd` operation into a fresh `res`, panic on an error. -/
def binop (f : apd.Decimal → apd.Decimal → Option apd.Decimal)
    (h : Heap) (d d2 : Decimal) : Option (Decimal × Heap) :=
  let (d', h1) := ensureInitialized h d
  let (d2', h2) := ensureInitialized h1 d2
  match d'.v, d2'.v with
  | some p, some q =>
    match h2[p]?, h2[q]? with
    | some x, some y =>
      match f x y with
      | some r => some ({ v := some h2.length }, h2 ++ [r])
      | none => none
    | _, _ => none
  | _, _ => none

/-- The `apd.Decimal` an operand stands for once `ensureInitialized` has run
on it: the pointee, or `apd.New(0, 0)` for the nil pointer. -/
def Decimal.load (h : Heap) (d : Decimal) : Option apd.Decimal :=
  match d.v with
  | none => some (apd.New 0 0)
  | some p => h[p]?

/-- Embeds `Decimal.Add`. -/
def Decimal.Add (h : Heap) (d d2 : Decimal) : Option (Decimal × Heap) :=
  binop apd.Add h d d2

/-- Embeds `Decimal.Sub`. -/
def Decimal.Sub (h : Heap) (d d2 : Decimal) : Option (Decimal × Heap) :=
  binop apd.Sub h d d2

/-- Embeds `Decimal.Mul`. -/
def Decimal.Mul (h : Heap) (d d2 : Decimal) : Option (Decimal × Heap) :=
  binop apd.Mul h d d2

/-- Embeds `Decimal.Cmp`: initialise both copies and compare the pointees. -/
def Decimal.Cmp (h : Heap) (d d2 : Decimal) : Option Int :=
  let (d', h1) := ensureInitialized h d
  let (d2', h2) := ensureInitialized h1 d2
  match d'.v, d2'.v with
  | some p, some q =>
    match h2[p]?, h2[q]? with
    | some x, some y => some (x.Cmp y)
    | _, _ => none
  | _, _ => none

/-- Embeds `Decimal.Less`: `d.Cmp(d2) == -1`. -/
def Decimal.Less (h : Heap) (d d2 : Decimal) : Option Bool :=
  (Decimal.Cmp h d d2).map (fun c => decide (c = -1))

/-- Embeds `Decimal.LessOrEqual`: `d.Cmp(d2) <= 0`. -/
def Decimal.LessOrEqual (h : Heap) (d d2 : Decimal) : Option Bool :=
  (Decimal.Cmp h d d2).map (fun c => decide (c ≤ 0))

/-- Embeds `Decimal.Greater`: `d.Cmp(d2) == 1`. -/
def Decimal.Greater (h : Heap) (d d2 : Decimal) : Option Bool :=
  (Decimal.Cmp h d d2).map (fun c => decide (c = 1))

/-- Embeds `Decimal.GreaterOrEqual`: `d.Cmp(d2) >= 0`. -/
def Decimal.GreaterOrEqual (h : Heap) (d d2 : Decimal) : Option Bool :=
  (Decimal.Cmp h d d2).map (fun c => decide (c ≥ 0))

/-- Embeds `Decimal.Equal`: `d.Cmp(d2) == 0`. -/
def Decimal.Equal (h : Heap) (d d2 : Decimal) : Option Bool :=
  (Decimal.Cmp h d d2).map (fun c => decide (c = 0))

namespace apd

/-- The constant `decimalHalf` (`New(5, -1)`). -/
def decimalHalf : Decimal := New 5 (-1)

/-- Embeds `roundAddOne(b, &diff)`: add one to the coefficient; when that adds a
digit, drop the new trailing zero and bump `diff`. -/
def roundAddOne (b : Nat) (diff : Int) : Nat × Int :=
  if NumDigits (b + 1) > NumDigits b then ((b + 1) / 10, diff + 1) else (b + 1, diff)

/-- Embeds `roundHalfUp(result, neg, half)`: the rounder selected when
`Context.Rounding` is left empty, as in `BaseContext`. -/
def roundHalfUp (_result : Nat) (_neg : Bool) (half : Int) : Bool := decide (half ≥ 0)

/-- Embeds `Rounder.Round(c, d, x, false)` for a context with precision `prec` whose
exponent limits are the package limits and whose rounder is the default. -/
def Round (prec : Nat) (x : Decimal) : Option Decimal :=
  let nd : Int := NumDigits x.Coeff
  if x.Sign ≠ 0 ∧ x.Exponent + nd - 1 < MinExponent then none
  else
    let diff : Int := nd - prec
    if diff > 0 then
      if diff > MaxExponent then none
      else if diff < MinExponent then none
      else
        let e := 10 ^ diff.toNat
        let y := x.Coeff / e
        let m := x.Coeff % e
        let r : Nat × Int :=
          if m ≠ 0 then
            let discard : Decimal :=
              { Form := Form.Finite, Negative := false, Exponent := -diff, Coeff := m }
            if roundHalfUp y x.Negative (discard.Cmp decimalHalf) then roundAddOne y diff
            else (y, diff)
          else (y, diff)
        (setExponent r.1 [x.Exponent, r.2]).map
          (fun ex => { x with Coeff := r.1, Exponent := ex })
    else
      (setExponent x.Coeff [x.Exponent, 0]).map (fun ex => { x with Exponent := ex })

/-- Embeds `Context.quantize(d, v, exp)`. -/
def quantize (v : Decimal) (exp : Int) : Option Decimal :=
  let diff := exp - v.Exponent
  if diff < 0 then
    if diff < MinExponent then none
    else some { v with Coeff := v.Coeff * 10 ^ (-diff).toNat, Exponent := exp }
  else if diff > 0 then
    let p : Int := NumDigits v.Coeff - diff
    if p < 0 then some { v with Coeff := 0, Exponent := exp }
    else
      match Round p.toNat { v with Exponent := -diff } with
      | none => none
      | some d =>
        some { d with Coeff := (if d.Exponent > 0 then d.Coeff * 10 else d.Coeff),
                      Exponent := exp }
  else some { v with Exponent := exp }

/-- Embeds `Context.Quantize(d, x, exp)` for a context with precision `prec`, the
package exponent limits and the default traps: a NaN operand is answered
first; an infinite operand or `exp < etiny` (`MinExponent - prec + 1`) is an
invalid operation; after `quantize`, a result with more than `prec` digits, or
`exp > MaxExponent`, is an invalid operation too. -/
def Quantize (prec : Nat) (x : Decimal) (exp : Int) : Option Decimal :=
  match setIfNaN [x] with
  | some r => r
  | none =>
    if x.Form = Form.Infinite ∨ exp < MinExponent - (prec : Int) + 1 then none
    else
      match quantize x exp with
      | none => none
      | some d =>
        if NumDigits d.Coeff > prec ∨ exp > MaxExponent then none else some d

end apd

/-- Embeds `Decimal.Round(n)`: `BaseContext.Quantize(&res, d.v, -int32(n))` on the
initialised copy, panicking on an error; `n` is a `uint16`.  `BaseContext` has
`Precision == 0`, which is the precision `Quantize` runs with. -/
def Decimal.Round (h : Heap) (d : Decimal) (n : Nat) : Option (Decimal × Heap) :=
  let (d', h1) := ensureInitialized h d
  match d'.v with
  | none => none
  | some p =>
    match h1[p]? with
    | none => none
    | some x =>
      match apd.Quantize 0 x (-((n % 65536 : Nat) : Int)) with
      | some r => some ({ v := some h1.length }, h1 ++ [r])
      | none => none

/-- Embeds `Decimal.InRangeInt(min, max)`. -/
def Decimal.InRangeInt (h : Heap) (d : Decimal) (min max : Int) : Option Bool :=
  let (d', h1) := ensureInitialized h d
  let (minD, h2) := FromInt h1 min
  let (maxD, h3) := FromInt h2 max
  match Decimal.Cmp h3 d' minD, Decimal.Cmp h3 d' maxD with
  | some a, some b => some (decide (a ≥ 0) && decide (b ≤ 0))
  | _, _ => none

/-- Embeds `Decimal.InRange(min, max)`. -/
def Decimal.InRange (h : Heap) (d min max : Decimal) : Option Bool :=
  let (d', h1) := ensureInitialized h d
  match Decimal.Cmp h1 d' min, Decimal.Cmp h1 d' max with
  | some a, some b => some (decide (a ≥ 0) && decide (b ≤ 0))
  | _, _ => none

/-- Embeds `Decimal.IsZero`. -/
def Decimal.IsZero (h : Heap) (d : Decimal) : Option Bool :=
  let (d', h1) := ensureInitialized h d
  match d'.v with
  | none => none
  | some p => h1[p]?.map apd.Decimal.IsZero

/-- Embeds `(*Decimal).IsNegative`: pointer receiver, so `ensureInitialized` stores
the fresh pointer in the caller's variable; the second component is that
variable after the call. -/
def Decimal.IsNegative (h : Heap) (d : Decimal) : Option (Bool × Decimal × Heap) :=
  let (d', h1) := ensureInitialized h d
  match d'.v with
  | none => none
  | some p => h1[p]?.map (fun x => (x.Negative, d', h1))

/-- Embeds `Decimal.Value`: the `driver.Value` of the pointee is its `String()`. -/
def Decimal.Value (h : Heap) (d : Decimal) : Option GoString :=
  let (d', h1) := ensureInitialized h d
  match d'.v with
  | none => none
  | some p => h1[p]?.map apd.Decimal.String

namespace apd

/-- First normalisation loop of `Quo`: while the dividend is less than the
divisor it is multiplied by 10 and `adjust` is incremented. -/
def quoScaleDividend : Nat → Nat → Nat → Int → Nat × Int
  | 0, dividend, _, adjust => (dividend, adjust)
  | fuel + 1, dividend, divisor, adjust =>
    if dividend < divisor then quoScaleDividend fuel (dividend * 10) divisor (adjust + 1)
    else (dividend, adjust)

/-- Second normalisation loop of `Quo`: while the dividend is at least ten
times the divisor, the divisor is multiplied by 10 and `adjust` decremented. -/
def quoScaleDivisor : Nat → Nat → Nat → Int → Nat × Int
  | 0, _, divisor, adjust => (divisor, adjust)
  | fuel + 1, dividend, divisor, adjust =>
    if dividend < divisor * 10 then (divisor, adjust)
    else quoScaleDivisor fuel dividend (divisor * 10) (adjust - 1)

/-- The subtraction loop of `Quo`: while the divisor is at most the dividend,
subtract it and increment the result coefficient. -/
def quoSubtract : Nat → Nat → Nat → Nat → Nat × Nat
  | 0, dividend, _, quo => (dividend, quo)
  | fuel + 1, dividend, divisor, quo =>
    if divisor ≤ dividend then quoSubtract fuel (dividend - divisor) divisor (quo + 1)
    else (dividend, quo)

/-- The digit loop of `Quo`: subtract, stop when the division is exact with
`adjust >= 0` or the result has `prec` digits, otherwise shift by one digit.
Returns the remaining dividend, the result coefficient and `adjust`. -/
def quoDigits : Nat → Nat → Nat → Nat → Int → Nat → Option (Nat × Nat × Int)
  | 0, _, _, _, _, _ => none
  | fuel + 1, dividend, divisor, quo, adjust, prec =>
    let s := quoSubtract dividend dividend divisor quo
    if (s.1 = 0 ∧ adjust ≥ 0) ∨ NumDigits s.2 = prec then some (s.1, s.2, adjust)
    else quoDigits fuel (s.1 * 10) divisor (s.2 * 10) (adjust + 1) prec

/-- Embeds `Context.Quo(d, x, y)` for `BaseContext.WithPrecision(prec)`: default
rounder (half up), default traps, package exponent limits.  Errors: a
signalling NaN operand, infinity over infinity, `prec == 0`, a zero divisor
(`DivisionUndefined`/`DivisionByZero` are trapped), and an exponent outside
the limits. -/
def Quo (prec : Nat) (x y : Decimal) : Option Decimal :=
  match setIfNaN [x, y] with
  | some r => r
  | none =>
    let neg := (x.Negative != y.Negative)
    if x.Form = Form.Infinite ∨ y.Form = Form.Infinite then
      if x.Form = Form.Infinite ∧ y.Form = Form.Infinite then none
      else if x.Form = Form.Infinite then
        some { Form := Form.Infinite, Negative := neg, Exponent := 0, Coeff := 0 }
      else
        some { Form := Form.Finite, Negative := neg,
               Exponent := MinExponent - (prec : Int) + 1, Coeff := 0 }
    else if prec = 0 then none
    else if y.IsZero then none
    else
      let r : Option (Nat × Int × Int) :=
        if x.IsZero then some (0, 0, 0)
        else
          let s1 := quoScaleDividend (NumDigits y.Coeff) x.Coeff y.Coeff 0
          let s2 := quoScaleDivisor (NumDigits s1.1) s1.1 y.Coeff s1.2
          match quoDigits (prec + 1) s1.1 s2.1 0 s2.2 prec with
          | none => none
          | some (rem, quo, adjust) =>
            if rem ≠ 0 then
              let half : Int := if rem * 2 < s2.1 then -1 else if rem * 2 = s2.1 then 0 else 1
              if roundHalfUp quo neg half then
                let a := roundAddOne quo 0
                some (a.1, adjust, a.2)
              else some (quo, adjust, 0)
            else some (quo, adjust, 0)
      match r with
      | none => none
      | some (quo, adjust, diff) =>
        (setExponent quo [x.Exponent, -y.Exponent, -adjust, diff]).map
          (fun e => { Form := Form.Finite, Negative := neg, Exponent := e, Coeff := quo })

end apd

/-- The process-wide default `DivisionPrecision`. -/
def DivisionPrecision : Nat := 32

/-- Embeds `Decimal.DivPrecision(d2, precision)`: `Quo` under
`BaseContext.WithPrecision(precision)` into a fresh `res`, panic on an error,
then `res.Reduce(&res)`; `precision` is a `uint32`. -/
def Decimal.DivPrecision (h : Heap) (d d2 : Decimal) (precision : Nat) :
    Option (Decimal × Heap) :=
  binop (fun x y => (apd.Quo (precision % 4294967296) x y).map (fun r => (apd.Reduce r r).1))
    h d d2

/-- Embeds `Decimal.Div(d2)`: `DivPrecision` with the global `DivisionPrecision`,
passed here as `dp`. -/
def Decimal.Div (h : Heap) (d d2 : Decimal) (dp : Nat) : Option (Decimal × Heap) :=
  Decimal.DivPrecision h d d2 dp

/-- What a caller observes of a call returning a Decimal: `none` when the
call panicked, otherwise the rendering `String()` of the result. -/
def observe (r : Option (Decimal × Heap)) : Option (Option GoString) :=
  r.map (fun p => Decimal.String p.2 p.1)

/-- Spec-side definition, following the words "rounded to that many
significant digits", with ties away from zero: `v` is `q` rounded to `p`
significant digits half up.  The magnitude of `q` is `(Q + f) * 10^E` with a
natural `Q` below `10^p` and a fraction `0 ≤ f < 1`; when `q` is not exactly
representable (`f ≠ 0`), `Q` has exactly `p` digits, so `10^E` is the unit of
the `p`-th significant digit; `v` has the sign of `q` and the magnitude
`Q * 10^E`, or `(Q + 1) * 10^E` when `f ≥ 1/2`. -/
def RoundedHalfUp (p : Nat) (q v : ℚ) : Prop :=
  ∃ (σ : ℚ) (Q : Nat) (E : Int) (f : ℚ), (σ = 1 ∨ σ = -1) ∧ 0 ≤ f ∧ f < 1 ∧
    q = σ * (((Q : ℚ) + f) * (10 : ℚ) ^ E) ∧ Q < 10 ^ p ∧ (f ≠ 0 → 10 ^ (p - 1) ≤ Q) ∧
    v = σ * (((Q : ℚ) + (if 1 ≤ 2 * f then 1 else 0)) * (10 : ℚ) ^ E)

namespace apd

/-- Embeds `strings.ToLower` on one character (`unicode.ToLower`): `A`..`Z` become
`a`..`z`, and two characters outside ASCII have an ASCII lower case, U+0130
(capital I with dot above, lower case `i`) and U+212A (Kelvin sign, lower
case `k`).  Every other character outside ASCII has a lower case outside
ASCII, which the parser below can only reject, whichever it is; such a
character is left as it is. -/
def toLower (c : Char) : Char :=
  if 65 ≤ c.toNat ∧ c.toNat ≤ 90 then Char.ofNat (c.toNat + 32)
  else if c.toNat = 304 then 'i'
  else if c.toNat = 8490 then 'k'
  else c

/-- The value of a decimal digit character. -/
def digitVal (c : Char) : Option Nat :=
  if 48 ≤ c.toNat ∧ c.toNat ≤ 57 then some (c.toNat - 48) else none

/-- Accumulate the value of a run of decimal digits; `none` on any other
character. -/
def parseDigitsAux : List Char → Nat → Option Nat
  | [], acc => some acc
  | c :: cs, acc =>
    match digitVal c with
    | none => none
    | some d => parseDigitsAux cs (acc * 10 + d)

/-- A non-empty run of decimal digits as a natural number. -/
def parseDigits (s : List Char) : Option Nat :=
  if s = [] then none else parseDigitsAux s 0

/-- Embeds `strconv.ParseInt(s, 10, 32)`: optional sign, digits, range of `int32`. -/
def parseInt32 (s : List Char) : Option Int :=
  match s with
  | '-' :: t =>
    match parseDigits t with
    | some n => if n ≤ 2147483648 then some (-(n : Int)) else none
    | none => none
  | '+' :: t =>
    match parseDigits t with
    | some n => if n ≤ 2147483647 then some (n : Int) else none
    | none => none
  | _ =>
    match parseDigits s with
    | some n => if n ≤ 2147483647 then some (n : Int) else none
    | none => none

/-- Embeds `BigInt.SetString(s, 10)` for the coefficient, as `setString` uses it: at
least one digit and nothing but digits (a sign inside the mantissa is an
error). -/
def parseCoeff (s : List Char) : Option Nat :=
  parseDigits s

/-- Split a list at the first occurrence of `c` (`strings.IndexByte`):
the part before and the part after it. -/
def splitFirst (c : Char) : List Char → Option (List Char × List Char)
  | [] => none
  | x :: xs =>
    if x = c then some ([], xs)
    else
      match splitFirst c xs with
      | none => none
      | some (a, b) => some (x :: a, b)

/-- Second half of the finite branch of `Decimal.setString`: split the
mantissa at the first `.`, appending minus the number of fraction digits to
the exponents, parse the coefficient and set the exponent to their sum. -/
def parseMantissa (neg : Bool) (m : List Char) (exps : List Int) : Option Decimal :=
  let r2 : List Char × List Int :=
    match splitFirst '.' m with
    | none => (m, exps)
    | some (a, b) => (a ++ b, exps ++ [-(b.length : Int)])
  match parseCoeff r2.1 with
  | none => none
  | some c =>
    (setExponent c r2.2).map
      (fun e => { Form := Form.Finite, Negative := neg, Exponent := e, Coeff := c })

/-- The finite branch of `Decimal.setString`: split off the exponent at the
first `e` and parse it with `strconv.ParseInt`, then handle the mantissa. -/
def parseFinite (neg : Bool) (s : List Char) : Option Decimal :=
  match splitFirst 'e' s with
  | none => parseMantissa neg s []
  | some (m, ex) =>
    match parseInt32 ex with
    | none => none
    | some v => parseMantissa neg m [v]

/-- Embeds `Decimal.setString` after the sign has been taken: a second sign is an
error; `infinity` and `inf` give an infinity; then a prefix `nan` is
stripped, and after it a prefix `snan`, and if either was there the result is
a NaN (signalling if `snan` was stripped) whose payload of digits is verified
with `strconv.ParseUint` and ignored; anything else goes through the finite
branch. -/
def setStringBody (neg : Bool) (s : List Char) : Option Decimal :=
  if s.head? = some '-' ∨ s.head? = some '+' then none
  else if s = "infinity".toList ∨ s = "inf".toList then
    some { Form := Form.Infinite, Negative := neg, Exponent := 0, Coeff := 0 }
  else
    let s1 := if "nan".toList.isPrefixOf s then s.drop 3 else s
    let s2 := if "snan".toList.isPrefixOf s1 then s1.drop 4 else s1
    if "nan".toList.isPrefixOf s ∨ "snan".toList.isPrefixOf s1 then
      if s2 = [] ∨ ((parseDigits s2).any (fun n => decide (n < 2 ^ 64))) then
        some { Form := (if "snan".toList.isPrefixOf s1 then Form.NaNSignaling else Form.NaN),
               Negative := neg, Exponent := 0, Coeff := 0 }
      else none
    else parseFinite neg s

/-- Embeds `Decimal.setString`: lower-case the input, take one leading sign, then
parse the rest. -/
def setString (s0 : List Char) : Option Decimal :=
  match s0.map toLower with
  | '-' :: t => setStringBody true t
  | '+' :: t => setStringBody false t
  | s1 => setStringBody false s1

/-- Embeds `apd.NewFromString(s)`: `BaseContext.SetString`, i.e. `setString` followed
by `Context.round` (a range check only, the precision being 0). -/
def NewFromString (s : List Char) : Option Decimal :=
  (setString s).bind roundDisabled

end apd

/-- Embeds `FromStr(str)`: `none` stands for the returned error. -/
def FromStr (h : Heap) (str : GoString) : Option (Decimal × Heap) :=
  (apd.NewFromString str.toList).map (fun d => ({ v := some h.length }, h ++ [d]))

namespace apd

/-- The shape of every decimal `NewFromString` returns: a finite one has its
exponent and its adjusted exponent within the package limits; a special one
(infinity, NaN) has coefficient and exponent zero. -/
def Decimal.parsed (x : Decimal) : Prop :=
  (x.Form = Form.Finite ∧ MinExponent ≤ x.Exponent ∧ x.Exponent ≤ MaxExponent ∧
      MinExponent ≤ x.Exponent + NumDigits x.Coeff - 1 ∧
      x.Exponent + NumDigits x.Coeff - 1 ≤ MaxExponent) ∨
    (x.Form ≠ Form.Finite ∧ x.Coeff = 0 ∧ x.Exponent = 0)

end apd

/-- The values of a Go `float64` as far as `strconv` formatting tells them
apart: not-a-number, the two infinities, and a finite value given by the
digits of its shortest round-trip decimal (`digits`, read as one number, 0 for
zero) and the decimal exponent `exp` of the first digit, so that the value is
`± digits × 10^(exp - (number of digits - 1))`. -/
inductive Float64 where
  | NaN : Float64
  | Inf (neg : Bool) : Float64
  | Finite (neg : Bool) (digits : Nat) (exp : Int) : Float64

namespace strconv

/-- Embeds the exponent digits of `fmtE`: two digits at least. -/
def expDigits (n : Nat) : List Char :=
  if n < 10 then ['0', apd.digitChar n] else apd.digits n

/-- Embeds `strconv.AppendFloat(buf, f, 'E', -1, 64)`: `NaN`, `+Inf`, `-Inf`, or
`[-]d[.ddd]E±dd` on the shortest digits. -/
def FormatFloatE : Float64 → List Char
  | Float64.NaN => "NaN".toList
  | Float64.Inf false => "+Inf".toList
  | Float64.Inf true => "-Inf".toList
  | Float64.Finite neg m e =>
    let ds := apd.digits m
    let mant := if ds.length > 1 then ds.take 1 ++ ['.'] ++ ds.drop 1 else ds.take 1
    (if neg then ['-'] else []) ++
      (mant ++ ['E'] ++ (if e < 0 then ['-'] else ['+']) ++ expDigits e.natAbs)

end strconv

/-- The dynamic types of `src` that `apd.Decimal.Scan` switches on. -/
inductive ScanSrc where
  | bytes (b : GoString) : ScanSrc
  | string (s : GoString) : ScanSrc
  | int64 (i : Int) : ScanSrc
  | float64 (f : Float64) : ScanSrc
  | other : ScanSrc

namespace apd

/-- Embeds `(*Decimal).SetFloat64(f)`: `d.SetString` of the `'E'` formatting of `f`;
the result is the new contents of the receiver, `none` the returned error. -/
def SetFloat64 (f : Float64) : Option Decimal :=
  NewFromString (strconv.FormatFloatE f)

/-- Embeds `(*Decimal).UnmarshalText(b)`: `d.SetString(string(b))`, which writes the
parsed value into the receiver.  The result is the new contents of the
receiver `_d`; `none` is the returned error. -/
def Decimal.UnmarshalText (_d : Decimal) (text : GoString) : Option Decimal :=
  NewFromString text.toList

/-- Embeds `(*Decimal).Scan(src)`: `SetString` for `[]byte` and `string`, `SetInt64`
for `int64`, `SetFloat64` for `float64`, an error for any other type.  The
result is the new contents of the receiver `_d`; `none` is the returned
error. -/
def Decimal.Scan (_d : Decimal) (src : ScanSrc) : Option Decimal :=
  match src with
  | ScanSrc.bytes b => NewFromString b.toList
  | ScanSrc.string s => NewFromString s.toList
  | ScanSrc.int64 i => some (New i 0)
  | ScanSrc.float64 f => SetFloat64 f
  | ScanSrc.other => none

end apd

/-- Embeds `FromFloat64(f)`: `apd.New(0, 0)` then `SetFloat64(f)` on it; `none`
stands for the returned error. -/
def FromFloat64 (h : Heap) (f : Float64) : Option (Decimal × Heap) :=
  (apd.SetFloat64 f).map (fun d => ({ v := some h.length }, h ++ [d]))

/-- Embeds `(*Decimal).UnmarshalText(text)`: pointer receiver, so
`ensureInitialized` stores a fresh pointer in the caller's variable, then
`d.v.UnmarshalText(text)` writes into the cell `d.v` points to.  The result is
the caller's variable and the heap after a `nil` error; `none` stands for a
returned error (what a failed parse leaves in the cell is not tracked). -/
def Decimal.UnmarshalText (h : Heap) (d : Decimal) (text : GoString) :
    Option (Decimal × Heap) :=
  let (d', h1) := ensureInitialized h d
  match d'.v with
  | none => none
  | some p =>
    match h1[p]? with
    | none => none
    | some x => (apd.Decimal.UnmarshalText x text).map (fun y => (d', h1.set p y))

/-- Embeds `(*Decimal).Scan(src)`: pointer receiver, `ensureInitialized`, then
`d.v.Scan(src)` writes into the cell `d.v` points to.  Results as for
`UnmarshalText`. -/
def Decimal.Scan (h : Heap) (d : Decimal) (src : ScanSrc) : Option (Decimal × Heap) :=
  let (d', h1) := ensureInitialized h d
  match d'.v with
  | none => none
  | some p =>
    match h1[p]? with
    | none => none
    | some x => (apd.Decimal.Scan x src).map (fun y => (d', h1.set p y))

namespace apd

/-- Whether `c` is a decimal digit. -/
def isDigit (c : Char) : Bool := decide (48 ≤ c.toNat ∧ c.toNat ≤ 57)

/-- An optional sign followed by one digit at least and nothing else. -/
def signedDigits (l : List Char) : Bool :=
  match l with
  | '+' :: t => !t.isEmpty && t.all isDigit
  | '-' :: t => !t.isEmpty && t.all isDigit
  | _ => !l.isEmpty && l.all isDigit

/-- Digits with at most one decimal point among them, and one digit at least. -/
def mantissaText (l : List Char) : Bool :=
  l.all (fun c => isDigit c || c == '.') && decide (l.count '.' ≤ 1) && l.any isDigit

/-- A text without its leading sign, if it has one. -/
def stripSign : List Char → List Char
  | '+' :: r => r
  | '-' :: r => r
  | t => t

/-- Standard decimal notation in the words of the specification: an optional
sign, digits with an optional decimal point, and an optional exponent, which
is the marker `e` or `E` followed by a signed integer. -/
def decimalText (s : List Char) : Bool :=
  let body := stripSign (s.map (fun c => if c = 'E' then 'e' else c))
  match splitFirst 'e' body with
  | none => mantissaText body
  | some (m, ex) => mantissaText m && signedDigits ex

/-- The lower-case words for the special values: `inf`, `infinity`, and `nan`,
`snan` or `nansnan` followed by digits only. -/
def specialWord (s : List Char) : Bool :=
  s == "inf".toList || s == "infinity".toList ||
    ("nan".toList.isPrefixOf s && (s.drop 3).all isDigit) ||
    ("snan".toList.isPrefixOf s && (s.drop 4).all isDigit) ||
    ("nansnan".toList.isPrefixOf s && (s.drop 7).all isDigit)

/-- Whether a text is, letter case (`strings.ToLower`) and one leading sign
apart, one of the special words. -/
def specialText (s : List Char) : Bool :=
  specialWord (stripSign (s.map toLower))

end apd

/-! ## Theorems -/

/-- C1: with `d = FromStr("1.230")`, `d.Reduce()` returns a Decimal that
renders `"0"` (not `"1.23"`), and that is not `Equal` to a second
`FromStr("1.230")`, i.e. to the value `d` had before the call. -/
theorem Reduce_returns_zero_not_operand :
    ∃ d h r h1 d' h2, FromStr [] "1.230" = some (d, h) ∧
      Decimal.Reduce h d = some (r, h1) ∧ Decimal.String h1 r = some "0" ∧
      FromStr h1 "1.230" = some (d', h2) ∧ Decimal.Equal h2 r d' = some false := by
  refine ⟨⟨some 0⟩, [⟨apd.Form.Finite, false, -3, 1230⟩], ⟨some 1⟩,
    [apd.New 0 0, apd.zeroValue], ⟨some 2⟩,
    [apd.New 0 0, apd.zeroValue, ⟨apd.Form.Finite, false, -3, 1230⟩], ?_, ?_, ?_, ?_, ?_⟩ <;>
  decide

/-- C2: `Reduce` writes through the operand's pointer: with
`d = FromStr("1.23")` (`d.String() = "1.23"` before the call), after
`d.Reduce()` the same `d` renders `"0"`. -/
theorem Reduce_overwrites_operand :
    ∃ d h r h1, FromStr [] "1.23" = some (d, h) ∧ Decimal.String h d = some "1.23" ∧
      Decimal.Reduce h d = some (r, h1) ∧ Decimal.String h1 d = some "0" := by
  refine ⟨⟨some 0⟩, [⟨apd.Form.Finite, false, -2, 123⟩], ⟨some 1⟩,
    [apd.New 0 0, apd.zeroValue], ?_, ?_, ?_, ?_⟩ <;> decide

/-- C9: `Reduce` on the uninitialized Decimal (nil pointer) panics on every
heap, whereas on `FromInt(0)` it returns a Decimal rendering `"0"`. -/
theorem Reduce_uninitialized_panics :
    (∀ h : Heap, Decimal.Reduce h ⟨none⟩ = none) ∧
    ∃ r h1, Decimal.Reduce (FromInt [] 0).2 (FromInt [] 0).1 = some (r, h1) ∧
      Decimal.String h1 r = some "0" := by
  refine ⟨fun h => rfl, ⟨some 1⟩, [apd.New 0 0, apd.zeroValue], ?_, ?_⟩ <;> decide

namespace apd

theorem digitsAux_eq (fuel : Nat) : ∀ (n : Nat) (acc : List Char), 0 < n → n < fuel →
    digitsAux fuel n acc = ((Nat.digits 10 n).reverse.map digitChar) ++ acc := by
  induction fuel with
  | zero => intro n acc _ h; omega
  | succ f ih =>
    intro n acc hn hf
    rw [Nat.digits_def' (by norm_num) hn]
    unfold digitsAux
    by_cases h0 : n / 10 = 0
    · simp [h0, digitChar]
    · simp only [h0, if_false]
      rw [ih (n / 10) _ (Nat.pos_of_ne_zero h0) (by omega)]
      simp [digitChar]

theorem digits_zero : digits 0 = ['0'] := by decide

theorem digits_pos (n : Nat) (hn : 0 < n) :
    digits n = (Nat.digits 10 n).reverse.map digitChar := by
  unfold digits
  rw [digitsAux_eq (n + 1) n [] hn (by omega)]
  simp

theorem NumDigits_zero : NumDigits 0 = 1 := by decide

theorem NumDigits_pos (n : Nat) (hn : 0 < n) : NumDigits n = Nat.log 10 n + 1 := by
  unfold NumDigits
  rw [digits_pos n hn]
  simp [Nat.digits_len 10 n (by norm_num) (by omega)]

theorem NumDigits_ge_one (n : Nat) : 1 ≤ NumDigits n := by
  rcases Nat.eq_zero_or_pos n with h | h
  · subst h; simp [NumDigits_zero]
  · rw [NumDigits_pos n h]; omega

theorem lt_pow_NumDigits (n : Nat) : n < 10 ^ NumDigits n := by
  rcases Nat.eq_zero_or_pos n with h | h
  · subst h; simp
  · rw [NumDigits_pos n h]; exact Nat.lt_pow_succ_log_self (by norm_num) n

theorem pow_NumDigits_le (n : Nat) (hn : 0 < n) : 10 ^ (NumDigits n - 1) ≤ n := by
  rw [NumDigits_pos n hn]
  simpa using Nat.pow_log_le_self 10 (by omega : n ≠ 0)

end apd

namespace apd

theorem ten_zpow_pos (e : Int) : (0 : ℚ) < (10 : ℚ) ^ e := by positivity

theorem scale_split (ea eb : Int) (h : ea ≤ eb) :
    (10 : ℚ) ^ eb = (10 : ℚ) ^ ea * ((10 ^ (eb - ea).toNat : Nat) : ℚ) := by
  have h1 : eb = ea + ((eb - ea).toNat : Int) := by
    rw [Int.toNat_of_nonneg (by omega)]; ring
  conv_lhs => rw [h1]
  rw [zpow_add₀ (by norm_num), zpow_natCast]
  push_cast
  ring

theorem scaled_lt (ca cb : Nat) (ea eb : Int) (h : ea ≤ eb) :
    ((ca : ℚ) * (10 : ℚ) ^ ea < (cb : ℚ) * (10 : ℚ) ^ eb) ↔
      ca < cb * 10 ^ (eb - ea).toNat := by
  rw [scale_split ea eb h]
  have hp := ten_zpow_pos ea
  rw [show (cb : ℚ) * ((10 : ℚ) ^ ea * ((10 ^ (eb - ea).toNat : Nat) : ℚ))
      = ((cb * 10 ^ (eb - ea).toNat : Nat) : ℚ) * (10 : ℚ) ^ ea by push_cast; ring]
  rw [mul_lt_mul_right hp]
  exact Nat.cast_lt

theorem scaled_gt (ca cb : Nat) (ea eb : Int) (h : ea ≤ eb) :
    ((cb : ℚ) * (10 : ℚ) ^ eb < (ca : ℚ) * (10 : ℚ) ^ ea) ↔
      cb * 10 ^ (eb - ea).toNat < ca := by
  rw [scale_split ea eb h]
  have hp := ten_zpow_pos ea
  rw [show (cb : ℚ) * ((10 : ℚ) ^ ea * ((10 ^ (eb - ea).toNat : Nat) : ℚ))
      = ((cb * 10 ^ (eb - ea).toNat : Nat) : ℚ) * (10 : ℚ) ^ ea by push_cast; ring]
  rw [mul_lt_mul_right hp]
  exact Nat.cast_lt

/-- Comparing magnitudes `ca * 10^ea` and `cb * 10^eb` by aligning on the
smaller exponent. -/
theorem cmpQ_scaled (ca cb : Nat) (ea eb : Int) (h : ea ≤ eb) :
    cmpQ ((ca : ℚ) * (10 : ℚ) ^ ea) ((cb : ℚ) * (10 : ℚ) ^ eb) =
      (if ca < cb * 10 ^ (eb - ea).toNat then -1
       else if ca = cb * 10 ^ (eb - ea).toNat then 0 else 1) := by
  unfold cmpQ
  by_cases h1 : ca < cb * 10 ^ (eb - ea).toNat
  · rw [if_pos ((scaled_lt ca cb ea eb h).2 h1), if_pos h1]
  · have h1' := mt (scaled_lt ca cb ea eb h).1 h1
    rw [if_neg h1', if_neg h1]
    by_cases h2 : ca = cb * 10 ^ (eb - ea).toNat
    · have : ¬ (cb : ℚ) * (10 : ℚ) ^ eb < (ca : ℚ) * (10 : ℚ) ^ ea := by
        rw [scaled_gt ca cb ea eb h]; omega
      rw [if_pos h2, if_pos (le_antisymm (not_lt.1 this) (not_lt.1 h1'))]
    · have : (cb : ℚ) * (10 : ℚ) ^ eb < (ca : ℚ) * (10 : ℚ) ^ ea := by
        rw [scaled_gt ca cb ea eb h]; omega
      rw [if_neg h2, if_neg (ne_of_gt this)]

theorem cmpQ_swap (x y : ℚ) : cmpQ y x = -cmpQ x y := by
  unfold cmpQ
  rcases lt_trichotomy x y with h | h | h
  · simp [h, not_lt.2 (le_of_lt h), ne_of_gt h, ne_of_lt h]
  · simp [h]
  · simp [h, not_lt.2 (le_of_lt h), ne_of_gt h, ne_of_lt h]

theorem cmpQ_neg (x y : ℚ) : cmpQ (-x) (-y) = -cmpQ x y := by
  unfold cmpQ
  rcases lt_trichotomy x y with h | h | h
  · simp [h, not_lt.2 (le_of_lt h), ne_of_gt h, ne_of_lt h]
  · simp [h]
  · simp [h, not_lt.2 (le_of_lt h), ne_of_gt h, ne_of_lt h]

end apd

namespace apd

theorem mag_lt_of_adj (ca cb : Nat) (ea eb : Int) (hb : 0 < cb)
    (h : (NumDigits ca : Int) + ea < (NumDigits cb : Int) + eb) :
    (ca : ℚ) * (10 : ℚ) ^ ea < (cb : ℚ) * (10 : ℚ) ^ eb := by
  have h1 : (ca : ℚ) < (10 : ℚ) ^ ((NumDigits ca : Nat) : Int) := by
    rw [zpow_natCast]; exact_mod_cast lt_pow_NumDigits ca
  have h2 : (10 : ℚ) ^ (((NumDigits cb - 1 : Nat)) : Int) ≤ (cb : ℚ) := by
    rw [zpow_natCast]; exact_mod_cast pow_NumDigits_le cb hb
  have hnb := NumDigits_ge_one cb
  calc (ca : ℚ) * (10 : ℚ) ^ ea
      < (10 : ℚ) ^ ((NumDigits ca : Nat) : Int) * (10 : ℚ) ^ ea :=
        mul_lt_mul_of_pos_right h1 (ten_zpow_pos ea)
    _ = (10 : ℚ) ^ (((NumDigits ca : Nat) : Int) + ea) := by
        rw [zpow_add₀ (by norm_num)]
    _ ≤ (10 : ℚ) ^ ((((NumDigits cb - 1 : Nat)) : Int) + eb) :=
        zpow_le_zpow_right₀ (by norm_num) (by omega)
    _ = (10 : ℚ) ^ (((NumDigits cb - 1 : Nat)) : Int) * (10 : ℚ) ^ eb := by
        rw [zpow_add₀ (by norm_num)]
    _ ≤ (cb : ℚ) * (10 : ℚ) ^ eb :=
        mul_le_mul_of_nonneg_right h2 (le_of_lt (ten_zpow_pos eb))

theorem magCmp_eq (ca cb : Nat) (ea eb : Int) (ha : 0 < ca) (hb : 0 < cb) :
    magCmp ca cb ea eb = cmpQ ((ca : ℚ) * (10 : ℚ) ^ ea) ((cb : ℚ) * (10 : ℚ) ^ eb) := by
  unfold magCmp
  by_cases he : ea = eb
  · subst he
    rw [if_pos rfl, cmpQ_scaled ca cb ea ea (le_refl _)]
    simp
  · rw [if_neg he]
    by_cases h1 : (NumDigits ca : Int) + ea < (NumDigits cb : Int) + eb
    · rw [if_pos h1]
      have := mag_lt_of_adj ca cb ea eb hb h1
      simp [cmpQ, this]
    · rw [if_neg h1]
      by_cases h2 : (NumDigits ca : Int) + ea > (NumDigits cb : Int) + eb
      · rw [if_pos h2]
        have := mag_lt_of_adj cb ca eb ea ha h2
        simp [cmpQ, not_lt.2 (le_of_lt this), ne_of_gt this]
      · rw [if_neg h2]
        by_cases h3 : ea < eb
        · rw [if_pos h3, cmpQ_scaled ca cb ea eb (le_of_lt h3)]
        · rw [if_neg h3, cmpQ_swap, cmpQ_scaled cb ca eb ea (by omega)]
          by_cases h4 : ca * 10 ^ (ea - eb).toNat < cb
          · simp [h4, not_lt.2 (le_of_lt h4), ne_of_gt h4]
          · by_cases h5 : ca * 10 ^ (ea - eb).toNat = cb
            · simp [h5]
            · have h6 : cb < ca * 10 ^ (ea - eb).toNat := by omega
              simp [h4, h5, h6, ne_of_lt h6]

end apd

namespace apd

theorem Cmp_finite_eq (na nb : Bool) (ea eb : Int) (ca cb : Nat) :
    Decimal.Cmp ⟨Form.Finite, na, ea, ca⟩ ⟨Form.Finite, nb, eb, cb⟩ =
      cmpQ (Decimal.value ⟨Form.Finite, na, ea, ca⟩) (Decimal.value ⟨Form.Finite, nb, eb, cb⟩) := by
  have hA := ten_zpow_pos ea
  have hB := ten_zpow_pos eb
  rcases Nat.eq_zero_or_pos ca with ha | ha <;> rcases Nat.eq_zero_or_pos cb with hb | hb
  · subst ha; subst hb
    simp [Decimal.Cmp, Decimal.Sign, Decimal.value, cmpQ]
  · subst ha
    have hb' : cb ≠ 0 := by omega
    have hpos : (0 : ℚ) < (cb : ℚ) * (10 : ℚ) ^ eb := by positivity
    cases nb
    · simp [Decimal.Cmp, Decimal.Sign, Decimal.value, cmpQ, hb', hpos]
    · have : ¬ (0 : ℚ) < -((cb : ℚ) * (10 : ℚ) ^ eb) := by linarith
      have h2 : (0 : ℚ) ≠ -((cb : ℚ) * (10 : ℚ) ^ eb) := by linarith
      simp [Decimal.Cmp, Decimal.Sign, Decimal.value, cmpQ, hb', this, h2]
  · subst hb
    have ha' : ca ≠ 0 := by omega
    have hpos : (0 : ℚ) < (ca : ℚ) * (10 : ℚ) ^ ea := by positivity
    cases na
    · have h2 : ¬ ((ca : ℚ) * (10 : ℚ) ^ ea < 0) := by linarith
      have h3 : ¬ ((ca : ℚ) * (10 : ℚ) ^ ea = 0) := by linarith
      simp [Decimal.Cmp, Decimal.Sign, Decimal.value, cmpQ, ha', h2, h3]
    · have h2 : (-((ca : ℚ) * (10 : ℚ) ^ ea) < 0) := by linarith
      simp [Decimal.Cmp, Decimal.Sign, Decimal.value, cmpQ, ha', h2]
  · have ha' : ca ≠ 0 := by omega
    have hb' : cb ≠ 0 := by omega
    have hpa : (0 : ℚ) < (ca : ℚ) * (10 : ℚ) ^ ea := by positivity
    have hpb : (0 : ℚ) < (cb : ℚ) * (10 : ℚ) ^ eb := by positivity
    have key := magCmp_eq ca cb ea eb ha hb
    cases na <;> cases nb
    · -- both positive
      have hv : cmpQ (Decimal.value ⟨Form.Finite, false, ea, ca⟩)
          (Decimal.value ⟨Form.Finite, false, eb, cb⟩) = magCmp ca cb ea eb := by
        rw [key]; simp [Decimal.value]
      rw [hv]
      simp only [Decimal.Cmp, Decimal.Sign, magCmp]
      simp [ha', hb']
    · have h1 : -((cb : ℚ) * (10 : ℚ) ^ eb) < (ca : ℚ) * (10 : ℚ) ^ ea := by linarith
      simp [Decimal.Cmp, Decimal.Sign, Decimal.value, cmpQ, ha', hb',
        not_lt.2 (le_of_lt h1), ne_of_gt h1]
    · have h1 : -((ca : ℚ) * (10 : ℚ) ^ ea) < (cb : ℚ) * (10 : ℚ) ^ eb := by linarith
      simp [Decimal.Cmp, Decimal.Sign, Decimal.value, cmpQ, ha', hb', h1]
    · have hv : cmpQ (Decimal.value ⟨Form.Finite, true, ea, ca⟩)
          (Decimal.value ⟨Form.Finite, true, eb, cb⟩) = -magCmp ca cb ea eb := by
        rw [key, ← cmpQ_neg]; simp [Decimal.value]
      rw [hv]
      simp only [Decimal.Cmp, Decimal.Sign, magCmp]
      simp [ha', hb']
      split_ifs <;> simp_all

/-- Function `Cmp` on finite decimals is the three-way comparison of their values. -/
theorem Cmp_eq_cmpQ (a b : Decimal) (ha : a.Form = Form.Finite) (hb : b.Form = Form.Finite) :
    a.Cmp b = cmpQ a.value b.value := by
  obtain ⟨fa, na, ea, ca⟩ := a
  obtain ⟨fb, nb, eb, cb⟩ := b
  simp only at ha hb
  subst ha; subst hb
  exact Cmp_finite_eq na nb ea eb ca cb

end apd

theorem getElem?_append_cell (h : Heap) (z x : apd.Decimal) (p : Nat)
    (hp : h[p]? = some x) : (h ++ [z])[p]? = some x := by
  have hlt : p < h.length := by
    by_contra hc
    rw [List.getElem?_eq_none (by omega)] at hp
    exact absurd hp (by simp)
  rw [List.getElem?_append_left hlt]; exact hp

theorem getElem?_append_new (h : Heap) (z : apd.Decimal) :
    (h ++ [z])[h.length]? = some z := by
  simp

theorem Decimal.Cmp_load (h : Heap) (d d2 : Decimal) (x y : apd.Decimal)
    (hx : d.load h = some x) (hy : d2.load h = some y) :
    Decimal.Cmp h d d2 = some (x.Cmp y) := by
  obtain ⟨v⟩ := d
  obtain ⟨v2⟩ := d2
  cases v with
  | none =>
    cases v2 with
    | none =>
      simp only [Decimal.load, Option.some.injEq] at hx hy
      subst hx; subst hy
      have h1 : (h ++ [apd.New 0 0] ++ [apd.New 0 0])[h.length]? = some (apd.New 0 0) :=
        getElem?_append_cell _ _ _ _ (getElem?_append_new h _)
      have h2 : (h ++ [apd.New 0 0] ++ [apd.New 0 0])[h.length + 1]? = some (apd.New 0 0) := by
        have := getElem?_append_new (h ++ [apd.New 0 0]) (apd.New 0 0)
        simpa using this
      simp only [Decimal.Cmp, ensureInitialized, List.length_append, List.length_singleton, h1, h2]
    | some q =>
      simp only [Decimal.load, Option.some.injEq] at hx hy
      subst hx
      have := getElem?_append_cell h (apd.New 0 0) y q hy
      simp [Decimal.Cmp, ensureInitialized, this]
  | some p =>
    cases v2 with
    | none =>
      simp only [Decimal.load, Option.some.injEq] at hx hy
      subst hy
      have := getElem?_append_cell h (apd.New 0 0) x p hx
      simp [Decimal.Cmp, ensureInitialized, this]
    | some q =>
      simp only [Decimal.load] at hx hy
      simp [Decimal.Cmp, ensureInitialized, hx, hy]

theorem cmpQ_self (x : ℚ) : apd.cmpQ x x = 0 := by simp [apd.cmpQ]

theorem cmpQ_le_zero_iff (x y : ℚ) : apd.cmpQ x y ≤ 0 ↔ x ≤ y := by
  unfold apd.cmpQ
  rcases lt_trichotomy x y with h | h | h
  · simp [h, le_of_lt h]
  · simp [h]
  · simp [h, not_lt.2 (le_of_lt h), ne_of_gt h, not_le.2 h]

theorem cmpQ_eq_zero_iff (x y : ℚ) : apd.cmpQ x y = 0 ↔ x = y := by
  unfold apd.cmpQ
  rcases lt_trichotomy x y with h | h | h
  · simp [h, ne_of_lt h]
  · simp [h]
  · simp [h, not_lt.2 (le_of_lt h), ne_of_gt h]

/-- C6: for finite operands (an uninitialized one counts as zero) `Cmp` returns
-1, 0 or 1 according to whether the rational value of the first is less than,
equal to or greater than that of the second, whatever the representation;
hence `Cmp(a,a) = 0`, `Cmp(b,a) = -Cmp(a,b)`, and `Cmp` is transitive. -/
theorem Cmp_is_value_order (h : Heap) (d1 d2 d3 : Decimal) (a b c : apd.Decimal)
    (h1 : d1.load h = some a) (h2 : d2.load h = some b) (h3 : d3.load h = some c)
    (fa : a.Form = apd.Form.Finite) (fb : b.Form = apd.Form.Finite)
    (fc : c.Form = apd.Form.Finite) :
    Decimal.Cmp h d1 d2 =
        some (if a.value < b.value then -1 else if a.value = b.value then 0 else 1) ∧
      Decimal.Cmp h d1 d1 = some 0 ∧
      Decimal.Cmp h d2 d1 = (Decimal.Cmp h d1 d2).map (fun r => -r) ∧
      (∀ r1 r2, Decimal.Cmp h d1 d2 = some r1 → Decimal.Cmp h d2 d3 = some r2 →
        r1 ≤ 0 → r2 ≤ 0 →
        ∃ r3, Decimal.Cmp h d1 d3 = some r3 ∧ r3 ≤ 0 ∧ (r3 = 0 → r1 = 0 ∧ r2 = 0)) := by
  rw [Decimal.Cmp_load h d1 d2 a b h1 h2, Decimal.Cmp_load h d1 d1 a a h1 h1,
    Decimal.Cmp_load h d2 d1 b a h2 h1, Decimal.Cmp_load h d2 d3 b c h2 h3,
    Decimal.Cmp_load h d1 d3 a c h1 h3,
    apd.Cmp_eq_cmpQ a b fa fb, apd.Cmp_eq_cmpQ a a fa fa, apd.Cmp_eq_cmpQ b a fb fa,
    apd.Cmp_eq_cmpQ b c fb fc, apd.Cmp_eq_cmpQ a c fa fc]
  refine ⟨rfl, by rw [cmpQ_self], by rw [apd.cmpQ_swap]; rfl, ?_⟩
  intro r1 r2 e1 e2 l1 l2
  simp only [Option.some.injEq] at e1 e2
  subst e1; subst e2
  rw [cmpQ_le_zero_iff] at l1 l2
  refine ⟨_, rfl, (cmpQ_le_zero_iff _ _).2 (le_trans l1 l2), ?_⟩
  intro h0
  rw [cmpQ_eq_zero_iff] at h0 ⊢
  rw [cmpQ_eq_zero_iff]
  constructor
  · exact le_antisymm l1 (h0 ▸ l2)
  · exact le_antisymm l2 (h0 ▸ l1)

/-- Witness for C6 on the heap holding `1.1`, `1.10` and `-0`, with the
uninitialized Decimal as third operand. -/
theorem Cmp_is_value_order_witness :
    Decimal.Cmp [⟨apd.Form.Finite, false, -1, 11⟩, ⟨apd.Form.Finite, false, -2, 110⟩,
        ⟨apd.Form.Finite, true, 0, 0⟩] ⟨some 0⟩ ⟨some 1⟩ = some 0 ∧
    Decimal.Cmp [⟨apd.Form.Finite, false, -1, 11⟩, ⟨apd.Form.Finite, false, -2, 110⟩,
        ⟨apd.Form.Finite, true, 0, 0⟩] ⟨some 2⟩ ⟨none⟩ = some 0 ∧
    Decimal.Cmp [⟨apd.Form.Finite, false, -1, 11⟩, ⟨apd.Form.Finite, false, -2, 110⟩,
        ⟨apd.Form.Finite, true, 0, 0⟩] ⟨some 0⟩ ⟨some 0⟩ = some 0 := by
  have hw := Cmp_is_value_order
    [⟨apd.Form.Finite, false, -1, 11⟩, ⟨apd.Form.Finite, false, -2, 110⟩,
      ⟨apd.Form.Finite, true, 0, 0⟩] ⟨some 0⟩ ⟨some 1⟩ ⟨none⟩
    ⟨apd.Form.Finite, false, -1, 11⟩ ⟨apd.Form.Finite, false, -2, 110⟩ (apd.New 0 0)
    rfl rfl rfl rfl rfl rfl
  exact ⟨by decide, by decide, hw.2.1⟩

namespace apd

theorem NumDigits_le_of_lt_pow (c k : Nat) (hk : 1 ≤ k) (h : c < 10 ^ k) : NumDigits c ≤ k := by
  rcases Nat.eq_zero_or_pos c with h0 | h0
  · subst h0; simpa [NumDigits_zero] using hk
  · rw [NumDigits_pos c h0]
    have := Nat.log_lt_of_lt_pow (by omega : c ≠ 0) h
    omega

theorem setExponent_single (c : Nat) (e : Int) (h1 : MinExponent ≤ e) (h2 : e ≤ MaxExponent)
    (h3 : e + NumDigits c - 1 ≤ MaxExponent) : setExponent c [e] = some e := by
  have hn := NumDigits_ge_one c
  unfold setExponent
  simp only [MinExponent, MaxExponent] at *
  have h4 : ¬ (e > 100000 ∨ e < -100000) := by omega
  have h5 : ¬ (e + (NumDigits c : Int) - 1 > 100000 ∨ e + (NumDigits c : Int) - 1 < -100000) := by
    omega
  simp [h4, h5]

theorem roundDisabled_ok (d : Decimal) (h1 : MinExponent ≤ d.Exponent)
    (h2 : d.Exponent ≤ MaxExponent) (h3 : d.Exponent + NumDigits d.Coeff - 1 ≤ MaxExponent) :
    roundDisabled d = some d := by
  unfold roundDisabled
  rw [setExponent_single d.Coeff d.Exponent h1 h2 h3]
  rfl

theorem setIfNaN_finite2 (x y : Decimal) (fx : x.Form = Form.Finite) (fy : y.Form = Form.Finite) :
    setIfNaN [x, y] = none := by
  simp [setIfNaN, List.find?, fx, fy]

theorem setIfNaN_finite1 (x : Decimal) (fx : x.Form = Form.Finite) :
    setIfNaN [x] = none := by
  simp [setIfNaN, List.find?, fx]

/-- The coefficient of `c * 10^e` re-expressed on a smaller exponent `s`. -/
theorem rescale_value (c : Nat) (e s : Int) (h : s ≤ e) :
    ((c * 10 ^ (e - s).toNat : Nat) : ℚ) * (10 : ℚ) ^ s = (c : ℚ) * (10 : ℚ) ^ e := by
  rw [scale_split s e h]; push_cast; ring

theorem rescale_lt_pow (c : Nat) (k : Nat) : c * 10 ^ k < 10 ^ (NumDigits c + k) := by
  rw [pow_add]
  exact Nat.mul_lt_mul_of_pos_right (lt_pow_NumDigits c) (by positivity)

end apd

namespace apd

theorem upscale_eq (x y : Decimal) (h1 : x.Exponent - y.Exponent ≤ MaxExponent)
    (h2 : y.Exponent - x.Exponent ≤ MaxExponent) :
    upscale x y = some (x.Coeff * 10 ^ (x.Exponent - min x.Exponent y.Exponent).toNat,
      y.Coeff * 10 ^ (y.Exponent - min x.Exponent y.Exponent).toNat,
      min x.Exponent y.Exponent) := by
  unfold upscale
  by_cases he : x.Exponent = y.Exponent
  · rw [if_pos he, he]; simp
  · rw [if_neg he]
    by_cases hl : x.Exponent < y.Exponent
    · rw [if_pos hl, if_neg (by omega), min_eq_left (le_of_lt hl)]; simp
    · rw [if_neg hl, if_neg (by omega), min_eq_right (by omega)]; simp

/-- The signed value `(-1)^neg * c * 10^e`. -/
theorem value_mk (neg : Bool) (e : Int) (c : Nat) :
    Decimal.value ⟨Form.Finite, neg, e, c⟩ =
      (if neg then -1 else 1) * (c : ℚ) * (10 : ℚ) ^ e := rfl

theorem NumDigits_add_bound (a b K : Nat) (ha : a < 10 ^ K) (hb : b < 10 ^ K) (c : Nat)
    (hc : c ≤ a + b) : NumDigits c ≤ K + 1 := by
  apply NumDigits_le_of_lt_pow c (K + 1) (by omega)
  rw [pow_succ]; omega


end apd

namespace apd
/-- Function `add` on finite operands within the exponent limits: the result exists,
is finite, sits on the smaller exponent and has the exact value. -/
theorem add_exact (x y : Decimal) (sub : Bool)
    (fx : x.Form = Form.Finite) (fy : y.Form = Form.Finite)
    (h1 : x.Exponent - y.Exponent ≤ MaxExponent) (h2 : y.Exponent - x.Exponent ≤ MaxExponent)
    (lx : MinExponent ≤ x.Exponent) (ly : MinExponent ≤ y.Exponent)
    (ux : x.Exponent + NumDigits x.Coeff ≤ MaxExponent)
    (uy : y.Exponent + NumDigits y.Coeff ≤ MaxExponent) :
    ∃ r, add x y sub = some r ∧ r.Form = Form.Finite ∧
      r.Exponent = min x.Exponent y.Exponent ∧
      r.value = x.value + (if sub then -y.value else y.value) := by
  obtain ⟨f1, nx, ex, cx⟩ := x
  obtain ⟨f2, ny, ey, cy⟩ := y
  simp only at fx fy h1 h2 lx ly ux uy
  subst fx; subst fy
  set s := min ex ey with hs
  set a := cx * 10 ^ (ex - s).toNat with ha
  set b := cy * 10 ^ (ey - s).toNat with hb
  have hsx : s ≤ ex := min_le_left _ _
  have hsy : s ≤ ey := min_le_right _ _
  have hA : (a : ℚ) * (10 : ℚ) ^ s = (cx : ℚ) * (10 : ℚ) ^ ex := rescale_value cx ex s hsx
  have hB : (b : ℚ) * (10 : ℚ) ^ s = (cy : ℚ) * (10 : ℚ) ^ ey := rescale_value cy ey s hsy
  have hnx := NumDigits_ge_one cx
  have hny := NumDigits_ge_one cy
  simp only [MinExponent, MaxExponent] at h1 h2 lx ly ux uy
  have hsl : -100000 ≤ s := le_min lx ly
  -- digit bound on any coefficient below a + b
  have hbound : ∀ c : Nat, c ≤ a + b → s + (NumDigits c : Int) - 1 ≤ 100000 := by
    intro c hc
    set K := max (NumDigits cx + (ex - s).toNat) (NumDigits cy + (ey - s).toNat) with hK
    have hak : a < 10 ^ K :=
      lt_of_lt_of_le (rescale_lt_pow cx _) (Nat.pow_le_pow_right (by norm_num) (le_max_left _ _))
    have hbk : b < 10 ^ K :=
      lt_of_lt_of_le (rescale_lt_pow cy _) (Nat.pow_le_pow_right (by norm_num) (le_max_right _ _))
    have := NumDigits_add_bound a b K hak hbk c hc
    have hK1 : (K : Int) ≤ 100000 - s := by
      have e1 : ((ex - s).toNat : Int) = ex - s := Int.toNat_of_nonneg (by omega)
      have e2 : ((ey - s).toNat : Int) = ey - s := Int.toNat_of_nonneg (by omega)
      rcases max_cases (NumDigits cx + (ex - s).toNat) (NumDigits cy + (ey - s).toNat)
        with ⟨hm, _⟩ | ⟨hm, _⟩
      · rw [hK, hm]; push_cast; omega
      · rw [hK, hm]; push_cast; omega
    omega
  have hrd : ∀ (n : Bool) (c : Nat), c ≤ a + b →
      roundDisabled ⟨Form.Finite, n, s, c⟩ = some ⟨Form.Finite, n, s, c⟩ := by
    intro n c hc
    apply roundDisabled_ok
    · simpa [MinExponent] using hsl
    · have := hbound c hc
      have := NumDigits_ge_one c
      simp only [MaxExponent]; omega
    · simpa [MaxExponent] using hbound c hc
  have hup := upscale_eq ⟨Form.Finite, nx, ex, cx⟩ ⟨Form.Finite, ny, ey, cy⟩
    (by simpa [MaxExponent] using h1) (by simpa [MaxExponent] using h2)
  change upscale _ _ = some (a, b, s) at hup
  unfold add
  rw [setIfNaN_finite2 _ _ rfl rfl]
  simp only [hup]
  have hfin : ¬ ((Form.Finite = Form.Infinite) ∨ (Form.Finite = Form.Infinite)) := by simp
  simp only [hfin, if_false]
  by_cases hsgn : nx = (ny != sub)
  · rw [if_pos hsgn, hrd nx (a + b) (le_refl _)]
    refine ⟨_, rfl, rfl, rfl, ?_⟩
    rw [value_mk, value_mk, value_mk]
    push_cast
    have : ((a : ℚ) + b) * (10 : ℚ) ^ s = (cx : ℚ) * (10 : ℚ) ^ ex + (cy : ℚ) * (10 : ℚ) ^ ey := by
      rw [add_mul, hA, hB]
    cases nx <;> cases ny <;> cases sub <;> simp at hsgn <;> simp <;>
      first | linear_combination this | linear_combination -this
  · rw [if_neg hsgn]
    by_cases hlt : a < b
    · rw [if_pos hlt, hrd (!nx) (b - a) (by omega)]
      refine ⟨_, rfl, rfl, rfl, ?_⟩
      rw [value_mk, value_mk, value_mk]
      rw [Nat.cast_sub (le_of_lt hlt)]
      have : ((b : ℚ) - a) * (10 : ℚ) ^ s = (cy : ℚ) * (10 : ℚ) ^ ey - (cx : ℚ) * (10 : ℚ) ^ ex := by
        rw [sub_mul, hA, hB]
      cases nx <;> cases ny <;> cases sub <;> simp at hsgn <;> simp <;>
      first | linear_combination this | linear_combination -this
    · rw [if_neg hlt]
      by_cases heq : a = b
      · rw [if_pos heq, hrd false 0 (by omega)]
        refine ⟨_, rfl, rfl, rfl, ?_⟩
        rw [value_mk, value_mk, value_mk]
        have : (cx : ℚ) * (10 : ℚ) ^ ex = (cy : ℚ) * (10 : ℚ) ^ ey := by
          rw [← hA, ← hB, heq]
        cases nx <;> cases ny <;> cases sub <;> simp at hsgn <;> simp <;>
      first | linear_combination this | linear_combination -this
      · rw [if_neg heq, hrd nx (a - b) (by omega)]
        refine ⟨_, rfl, rfl, rfl, ?_⟩
        rw [value_mk, value_mk, value_mk]
        rw [Nat.cast_sub (by omega)]
        have : ((a : ℚ) - b) * (10 : ℚ) ^ s = (cx : ℚ) * (10 : ℚ) ^ ex - (cy : ℚ) * (10 : ℚ) ^ ey := by
          rw [sub_mul, hA, hB]
        cases nx <;> cases ny <;> cases sub <;> simp at hsgn <;> simp <;>
      first | linear_combination this | linear_combination -this

end apd

namespace apd

theorem NumDigits_mul_le (a b : Nat) : NumDigits (a * b) ≤ NumDigits a + NumDigits b := by
  apply NumDigits_le_of_lt_pow _ _ (by have := NumDigits_ge_one a; omega)
  rw [pow_add]
  exact Nat.mul_lt_mul'' (lt_pow_NumDigits a) (lt_pow_NumDigits b)

theorem setExponent_pair (c : Nat) (e1 e2 : Int)
    (l1 : MinExponent ≤ e1) (u1 : e1 ≤ MaxExponent)
    (l2 : MinExponent ≤ e2) (u2 : e2 ≤ MaxExponent)
    (l : MinExponent ≤ e1 + e2 + NumDigits c - 1)
    (u : e1 + e2 + NumDigits c - 1 ≤ MaxExponent) :
    setExponent c [e1, e2] = some (e1 + e2) := by
  unfold setExponent
  simp only [MinExponent, MaxExponent] at *
  have h4 : ¬ (e1 > 100000 ∨ e1 < -100000) := by omega
  have h5 : ¬ (e2 > 100000 ∨ e2 < -100000) := by omega
  have h6 : ¬ (e1 + e2 + (NumDigits c : Int) - 1 > 100000 ∨
      e1 + e2 + (NumDigits c : Int) - 1 < -100000) := by omega
  simp [h4, h5, h6]

/-- Function `Mul` on finite operands within the exponent limits: coefficients
multiply, exponents add, the sign is the exclusive or of the signs. -/
theorem Mul_exact (x y : Decimal)
    (fx : x.Form = Form.Finite) (fy : y.Form = Form.Finite)
    (lx : MinExponent ≤ x.Exponent) (ly : MinExponent ≤ y.Exponent)
    (ux : x.Exponent ≤ MaxExponent) (uy : y.Exponent ≤ MaxExponent)
    (l : MinExponent ≤ x.Exponent + y.Exponent)
    (u : x.Exponent + NumDigits x.Coeff + (y.Exponent + NumDigits y.Coeff) ≤ MaxExponent + 1) :
    ∃ r, Mul x y = some r ∧ r.Form = Form.Finite ∧
      r.Coeff = x.Coeff * y.Coeff ∧ r.Exponent = x.Exponent + y.Exponent ∧
      r.value = x.value * y.value := by
  obtain ⟨f1, nx, ex, cx⟩ := x
  obtain ⟨f2, ny, ey, cy⟩ := y
  simp only at fx fy lx ly ux uy l u
  subst fx; subst fy
  have hm := NumDigits_mul_le cx cy
  have h1 := NumDigits_ge_one (cx * cy)
  have hnx := NumDigits_ge_one cx
  have hny := NumDigits_ge_one cy
  simp only [MinExponent, MaxExponent] at lx ly ux uy l u
  have hse : setExponent (cx * cy) [ex, ey] = some (ex + ey) := by
    apply setExponent_pair <;> simp only [MinExponent, MaxExponent] <;> omega
  have hrd : roundDisabled ⟨Form.Finite, (nx != ny), ex + ey, cx * cy⟩ =
      some ⟨Form.Finite, (nx != ny), ex + ey, cx * cy⟩ := by
    apply roundDisabled_ok <;> simp only [MinExponent, MaxExponent] <;> omega
  unfold Mul
  rw [setIfNaN_finite2 _ _ rfl rfl]
  have hfin : ¬ ((Form.Finite = Form.Infinite) ∨ (Form.Finite = Form.Infinite)) := by simp
  simp only [hfin, if_false, hse, hrd]
  refine ⟨_, rfl, rfl, rfl, rfl, ?_⟩
  rw [value_mk, value_mk, value_mk, zpow_add₀ (by norm_num)]
  push_cast
  cases nx <;> cases ny <;> simp <;> ring

end apd

/-- The heap after `ensureInitialized` has run on both operands of a binary
operation. -/
theorem binop_load (f : apd.Decimal → apd.Decimal → Option apd.Decimal)
    (h : Heap) (d d2 : Decimal) (x y r : apd.Decimal)
    (hx : d.load h = some x) (hy : d2.load h = some y) (hr : f x y = some r) :
    ∃ res h1, binop f h d d2 = some (res, h1) ∧ res.load h1 = some r ∧
      ∀ (p : Nat) (z : apd.Decimal), h[p]? = some z → h1[p]? = some z := by
  obtain ⟨v⟩ := d
  obtain ⟨v2⟩ := d2
  cases v with
  | none =>
    cases v2 with
    | none =>
      simp only [Decimal.load, Option.some.injEq] at hx hy
      subst hx; subst hy
      have h1 : (h ++ [apd.New 0 0] ++ [apd.New 0 0])[h.length]? = some (apd.New 0 0) :=
        getElem?_append_cell _ _ _ _ (getElem?_append_new h _)
      have h2 : (h ++ [apd.New 0 0] ++ [apd.New 0 0])[h.length + 1]? = some (apd.New 0 0) := by
        have := getElem?_append_new (h ++ [apd.New 0 0]) (apd.New 0 0)
        simpa using this
      refine ⟨⟨some (h ++ [apd.New 0 0] ++ [apd.New 0 0]).length⟩,
        h ++ [apd.New 0 0] ++ [apd.New 0 0] ++ [r], ?_, ?_, ?_⟩
      · simp only [binop, ensureInitialized, List.length_append, List.length_singleton, h1, h2, hr]
      · simp only [Decimal.load]; exact getElem?_append_new _ _
      · intro p z hp
        exact getElem?_append_cell _ _ _ _
          (getElem?_append_cell _ _ _ _ (getElem?_append_cell _ _ _ _ hp))
    | some q =>
      simp only [Decimal.load, Option.some.injEq] at hx hy
      subst hx
      have h1 := getElem?_append_cell h (apd.New 0 0) y q hy
      have h2 := getElem?_append_new h (apd.New 0 0)
      refine ⟨⟨some (h ++ [apd.New 0 0]).length⟩, h ++ [apd.New 0 0] ++ [r], ?_, ?_, ?_⟩
      · simp only [binop, ensureInitialized, h1, h2, hr]
      · simp only [Decimal.load]; exact getElem?_append_new _ _
      · intro p z hp
        exact getElem?_append_cell _ _ _ _ (getElem?_append_cell _ _ _ _ hp)
  | some p =>
    cases v2 with
    | none =>
      simp only [Decimal.load, Option.some.injEq] at hx hy
      subst hy
      have h1 := getElem?_append_cell h (apd.New 0 0) x p hx
      have h2 := getElem?_append_new h (apd.New 0 0)
      refine ⟨⟨some (h ++ [apd.New 0 0]).length⟩, h ++ [apd.New 0 0] ++ [r], ?_, ?_, ?_⟩
      · simp only [binop, ensureInitialized, h1, h2, hr]
      · simp only [Decimal.load]; exact getElem?_append_new _ _
      · intro p z hp
        exact getElem?_append_cell _ _ _ _ (getElem?_append_cell _ _ _ _ hp)
    | some q =>
      simp only [Decimal.load] at hx hy
      refine ⟨⟨some h.length⟩, h ++ [r], ?_, ?_, ?_⟩
      · simp only [binop, ensureInitialized, hx, hy, hr]
      · simp only [Decimal.load]; exact getElem?_append_new _ _
      · intro p z hp
        exact getElem?_append_cell _ _ _ _ hp

/-- A binary operation panics exactly when the `apd` operation fails. -/
theorem binop_none (f : apd.Decimal → apd.Decimal → Option apd.Decimal)
    (h : Heap) (d d2 : Decimal) (x y : apd.Decimal)
    (hx : d.load h = some x) (hy : d2.load h = some y) (hr : f x y = none) :
    binop f h d d2 = none := by
  obtain ⟨v⟩ := d
  obtain ⟨v2⟩ := d2
  cases v with
  | none =>
    cases v2 with
    | none =>
      simp only [Decimal.load, Option.some.injEq] at hx hy
      subst hx; subst hy
      have h1 : (h ++ [apd.New 0 0] ++ [apd.New 0 0])[h.length]? = some (apd.New 0 0) :=
        getElem?_append_cell _ _ _ _ (getElem?_append_new h _)
      have h2 : (h ++ [apd.New 0 0] ++ [apd.New 0 0])[h.length + 1]? = some (apd.New 0 0) := by
        have := getElem?_append_new (h ++ [apd.New 0 0]) (apd.New 0 0)
        simpa using this
      simp only [binop, ensureInitialized, List.length_append, List.length_singleton, h1, h2, hr]
    | some q =>
      simp only [Decimal.load, Option.some.injEq] at hx hy
      subst hx
      have h1 := getElem?_append_cell h (apd.New 0 0) y q hy
      have h2 := getElem?_append_new h (apd.New 0 0)
      simp only [binop, ensureInitialized, h1, h2, hr]
  | some p =>
    cases v2 with
    | none =>
      simp only [Decimal.load, Option.some.injEq] at hx hy
      subst hy
      have h1 := getElem?_append_cell h (apd.New 0 0) x p hx
      have h2 := getElem?_append_new h (apd.New 0 0)
      simp only [binop, ensureInitialized, h1, h2, hr]
    | some q =>
      simp only [Decimal.load] at hx hy
      simp only [binop, ensureInitialized, hx, hy, hr]

/-- C7 (as stated, refuted): `1E+100000` and `1E+1` are finite Decimals, yet
their product is not returned: `Mul` panics on the exponent overflow. -/
theorem Mul_overflow_panics :
    Decimal.Mul [⟨apd.Form.Finite, false, 100000, 1⟩, ⟨apd.Form.Finite, false, 1, 1⟩]
      ⟨some 0⟩ ⟨some 1⟩ = none := by
  decide

namespace apd

theorem roundDisabled_some (d r : Decimal) (h : roundDisabled d = some r) : r = d := by
  unfold roundDisabled at h
  cases hs : setExponent d.Coeff [d.Exponent] with
  | none => rw [hs] at h; simp at h
  | some e =>
    rw [hs] at h
    simp only [Option.map_some', Option.some.injEq] at h
    have he : e = d.Exponent := by
      unfold setExponent at hs
      simp only [List.sum_cons, List.sum_nil, add_zero] at hs
      split_ifs at hs
      simp only [Option.some.injEq] at hs
      exact hs.symm
    rw [← h, he]

theorem upscale_none (x y : Decimal)
    (h : ¬ (x.Exponent - y.Exponent ≤ MaxExponent ∧ y.Exponent - x.Exponent ≤ MaxExponent)) :
    upscale x y = none := by
  unfold upscale
  simp only [MaxExponent] at h ⊢
  by_cases he : x.Exponent = y.Exponent
  · exfalso; apply h; rw [he]; omega
  · rw [if_neg he]
    by_cases hl : x.Exponent < y.Exponent
    · rw [if_pos hl, if_pos (by omega)]
    · rw [if_neg hl, if_pos (by omega)]

/-- Function `add` on finite operands whose exponents differ by at most
`MaxExponent`: the candidate result handed to the final range check is finite,
sits on the smaller exponent and has the exact value. -/
theorem add_shape (x y : Decimal) (sub : Bool)
    (fx : x.Form = Form.Finite) (fy : y.Form = Form.Finite)
    (h1 : x.Exponent - y.Exponent ≤ MaxExponent) (h2 : y.Exponent - x.Exponent ≤ MaxExponent) :
    ∃ r0, add x y sub = roundDisabled r0 ∧ r0.Form = Form.Finite ∧
      r0.Exponent = min x.Exponent y.Exponent ∧
      r0.value = x.value + (if sub then -y.value else y.value) := by
  obtain ⟨f1, nx, ex, cx⟩ := x
  obtain ⟨f2, ny, ey, cy⟩ := y
  simp only at fx fy h1 h2
  subst fx; subst fy
  set s := min ex ey with hs
  set a := cx * 10 ^ (ex - s).toNat with ha
  set b := cy * 10 ^ (ey - s).toNat with hb
  have hsx : s ≤ ex := min_le_left _ _
  have hsy : s ≤ ey := min_le_right _ _
  have hA : (a : ℚ) * (10 : ℚ) ^ s = (cx : ℚ) * (10 : ℚ) ^ ex := rescale_value cx ex s hsx
  have hB : (b : ℚ) * (10 : ℚ) ^ s = (cy : ℚ) * (10 : ℚ) ^ ey := rescale_value cy ey s hsy
  have hup := upscale_eq ⟨Form.Finite, nx, ex, cx⟩ ⟨Form.Finite, ny, ey, cy⟩ h1 h2
  change upscale _ _ = some (a, b, s) at hup
  unfold add
  rw [setIfNaN_finite2 _ _ rfl rfl]
  simp only [hup]
  have hfin : ¬ ((Form.Finite = Form.Infinite) ∨ (Form.Finite = Form.Infinite)) := by simp
  simp only [hfin, if_false]
  by_cases hsgn : nx = (ny != sub)
  · rw [if_pos hsgn]
    refine ⟨_, rfl, rfl, rfl, ?_⟩
    rw [value_mk, value_mk, value_mk]
    push_cast
    have : ((a : ℚ) + b) * (10 : ℚ) ^ s = (cx : ℚ) * (10 : ℚ) ^ ex + (cy : ℚ) * (10 : ℚ) ^ ey := by
      rw [add_mul, hA, hB]
    cases nx <;> cases ny <;> cases sub <;> simp at hsgn <;> simp <;>
      first | linear_combination this | linear_combination -this
  · rw [if_neg hsgn]
    by_cases hlt : a < b
    · rw [if_pos hlt]
      refine ⟨_, rfl, rfl, rfl, ?_⟩
      rw [value_mk, value_mk, value_mk]
      rw [Nat.cast_sub (le_of_lt hlt)]
      have : ((b : ℚ) - a) * (10 : ℚ) ^ s = (cy : ℚ) * (10 : ℚ) ^ ey - (cx : ℚ) * (10 : ℚ) ^ ex := by
        rw [sub_mul, hA, hB]
      cases nx <;> cases ny <;> cases sub <;> simp at hsgn <;> simp <;>
      first | linear_combination this | linear_combination -this
    · rw [if_neg hlt]
      by_cases heq : a = b
      · rw [if_pos heq]
        refine ⟨_, rfl, rfl, rfl, ?_⟩
        rw [value_mk, value_mk, value_mk]
        have : (cx : ℚ) * (10 : ℚ) ^ ex = (cy : ℚ) * (10 : ℚ) ^ ey := by
          rw [← hA, ← hB, heq]
        cases nx <;> cases ny <;> cases sub <;> simp at hsgn <;> simp <;>
      first | linear_combination this | linear_combination -this
      · rw [if_neg heq]
        refine ⟨_, rfl, rfl, rfl, ?_⟩
        rw [value_mk, value_mk, value_mk]
        rw [Nat.cast_sub (by omega)]
        have : ((a : ℚ) - b) * (10 : ℚ) ^ s = (cx : ℚ) * (10 : ℚ) ^ ex - (cy : ℚ) * (10 : ℚ) ^ ey := by
          rw [sub_mul, hA, hB]
        cases nx <;> cases ny <;> cases sub <;> simp at hsgn <;> simp <;>
      first | linear_combination this | linear_combination -this

/-- Whatever `add` returns on finite operands is the exact sum (difference) on
the smaller exponent. -/
theorem add_of_some (x y r : Decimal) (sub : Bool)
    (fx : x.Form = Form.Finite) (fy : y.Form = Form.Finite) (h : add x y sub = some r) :
    r.Form = Form.Finite ∧ r.Exponent = min x.Exponent y.Exponent ∧
      r.value = x.value + (if sub then -y.value else y.value) := by
  by_cases hd : x.Exponent - y.Exponent ≤ MaxExponent ∧ y.Exponent - x.Exponent ≤ MaxExponent
  · obtain ⟨r0, e0, e1, e2, e3⟩ := add_shape x y sub fx fy hd.1 hd.2
    rw [e0] at h
    rw [roundDisabled_some r0 r h]
    exact ⟨e1, e2, e3⟩
  · exfalso
    have hn := upscale_none x y hd
    unfold add at h
    rw [setIfNaN_finite2 x y fx fy] at h
    simp only [fx, fy, hn] at h
    simp at h

/-- Whatever `Mul` returns on finite operands has the product of the
coefficients, the sum of the exponents and the product of the values. -/
theorem Mul_of_some (x y r : Decimal)
    (fx : x.Form = Form.Finite) (fy : y.Form = Form.Finite) (h : Mul x y = some r) :
    r.Form = Form.Finite ∧ r.Coeff = x.Coeff * y.Coeff ∧
      r.Exponent = x.Exponent + y.Exponent ∧ r.value = x.value * y.value := by
  obtain ⟨f1, nx, ex, cx⟩ := x
  obtain ⟨f2, ny, ey, cy⟩ := y
  simp only at fx fy
  subst fx; subst fy
  unfold Mul at h
  rw [setIfNaN_finite2 _ _ rfl rfl] at h
  have hfin : ¬ ((Form.Finite = Form.Infinite) ∨ (Form.Finite = Form.Infinite)) := by simp
  simp only [hfin, if_false] at h
  cases hs : setExponent (cx * cy) [ex, ey] with
  | none => rw [hs] at h; simp at h
  | some e =>
    rw [hs] at h
    simp only at h
    have he : e = ex + ey := by
      unfold setExponent at hs
      simp only [List.sum_cons, List.sum_nil, add_zero] at hs
      split_ifs at hs
      simp only [Option.some.injEq] at hs
      exact hs.symm
    subst he
    rw [roundDisabled_some _ r h]
    refine ⟨rfl, rfl, rfl, ?_⟩
    rw [value_mk, value_mk, value_mk, zpow_add₀ (by norm_num)]
    push_cast
    cases nx <;> cases ny <;> simp <;> ring

end apd

/-- What a binary operation returns is what the `apd` operation returned on the
operands' contents. -/
theorem binop_some_inv (f : apd.Decimal → apd.Decimal → Option apd.Decimal)
    (h : Heap) (d d2 : Decimal) (x y : apd.Decimal) (r : Decimal) (h' : Heap)
    (hx : d.load h = some x) (hy : d2.load h = some y)
    (hb : binop f h d d2 = some (r, h')) :
    ∃ z, f x y = some z ∧ r.load h' = some z := by
  cases hf : f x y with
  | none => rw [binop_none f h d d2 x y hx hy hf] at hb; simp at hb
  | some z =>
    obtain ⟨res, h1, e1, e2, _⟩ := binop_load f h d d2 x y z hx hy hf
    rw [e1] at hb
    simp only [Option.some.injEq, Prod.mk.injEq] at hb
    rw [← hb.1, ← hb.2]
    exact ⟨z, rfl, e2⟩

/-- C7 (amended): `Add`, `Sub` and `Mul` are exact whenever they return.  For
finite operands (an uninitialized operand counts as zero), whatever `Add`
returns has the value `value(a)+value(b)` and whatever `Sub` returns the value
`value(a)-value(b)`, each on the exponent `min(exp(a), exp(b))`; whatever `Mul`
returns has coefficient `coeff(a)*coeff(b)` and exponent `exp(a)+exp(b)`.
They do return within the library's limits: `Add` and `Sub` when the
exponents are at least `MinExponent`, differ by at most `MaxExponent`, and
exponent plus digit count of each operand is at most `MaxExponent`; `Mul` when
both exponents and their sum are within the limits and the digit counts leave
room below `MaxExponent`. -/
theorem Add_Sub_Mul_exact (h : Heap) (d1 d2 : Decimal) (a b : apd.Decimal)
    (h1 : d1.load h = some a) (h2 : d2.load h = some b)
    (fa : a.Form = apd.Form.Finite) (fb : b.Form = apd.Form.Finite) :
    ((∀ r h', Decimal.Add h d1 d2 = some (r, h') → ∃ x, r.load h' = some x ∧
          x.Form = apd.Form.Finite ∧ x.value = a.value + b.value ∧
          x.Exponent = min a.Exponent b.Exponent) ∧
      (∀ r h', Decimal.Sub h d1 d2 = some (r, h') → ∃ x, r.load h' = some x ∧
          x.Form = apd.Form.Finite ∧ x.value = a.value - b.value ∧
          x.Exponent = min a.Exponent b.Exponent) ∧
      (∀ r h', Decimal.Mul h d1 d2 = some (r, h') → ∃ x, r.load h' = some x ∧
          x.Form = apd.Form.Finite ∧ x.Coeff = a.Coeff * b.Coeff ∧
          x.Exponent = a.Exponent + b.Exponent ∧ x.value = a.value * b.value)) ∧
    ((apd.MinExponent ≤ a.Exponent ∧ apd.MinExponent ≤ b.Exponent ∧
        a.Exponent - b.Exponent ≤ apd.MaxExponent ∧ b.Exponent - a.Exponent ≤ apd.MaxExponent ∧
        a.Exponent + apd.NumDigits a.Coeff ≤ apd.MaxExponent ∧
        b.Exponent + apd.NumDigits b.Coeff ≤ apd.MaxExponent) →
      (∃ r h' x, Decimal.Add h d1 d2 = some (r, h') ∧ r.load h' = some x ∧
          x.Form = apd.Form.Finite ∧ x.value = a.value + b.value ∧
          x.Exponent = min a.Exponent b.Exponent) ∧
      (∃ r h' x, Decimal.Sub h d1 d2 = some (r, h') ∧ r.load h' = some x ∧
          x.Form = apd.Form.Finite ∧ x.value = a.value - b.value ∧
          x.Exponent = min a.Exponent b.Exponent)) ∧
    ((apd.MinExponent ≤ a.Exponent ∧ apd.MinExponent ≤ b.Exponent ∧
        a.Exponent ≤ apd.MaxExponent ∧ b.Exponent ≤ apd.MaxExponent ∧
        apd.MinExponent ≤ a.Exponent + b.Exponent ∧
        a.Exponent + apd.NumDigits a.Coeff + (b.Exponent + apd.NumDigits b.Coeff)
          ≤ apd.MaxExponent + 1) →
      ∃ r h' x, Decimal.Mul h d1 d2 = some (r, h') ∧ r.load h' = some x ∧
          x.Form = apd.Form.Finite ∧ x.Coeff = a.Coeff * b.Coeff ∧
          x.Exponent = a.Exponent + b.Exponent ∧ x.value = a.value * b.value) := by
  refine ⟨⟨?_, ?_, ?_⟩, ?_, ?_⟩
  · intro r h' hr
    obtain ⟨z, e1, e2⟩ := binop_some_inv apd.Add h d1 d2 a b r h' h1 h2 hr
    obtain ⟨q1, q2, q3⟩ := apd.add_of_some a b z false fa fb e1
    exact ⟨z, e2, q1, by simpa using q3, q2⟩
  · intro r h' hr
    obtain ⟨z, e1, e2⟩ := binop_some_inv apd.Sub h d1 d2 a b r h' h1 h2 hr
    obtain ⟨q1, q2, q3⟩ := apd.add_of_some a b z true fa fb e1
    exact ⟨z, e2, q1, by simpa [sub_eq_add_neg] using q3, q2⟩
  · intro r h' hr
    obtain ⟨z, e1, e2⟩ := binop_some_inv apd.Mul h d1 d2 a b r h' h1 h2 hr
    obtain ⟨q1, q2, q3, q4⟩ := apd.Mul_of_some a b z fa fb e1
    exact ⟨z, e2, q1, q2, q3, q4⟩
  · rintro ⟨la, lb, c1, c2, c3, c4⟩
    constructor
    · obtain ⟨x, e1, e2, e3, e4⟩ := apd.add_exact a b false fa fb c1 c2 la lb c3 c4
      obtain ⟨r, h', q1, q2, _⟩ := binop_load apd.Add h d1 d2 a b x h1 h2 e1
      exact ⟨r, h', x, q1, q2, e2, by simpa using e4, e3⟩
    · obtain ⟨x, e1, e2, e3, e4⟩ := apd.add_exact a b true fa fb c1 c2 la lb c3 c4
      obtain ⟨r, h', q1, q2, _⟩ := binop_load apd.Sub h d1 d2 a b x h1 h2 e1
      exact ⟨r, h', x, q1, q2, e2, by simpa [sub_eq_add_neg] using e4, e3⟩
  · rintro ⟨la, lb, c1, c2, c3, c4⟩
    obtain ⟨x, e1, e2, e3, e4, e5⟩ := apd.Mul_exact a b fa fb la lb c1 c2 c3 c4
    obtain ⟨r, h', q1, q2, _⟩ := binop_load apd.Mul h d1 d2 a b x h1 h2 e1
    exact ⟨r, h', x, q1, q2, e2, e3, e4, e5⟩

/-- Witness for C7 on the heap holding `1.23` and `1.24`: the three results
exist, and they render `"2.47"`, `"-0.01"` and `"1.5252"`. -/
theorem Add_Sub_Mul_exact_witness :
    ((∃ r h' x, Decimal.Add [⟨apd.Form.Finite, false, -2, 123⟩,
          ⟨apd.Form.Finite, false, -2, 124⟩] ⟨some 0⟩ ⟨some 1⟩ = some (r, h') ∧
        r.load h' = some x ∧ x.Form = apd.Form.Finite ∧
        x.value = apd.Decimal.value ⟨apd.Form.Finite, false, -2, 123⟩ +
          apd.Decimal.value ⟨apd.Form.Finite, false, -2, 124⟩ ∧
        x.Exponent = min (-2) (-2)) ∧
      (∃ r h' x, Decimal.Sub [⟨apd.Form.Finite, false, -2, 123⟩,
          ⟨apd.Form.Finite, false, -2, 124⟩] ⟨some 0⟩ ⟨some 1⟩ = some (r, h') ∧
        r.load h' = some x ∧ x.Form = apd.Form.Finite ∧
        x.value = apd.Decimal.value ⟨apd.Form.Finite, false, -2, 123⟩ -
          apd.Decimal.value ⟨apd.Form.Finite, false, -2, 124⟩ ∧
        x.Exponent = min (-2) (-2))) ∧
    (∃ r h' x, Decimal.Mul [⟨apd.Form.Finite, false, -2, 123⟩,
          ⟨apd.Form.Finite, false, -2, 124⟩] ⟨some 0⟩ ⟨some 1⟩ = some (r, h') ∧
        r.load h' = some x ∧ x.Form = apd.Form.Finite ∧ x.Coeff = 123 * 124 ∧
        x.Exponent = -2 + -2 ∧
        x.value = apd.Decimal.value ⟨apd.Form.Finite, false, -2, 123⟩ *
          apd.Decimal.value ⟨apd.Form.Finite, false, -2, 124⟩) ∧
    (Decimal.Add [⟨apd.Form.Finite, false, -2, 123⟩, ⟨apd.Form.Finite, false, -2, 124⟩]
        ⟨some 0⟩ ⟨some 1⟩).bind (fun p => Decimal.String p.2 p.1) = some "2.47" ∧
    (Decimal.Sub [⟨apd.Form.Finite, false, -2, 123⟩, ⟨apd.Form.Finite, false, -2, 124⟩]
        ⟨some 0⟩ ⟨some 1⟩).bind (fun p => Decimal.String p.2 p.1) = some "-0.01" ∧
    (Decimal.Mul [⟨apd.Form.Finite, false, -2, 123⟩, ⟨apd.Form.Finite, false, -2, 124⟩]
        ⟨some 0⟩ ⟨some 1⟩).bind (fun p => Decimal.String p.2 p.1) = some "1.5252" := by
  have hw := Add_Sub_Mul_exact
    [⟨apd.Form.Finite, false, -2, 123⟩, ⟨apd.Form.Finite, false, -2, 124⟩] ⟨some 0⟩ ⟨some 1⟩
    ⟨apd.Form.Finite, false, -2, 123⟩ ⟨apd.Form.Finite, false, -2, 124⟩
    rfl rfl rfl rfl
  exact ⟨hw.2.1 ⟨by decide, by decide, by decide, by decide, by decide, by decide⟩,
    hw.2.2 ⟨by decide, by decide, by decide, by decide, by decide, by decide⟩,
    by decide, by decide, by decide⟩

theorem load_append (h : Heap) (o : Decimal) (y c : apd.Decimal) (hy : o.load h = some y) :
    o.load (h ++ [c]) = some y := by
  obtain ⟨v⟩ := o
  cases v with
  | none => simpa [Decimal.load] using hy
  | some p =>
    simp only [Decimal.load] at hy ⊢
    exact getElem?_append_cell h c y p hy

theorem load_nil (h : Heap) : Decimal.load h ⟨none⟩ = some (apd.New 0 0) := rfl

theorem load_FromInt (h : Heap) (i : Int) :
    (FromInt h i).1.load (FromInt h i).2 = some (apd.New i 0) := by
  simp [FromInt, Decimal.load]

theorem ensure_load (h : Heap) (d : Decimal) (x : apd.Decimal) (hx : d.load h = some x) :
    (ensureInitialized h d).1.load (ensureInitialized h d).2 = some x ∧
    ∃ p, (ensureInitialized h d).1.v = some p ∧
    ∀ (o : Decimal) (y : apd.Decimal), o.load h = some y →
      o.load (ensureInitialized h d).2 = some y := by
  obtain ⟨v⟩ := d
  cases v with
  | none =>
    simp only [Decimal.load, Option.some.injEq] at hx
    subst hx
    refine ⟨by simp [ensureInitialized, Decimal.load], h.length, rfl, ?_⟩
    intro o y hy
    exact load_append h o y _ hy
  | some p =>
    exact ⟨hx, p, rfl, fun o y hy => hy⟩

theorem String_load (h : Heap) (d : Decimal) :
    Decimal.String h d = (d.load h).map apd.Decimal.String := by
  obtain ⟨v⟩ := d
  cases v with
  | none => simp [Decimal.String, ensureInitialized, Decimal.load]
  | some p => simp [Decimal.String, ensureInitialized, Decimal.load]

theorem Value_load (h : Heap) (d : Decimal) :
    Decimal.Value h d = (d.load h).map apd.Decimal.String := by
  obtain ⟨v⟩ := d
  cases v with
  | none => simp [Decimal.Value, ensureInitialized, Decimal.load]
  | some p => simp [Decimal.Value, ensureInitialized, Decimal.load]

theorem IsZero_load (h : Heap) (d : Decimal) :
    Decimal.IsZero h d = (d.load h).map apd.Decimal.IsZero := by
  obtain ⟨v⟩ := d
  cases v with
  | none => simp [Decimal.IsZero, ensureInitialized, Decimal.load]
  | some p => simp [Decimal.IsZero, ensureInitialized, Decimal.load]

theorem IsNegative_load (h : Heap) (d : Decimal) :
    (Decimal.IsNegative h d).map (fun r => r.1) = (d.load h).map (fun x => x.Negative) := by
  obtain ⟨v⟩ := d
  cases v with
  | none => simp [Decimal.IsNegative, ensureInitialized, Decimal.load]
  | some p =>
    simp only [Decimal.IsNegative, ensureInitialized, Decimal.load]
    cases h[p]? <;> simp

/-- What a caller can observe of a returned Decimal: whether the call
panicked (outer `none`) and how the result renders. -/
theorem binop_obs (f : apd.Decimal → apd.Decimal → Option apd.Decimal)
    (h : Heap) (d d2 : Decimal) (x y : apd.Decimal)
    (hx : d.load h = some x) (hy : d2.load h = some y) :
    (binop f h d d2).map (fun p => Decimal.String p.2 p.1) =
      (f x y).map (fun r => some r.String) := by
  cases hr : f x y with
  | none => rw [binop_none f h d d2 x y hx hy hr]; rfl
  | some r =>
    obtain ⟨res, h1, e1, e2, _⟩ := binop_load f h d d2 x y r hx hy hr
    rw [e1]
    simp [String_load, e2]

theorem Round_obs (h : Heap) (d : Decimal) (n : Nat) (x : apd.Decimal)
    (hx : d.load h = some x) :
    (Decimal.Round h d n).map (fun p => Decimal.String p.2 p.1) =
      (apd.Quantize 0 x (-((n % 65536 : Nat) : Int))).map (fun r => some r.String) := by
  obtain ⟨v⟩ := d
  cases v with
  | none =>
    simp only [Decimal.load, Option.some.injEq] at hx
    subst hx
    simp only [Decimal.Round, ensureInitialized, getElem?_append_new]
    cases apd.Quantize 0 (apd.New 0 0) (-((n % 65536 : Nat) : Int)) with
    | none => rfl
    | some r =>
      simp only [Option.map_some', String_load, Decimal.load, getElem?_append_new]
  | some p =>
    simp only [Decimal.load] at hx
    simp only [Decimal.Round, ensureInitialized, hx]
    cases apd.Quantize 0 x (-((n % 65536 : Nat) : Int)) with
    | none => rfl
    | some r => simp [String_load, Decimal.load]

theorem InRange_load (h : Heap) (d mn mx : Decimal) (x a b : apd.Decimal)
    (hx : d.load h = some x) (ha : mn.load h = some a) (hb : mx.load h = some b) :
    Decimal.InRange h d mn mx = some (decide (x.Cmp a ≥ 0) && decide (x.Cmp b ≤ 0)) := by
  obtain ⟨e1, _, _, e3⟩ := ensure_load h d x hx
  unfold Decimal.InRange
  simp only []
  rw [Decimal.Cmp_load _ _ mn x a e1 (e3 mn a ha), Decimal.Cmp_load _ _ mx x b e1 (e3 mx b hb)]

theorem InRangeInt_load (h : Heap) (d : Decimal) (mn mx : Int) (x : apd.Decimal)
    (hx : d.load h = some x) :
    Decimal.InRangeInt h d mn mx =
      some (decide (x.Cmp (apd.New mn 0) ≥ 0) && decide (x.Cmp (apd.New mx 0) ≤ 0)) := by
  obtain ⟨e1, _, _, e3⟩ := ensure_load h d x hx
  unfold Decimal.InRangeInt
  simp only []
  have k1 := load_append _ _ _ (apd.New mn 0) e1
  have k2 := load_append _ _ _ (apd.New mx 0) k1
  have m1 : Decimal.load ((ensureInitialized h d).2 ++ [apd.New mn 0] ++ [apd.New mx 0])
      ⟨some (ensureInitialized h d).2.length⟩ = some (apd.New mn 0) := by
    simp only [Decimal.load]
    exact getElem?_append_cell _ _ _ _ (getElem?_append_new _ _)
  have m2 : Decimal.load ((ensureInitialized h d).2 ++ [apd.New mn 0] ++ [apd.New mx 0])
      ⟨some ((ensureInitialized h d).2 ++ [apd.New mn 0]).length⟩ = some (apd.New mx 0) := by
    simp only [Decimal.load]
    exact getElem?_append_new _ _
  simp only [FromInt]
  rw [Decimal.Cmp_load _ _ _ x _ k2 m1, Decimal.Cmp_load _ _ _ x _ k2 m2]

theorem observe_binop (f : apd.Decimal → apd.Decimal → Option apd.Decimal)
    (h : Heap) (d d2 : Decimal) (x y : apd.Decimal)
    (hx : d.load h = some x) (hy : d2.load h = some y) :
    observe (binop f h d d2) = (f x y).map (fun r => some r.String) :=
  binop_obs f h d d2 x y hx hy

theorem load_FromInt_other (h : Heap) (o : Decimal) (y : apd.Decimal) (i : Int)
    (hy : o.load h = some y) : o.load (FromInt h i).2 = some y :=
  load_append h o y _ hy

theorem binop_zero_left (f : apd.Decimal → apd.Decimal → Option apd.Decimal)
    (h : Heap) (o : Decimal) (y : apd.Decimal) (hy : o.load h = some y) :
    observe (binop f h ⟨none⟩ o) = observe (binop f (FromInt h 0).2 (FromInt h 0).1 o) := by
  rw [observe_binop f h ⟨none⟩ o _ y (load_nil h) hy,
    observe_binop f (FromInt h 0).2 _ o _ y (load_FromInt h 0) (load_FromInt_other h o y 0 hy)]

theorem binop_zero_right (f : apd.Decimal → apd.Decimal → Option apd.Decimal)
    (h : Heap) (o : Decimal) (y : apd.Decimal) (hy : o.load h = some y) :
    observe (binop f h o ⟨none⟩) = observe (binop f (FromInt h 0).2 o (FromInt h 0).1) := by
  rw [observe_binop f h o ⟨none⟩ y _ hy (load_nil h),
    observe_binop f (FromInt h 0).2 o _ y _ (load_FromInt_other h o y 0 hy) (load_FromInt h 0)]

theorem Cmp_zero_left (h : Heap) (o : Decimal) (y : apd.Decimal) (hy : o.load h = some y) :
    Decimal.Cmp h ⟨none⟩ o = Decimal.Cmp (FromInt h 0).2 (FromInt h 0).1 o := by
  rw [Decimal.Cmp_load h ⟨none⟩ o _ y (load_nil h) hy,
    Decimal.Cmp_load (FromInt h 0).2 _ o _ y (load_FromInt h 0) (load_FromInt_other h o y 0 hy)]

theorem Cmp_zero_right (h : Heap) (o : Decimal) (y : apd.Decimal) (hy : o.load h = some y) :
    Decimal.Cmp h o ⟨none⟩ = Decimal.Cmp (FromInt h 0).2 o (FromInt h 0).1 := by
  rw [Decimal.Cmp_load h o ⟨none⟩ y _ hy (load_nil h),
    Decimal.Cmp_load (FromInt h 0).2 o _ y _ (load_FromInt_other h o y 0 hy) (load_FromInt h 0)]

/-- C8: on any heap `h`, with any other operands `o`, `o2` (initialized or
not), an uninitialized Decimal in any operand position of `String`, `Cmp`,
`Equal`, `Less`, `Greater`, `Add`, `Sub`, `Mul`, `DivPrecision`, `Round`,
`InRange`, `InRangeInt`, `IsZero`, `IsNegative` and `Value` gives the same
observable result (same rendering, same boolean, same panic-or-not) as
`FromInt(0)` in that position. -/
theorem zero_default_equivalence (h : Heap) (o o2 : Decimal) (y y2 : apd.Decimal)
    (hy : o.load h = some y) (hy2 : o2.load h = some y2) (n p : Nat) (mn mx : Int) :
    Decimal.String h ⟨none⟩ = Decimal.String (FromInt h 0).2 (FromInt h 0).1 ∧
    (Decimal.Cmp h ⟨none⟩ o = Decimal.Cmp (FromInt h 0).2 (FromInt h 0).1 o ∧
      Decimal.Cmp h o ⟨none⟩ = Decimal.Cmp (FromInt h 0).2 o (FromInt h 0).1) ∧
    (Decimal.Equal h ⟨none⟩ o = Decimal.Equal (FromInt h 0).2 (FromInt h 0).1 o ∧
      Decimal.Equal h o ⟨none⟩ = Decimal.Equal (FromInt h 0).2 o (FromInt h 0).1) ∧
    (Decimal.Less h ⟨none⟩ o = Decimal.Less (FromInt h 0).2 (FromInt h 0).1 o ∧
      Decimal.Less h o ⟨none⟩ = Decimal.Less (FromInt h 0).2 o (FromInt h 0).1) ∧
    (Decimal.Greater h ⟨none⟩ o = Decimal.Greater (FromInt h 0).2 (FromInt h 0).1 o ∧
      Decimal.Greater h o ⟨none⟩ = Decimal.Greater (FromInt h 0).2 o (FromInt h 0).1) ∧
    (observe (Decimal.Add h ⟨none⟩ o) =
        observe (Decimal.Add (FromInt h 0).2 (FromInt h 0).1 o) ∧
      observe (Decimal.Add h o ⟨none⟩) =
        observe (Decimal.Add (FromInt h 0).2 o (FromInt h 0).1)) ∧
    (observe (Decimal.Sub h ⟨none⟩ o) =
        observe (Decimal.Sub (FromInt h 0).2 (FromInt h 0).1 o) ∧
      observe (Decimal.Sub h o ⟨none⟩) =
        observe (Decimal.Sub (FromInt h 0).2 o (FromInt h 0).1)) ∧
    (observe (Decimal.Mul h ⟨none⟩ o) =
        observe (Decimal.Mul (FromInt h 0).2 (FromInt h 0).1 o) ∧
      observe (Decimal.Mul h o ⟨none⟩) =
        observe (Decimal.Mul (FromInt h 0).2 o (FromInt h 0).1)) ∧
    (observe (Decimal.DivPrecision h ⟨none⟩ o p) =
        observe (Decimal.DivPrecision (FromInt h 0).2 (FromInt h 0).1 o p) ∧
      observe (Decimal.DivPrecision h o ⟨none⟩ p) =
        observe (Decimal.DivPrecision (FromInt h 0).2 o (FromInt h 0).1 p)) ∧
    observe (Decimal.Round h ⟨none⟩ n) =
      observe (Decimal.Round (FromInt h 0).2 (FromInt h 0).1 n) ∧
    (Decimal.InRange h ⟨none⟩ o o2 = Decimal.InRange (FromInt h 0).2 (FromInt h 0).1 o o2 ∧
      Decimal.InRange h o ⟨none⟩ o2 = Decimal.InRange (FromInt h 0).2 o (FromInt h 0).1 o2 ∧
      Decimal.InRange h o o2 ⟨none⟩ = Decimal.InRange (FromInt h 0).2 o o2 (FromInt h 0).1) ∧
    Decimal.InRangeInt h ⟨none⟩ mn mx =
      Decimal.InRangeInt (FromInt h 0).2 (FromInt h 0).1 mn mx ∧
    Decimal.IsZero h ⟨none⟩ = Decimal.IsZero (FromInt h 0).2 (FromInt h 0).1 ∧
    (Decimal.IsNegative h ⟨none⟩).map (fun r => r.1) =
      (Decimal.IsNegative (FromInt h 0).2 (FromInt h 0).1).map (fun r => r.1) ∧
    Decimal.Value h ⟨none⟩ = Decimal.Value (FromInt h 0).2 (FromInt h 0).1 := by
  have hz := load_FromInt h 0
  have hn := load_nil h
  have hoz := load_FromInt_other h o y 0 hy
  have hoz2 := load_FromInt_other h o2 y2 0 hy2
  have c1 := Cmp_zero_left h o y hy
  have c2 := Cmp_zero_right h o y hy
  refine ⟨?_, ⟨c1, c2⟩, ⟨?_, ?_⟩, ⟨?_, ?_⟩, ⟨?_, ?_⟩,
    ⟨binop_zero_left _ h o y hy, binop_zero_right _ h o y hy⟩,
    ⟨binop_zero_left _ h o y hy, binop_zero_right _ h o y hy⟩,
    ⟨binop_zero_left _ h o y hy, binop_zero_right _ h o y hy⟩,
    ⟨binop_zero_left _ h o y hy, binop_zero_right _ h o y hy⟩,
    ?_, ⟨?_, ?_, ?_⟩, ?_, ?_, ?_, ?_⟩
  · rw [String_load, String_load, hn, hz]
  · simp only [Decimal.Equal, c1]
  · simp only [Decimal.Equal, c2]
  · simp only [Decimal.Less, c1]
  · simp only [Decimal.Less, c2]
  · simp only [Decimal.Greater, c1]
  · simp only [Decimal.Greater, c2]
  · unfold observe
    rw [Round_obs h ⟨none⟩ n _ hn, Round_obs _ _ n _ hz]
  · rw [InRange_load h ⟨none⟩ o o2 _ y y2 hn hy hy2,
      InRange_load (FromInt h 0).2 _ o o2 _ y y2 hz hoz hoz2]
  · rw [InRange_load h o ⟨none⟩ o2 y _ y2 hy hn hy2,
      InRange_load (FromInt h 0).2 o _ o2 y _ y2 hoz hz hoz2]
  · rw [InRange_load h o o2 ⟨none⟩ y y2 _ hy hy2 hn,
      InRange_load (FromInt h 0).2 o o2 _ y y2 _ hoz hoz2 hz]
  · rw [InRangeInt_load h ⟨none⟩ mn mx _ hn, InRangeInt_load _ _ mn mx _ hz]
  · rw [IsZero_load, IsZero_load, hn, hz]
  · rw [IsNegative_load, IsNegative_load, hn, hz]
  · rw [Value_load, Value_load, hn, hz]

/-- Witness for C8 on the heap holding `1.23`, with the uninitialized Decimal as
the second free operand: `0 + 1.23` renders `"1.23"` and `0 - 1.23` renders
`"-1.23"` for both forms of zero, and `InRangeInt(1, 10)` is false for both. -/
theorem zero_default_equivalence_witness :
    observe (Decimal.Add [⟨apd.Form.Finite, false, -2, 123⟩] ⟨none⟩ ⟨some 0⟩) =
        observe (Decimal.Add (FromInt [⟨apd.Form.Finite, false, -2, 123⟩] 0).2
          (FromInt [⟨apd.Form.Finite, false, -2, 123⟩] 0).1 ⟨some 0⟩) ∧
    observe (Decimal.Add [⟨apd.Form.Finite, false, -2, 123⟩] ⟨none⟩ ⟨some 0⟩) =
        some (some "1.23") ∧
    observe (Decimal.Sub [⟨apd.Form.Finite, false, -2, 123⟩] ⟨none⟩ ⟨some 0⟩) =
        some (some "-1.23") ∧
    Decimal.InRangeInt [⟨apd.Form.Finite, false, -2, 123⟩] ⟨none⟩ 1 10 =
        Decimal.InRangeInt (FromInt [⟨apd.Form.Finite, false, -2, 123⟩] 0).2
          (FromInt [⟨apd.Form.Finite, false, -2, 123⟩] 0).1 1 10 ∧
    Decimal.InRangeInt [⟨apd.Form.Finite, false, -2, 123⟩] ⟨none⟩ 1 10 = some false := by
  have hw := zero_default_equivalence [⟨apd.Form.Finite, false, -2, 123⟩] ⟨some 0⟩ ⟨none⟩
    ⟨apd.Form.Finite, false, -2, 123⟩ (apd.New 0 0) rfl rfl 0 32 1 10
  exact ⟨hw.2.2.2.2.2.1.1, by decide, by decide, hw.2.2.2.2.2.2.2.2.2.2.2.1, by decide⟩

namespace apd

theorem NumDigits_mono (a b : Nat) (h : a ≤ b) : NumDigits a ≤ NumDigits b := by
  rcases Nat.eq_zero_or_pos a with h0 | h0
  · subst h0; rw [NumDigits_zero]; exact NumDigits_ge_one b
  · rw [NumDigits_pos a h0, NumDigits_pos b (by omega)]
    have := Nat.log_mono_right (b := 10) h
    omega

/-- When adding one adds a digit, the sum is a power of ten. -/
theorem succ_eq_pow_of_digits_grow (y : Nat) (h : NumDigits (y + 1) > NumDigits y) :
    y + 1 = 10 ^ NumDigits y := by
  have h1 := lt_pow_NumDigits y
  have h2 := pow_NumDigits_le (y + 1) (by omega)
  have h3 : 10 ^ NumDigits y ≤ 10 ^ (NumDigits (y + 1) - 1) :=
    Nat.pow_le_pow_right (by norm_num) (by omega)
  omega

theorem NumDigits_pow (k : Nat) : NumDigits (10 ^ k) = k + 1 := by
  rw [NumDigits_pos _ (by positivity)]
  simp [Nat.log_pow]

/-- Effect of `roundAddOne`: the pair `(b, diff)` it returns denotes `y + 1`
and has as many digits as `y`. -/
theorem roundAddOne_spec (y : Nat) (diff : Int) :
    ((roundAddOne y diff).2 = diff ∧ (roundAddOne y diff).1 = y + 1 ∧
        NumDigits (y + 1) = NumDigits y) ∨
    ((roundAddOne y diff).2 = diff + 1 ∧ (roundAddOne y diff).1 * 10 = y + 1 ∧
        NumDigits (roundAddOne y diff).1 = NumDigits y) := by
  unfold roundAddOne
  by_cases h : NumDigits (y + 1) > NumDigits y
  · right
    rw [if_pos h]
    have e := succ_eq_pow_of_digits_grow y h
    have hn := NumDigits_ge_one y
    obtain ⟨j, hj⟩ : ∃ j, NumDigits y = j + 1 := ⟨NumDigits y - 1, by omega⟩
    refine ⟨rfl, ?_, ?_⟩
    · simp only [e, hj, pow_succ]
      rw [Nat.mul_div_cancel _ (by norm_num)]
    · simp only [e, hj, pow_succ]
      rw [Nat.mul_div_cancel _ (by norm_num), NumDigits_pow]
  · left
    rw [if_neg h]
    refine ⟨rfl, rfl, ?_⟩
    have := NumDigits_mono y (y + 1) (by omega)
    omega

end apd

namespace apd

/-- Under precision 0 the digit ceiling of `Quantize` rejects every result:
`Quantize` fails on every finite and every infinite operand, at every target
exponent. -/
theorem Quantize_zero_precision (x : Decimal) (exp : Int)
    (hx : x.Form = Form.Finite ∨ x.Form = Form.Infinite) : Quantize 0 x exp = none := by
  have hn : setIfNaN [x] = none := by
    rcases hx with hx | hx <;> simp [setIfNaN, List.find?, hx]
  unfold Quantize
  rw [hn]
  simp only
  split_ifs with h1
  · rfl
  · cases hq : quantize x exp with
    | none => rfl
    | some d =>
      have := NumDigits_ge_one d.Coeff
      simp only
      rw [if_pos (Or.inl (by omega))]

end apd

/-- The wrapper's `Round` panics whenever the operand is finite or infinite. -/
theorem Round_none (h : Heap) (d : Decimal) (n : Nat) (x : apd.Decimal)
    (hx : d.load h = some x)
    (hf : x.Form = apd.Form.Finite ∨ x.Form = apd.Form.Infinite) :
    Decimal.Round h d n = none := by
  have ho := Round_obs h d n x hx
  rw [apd.Quantize_zero_precision x _ hf] at ho
  cases hr : Decimal.Round h d n with
  | none => rfl
  | some r => rw [hr] at ho; simp at ho

/-- C3: on the ties the claim names, `Round` returns nothing.  "2.5" and "1.5"
parse to finite Decimals, and `Round(0)` panics on both (as does `Round(1)` on
the ties `0.25` and `-0.35`): the quantization runs under precision 0, where
every result has too many digits. -/
theorem Round_panics_on_ties :
    ((FromStr [] "2.5").isSome = true ∧
        (FromStr [] "2.5").bind (fun a => Decimal.Round a.2 a.1 0) = none) ∧
      ((FromStr [] "1.5").isSome = true ∧
        (FromStr [] "1.5").bind (fun a => Decimal.Round a.2 a.1 0) = none) ∧
      (FromStr [] "0.25").bind (fun a => Decimal.Round a.2 a.1 1) = none ∧
      (FromStr [] "-0.35").bind (fun a => Decimal.Round a.2 a.1 1) = none := by
  decide

/-- C4: on the inputs of the repository's round test, `Round` returns nothing.
"1.23456789" parses to a finite Decimal that renders "1.23456789", and
`Round(n)` panics on it for every `n` from 2 to 7, where the test expects
"1.23", "1.235", "1.2346", "1.23457", "1.234568" and "1.2345679". -/
theorem Round_panics_on_test_inputs :
    (FromStr [] "1.23456789").bind (fun a => Decimal.String a.2 a.1) = some "1.23456789" ∧
      (FromStr [] "1.23456789").bind (fun a => Decimal.Round a.2 a.1 2) = none ∧
      (FromStr [] "1.23456789").bind (fun a => Decimal.Round a.2 a.1 3) = none ∧
      (FromStr [] "1.23456789").bind (fun a => Decimal.Round a.2 a.1 4) = none ∧
      (FromStr [] "1.23456789").bind (fun a => Decimal.Round a.2 a.1 5) = none ∧
      (FromStr [] "1.23456789").bind (fun a => Decimal.Round a.2 a.1 6) = none ∧
      (FromStr [] "1.23456789").bind (fun a => Decimal.Round a.2 a.1 7) = none := by
  decide

namespace apd

/-- First normalisation loop: the dividend is scaled by the least power of
ten that makes it reach the divisor. -/
theorem quoScaleDividend_spec (b : Nat) : ∀ (fuel a : Nat) (adj : Int),
    0 < a → b ≤ a * 10 ^ fuel →
    ∃ i : Nat, i ≤ fuel ∧ quoScaleDividend fuel a b adj = (a * 10 ^ i, adj + i) ∧
      b ≤ a * 10 ^ i ∧ (i = 0 ∨ a * 10 ^ i < 10 * b) := by
  intro fuel
  induction fuel with
  | zero =>
    intro a adj _ hb
    exact ⟨0, le_refl _, by simp [quoScaleDividend], by simpa using hb, Or.inl rfl⟩
  | succ f ih =>
    intro a adj ha hb
    by_cases hlt : a < b
    · obtain ⟨i, hi, e1, e2, e3⟩ := ih (a * 10) (adj + 1) (by omega)
        (by rw [pow_succ] at hb; rw [Nat.mul_assoc]; rw [Nat.mul_comm 10]; exact hb)
      refine ⟨i + 1, by omega, ?_, ?_, ?_⟩
      · simp only [quoScaleDividend, hlt, if_true, e1]
        rw [pow_succ, Nat.mul_assoc, Nat.mul_comm (10 ^ i) 10]
        push_cast
        congr 1
        ring
      · rw [pow_succ, Nat.mul_comm (10 ^ i) 10, ← Nat.mul_assoc]; exact e2
      · right
        rw [pow_succ, Nat.mul_comm (10 ^ i) 10, ← Nat.mul_assoc]
        rcases e3 with e3 | e3
        · subst e3; simp only [pow_zero, Nat.mul_one]; omega
        · exact e3
    · refine ⟨0, by omega, ?_, by simpa using not_lt.1 hlt, Or.inl rfl⟩
      simp [quoScaleDividend, hlt]

/-- Second normalisation loop: the divisor is scaled by the largest power of
ten that keeps it at most the dividend. -/
theorem quoScaleDivisor_spec (a : Nat) : ∀ (fuel b : Nat) (adj : Int),
    0 < b → b ≤ a → a < b * 10 ^ fuel →
    ∃ j : Nat, j ≤ fuel ∧ quoScaleDivisor fuel a b adj = (b * 10 ^ j, adj - j) ∧
      b * 10 ^ j ≤ a ∧ a < b * 10 ^ j * 10 := by
  intro fuel
  induction fuel with
  | zero =>
    intro b adj _ h1 h2
    simp only [pow_zero, Nat.mul_one] at h2
    omega
  | succ f ih =>
    intro b adj hb h1 h2
    by_cases hlt : a < b * 10
    · refine ⟨0, by omega, ?_, by simpa using h1, by simpa using hlt⟩
      simp [quoScaleDivisor, hlt]
    · obtain ⟨j, hj, e1, e2, e3⟩ := ih (b * 10) (adj - 1) (by omega) (by omega)
        (by rw [pow_succ] at h2; rw [Nat.mul_assoc, Nat.mul_comm 10]; exact h2)
      have hpow : b * 10 * 10 ^ j = b * 10 ^ (j + 1) := by
        rw [pow_succ, Nat.mul_assoc, Nat.mul_comm 10]
      refine ⟨j + 1, by omega, ?_, ?_, ?_⟩
      · simp only [quoScaleDivisor, hlt, if_false, e1, hpow]
        push_cast
        congr 1
        ring
      · rw [← hpow]; exact e2
      · rw [← hpow]; exact e3

/-- The subtraction loop is division with remainder. -/
theorem quoSubtract_spec (b : Nat) (hb : 0 < b) : ∀ (fuel d q : Nat), d / b ≤ fuel →
    quoSubtract fuel d b q = (d % b, q + d / b) := by
  intro fuel
  induction fuel with
  | zero =>
    intro d q h
    have h0 : d / b = 0 := Nat.le_zero.1 h
    have hlt : d < b := (Nat.div_eq_zero_iff hb).1 h0
    simp [quoSubtract, h0, Nat.mod_eq_of_lt hlt]
  | succ f ih =>
    intro d q h
    by_cases hle : b ≤ d
    · have hdiv : d / b = (d - b) / b + 1 := by
        rw [Nat.div_eq d b, if_pos ⟨hb, hle⟩]
      have hmod : d % b = (d - b) % b := by
        rw [Nat.mod_eq_sub_mod hle]
      simp only [quoSubtract, hle, if_true]
      rw [ih (d - b) (q + 1) (by omega), hdiv, hmod]
      congr 1
      omega
    · have hlt : d < b := by omega
      simp [quoSubtract, hle, Nat.div_eq_of_lt hlt, Nat.mod_eq_of_lt hlt]

end apd

namespace apd

theorem NumDigits_of_range (q t : Nat) (h1 : 10 ^ t ≤ q) (h2 : q < 10 ^ (t + 1)) :
    NumDigits q = t + 1 := by
  have hq : 0 < q := lt_of_lt_of_le (by positivity) h1
  rw [NumDigits_pos q hq]
  congr 1
  exact Nat.log_eq_of_pow_le_of_lt_pow h1 h2

/-- Quotient digits: with `b1 ≤ a1 < 10 * b1`, the quotient of `a1 * 10^t` by
`b1` has exactly `t + 1` digits. -/
theorem quo_digit_count (a1 b1 t : Nat) (hb : 0 < b1) (h1 : b1 ≤ a1) (h2 : a1 < b1 * 10) :
    NumDigits (a1 * 10 ^ t / b1) = t + 1 := by
  apply NumDigits_of_range
  · rw [Nat.le_div_iff_mul_le hb]
    calc 10 ^ t * b1 = b1 * 10 ^ t := Nat.mul_comm _ _
      _ ≤ a1 * 10 ^ t := Nat.mul_le_mul_right _ h1
  · rw [Nat.div_lt_iff_lt_mul hb, pow_succ]
    calc a1 * 10 ^ t < b1 * 10 * 10 ^ t :=
          Nat.mul_lt_mul_of_pos_right h2 (by positivity)
      _ = 10 ^ t * 10 * b1 := by ring

/-- The digit loop of `Quo`: it stops after some `T < prec` shifts with the
quotient and remainder of `a1 * 10^T` by `b1`; an inexact stop has produced
exactly `prec` digits. -/
theorem quoDigits_spec (a1 b1 prec : Nat) (hb : 0 < b1) (h1 : b1 ≤ a1) (h2 : a1 < b1 * 10) :
    ∀ (fuel t D Q : Nat) (A : Int), t + 1 ≤ prec → prec - t ≤ fuel →
    Q * b1 + D = a1 * 10 ^ t →
    ∃ T : Nat, t ≤ T ∧ T + 1 ≤ prec ∧
      quoDigits fuel D b1 Q A prec =
        some (a1 * 10 ^ T % b1, a1 * 10 ^ T / b1, A + ((T - t : Nat) : Int)) ∧
      (a1 * 10 ^ T % b1 ≠ 0 → T + 1 = prec) := by
  intro fuel
  induction fuel with
  | zero => intro t D Q A ht hf _; omega
  | succ f ih =>
    intro t D Q A ht hf hinv
    have hsub := quoSubtract_spec b1 hb D D Q (Nat.div_le_self D b1)
    have hq : Q + D / b1 = a1 * 10 ^ t / b1 := by
      rw [← hinv, Nat.add_comm (Q * b1) D, Nat.add_mul_div_right _ _ hb]; omega
    have hr : D % b1 = a1 * 10 ^ t % b1 := by
      rw [← hinv, Nat.add_comm (Q * b1) D, Nat.add_mul_mod_self_right]
    have hnd := quo_digit_count a1 b1 t hb h1 h2
    unfold quoDigits
    simp only [hsub, hq, hr, hnd]
    by_cases hstop : (a1 * 10 ^ t % b1 = 0 ∧ A ≥ 0) ∨ t + 1 = prec
    · refine ⟨t, le_refl _, ht, ?_, ?_⟩
      · rw [if_pos hstop]; simp
      · intro hne
        rcases hstop with ⟨h0, _⟩ | h
        · exact absurd h0 hne
        · exact h
    · rw [if_neg hstop]
      have hne : t + 1 ≠ prec := fun h => hstop (Or.inr h)
      have hinv' : (a1 * 10 ^ t / b1 * 10) * b1 + (a1 * 10 ^ t % b1 * 10) = a1 * 10 ^ (t + 1) := by
        have := Nat.div_add_mod (a1 * 10 ^ t) b1
        have e : a1 * 10 ^ (t + 1) = (a1 * 10 ^ t) * 10 := by rw [pow_succ, Nat.mul_assoc]
        rw [e]
        conv_rhs => rw [← this]
        ring
      obtain ⟨T, hT1, hT2, e1, e2⟩ := ih (t + 1) (a1 * 10 ^ t % b1 * 10) (a1 * 10 ^ t / b1 * 10)
        (A + 1) (by omega) (by omega) hinv'
      refine ⟨T, by omega, hT2, ?_, e2⟩
      rw [e1]
      have : A + 1 + ((T - (t + 1) : Nat) : Int) = A + ((T - t : Nat) : Int) := by omega
      rw [this]

end apd

namespace apd

/-- The two normalisation loops together: `b * 10^j ≤ a * 10^i < 10 * b * 10^j`
and `adjust = i - j`. -/
theorem quo_normalise (a b : Nat) (ha : 0 < a) (hb : 0 < b) :
    ∃ i j : Nat,
      quoScaleDividend (NumDigits b) a b 0 = (a * 10 ^ i, (i : Int)) ∧
      quoScaleDivisor (NumDigits (a * 10 ^ i)) (a * 10 ^ i) b (i : Int) =
        (b * 10 ^ j, (i : Int) - (j : Int)) ∧
      b * 10 ^ j ≤ a * 10 ^ i ∧ a * 10 ^ i < b * 10 ^ j * 10 := by
  have h0 : b ≤ a * 10 ^ NumDigits b := by
    have := lt_pow_NumDigits b
    have h2 : 10 ^ NumDigits b ≤ a * 10 ^ NumDigits b := Nat.le_mul_of_pos_left _ ha
    omega
  obtain ⟨i, _, e1, e2, _⟩ := quoScaleDividend_spec b (NumDigits b) a 0 ha h0
  have h1 : a * 10 ^ i < b * 10 ^ NumDigits (a * 10 ^ i) := by
    have := lt_pow_NumDigits (a * 10 ^ i)
    have h2 : 10 ^ NumDigits (a * 10 ^ i) ≤ b * 10 ^ NumDigits (a * 10 ^ i) :=
      Nat.le_mul_of_pos_left _ hb
    omega
  obtain ⟨j, _, f1, f2, f3⟩ :=
    quoScaleDivisor_spec (a * 10 ^ i) (NumDigits (a * 10 ^ i)) b (i : Int) hb e2 h1
  refine ⟨i, j, ?_, f1, f2, f3⟩
  rw [e1]; simp

/-- The shift `i - j` of the normalisation is the difference of the digit
counts, or one more. -/
theorem quo_shift_bounds (a b i j : Nat) (ha : 0 < a) (hb : 0 < b)
    (h1 : b * 10 ^ j ≤ a * 10 ^ i) (h2 : a * 10 ^ i < b * 10 ^ j * 10) :
    (NumDigits b : Int) - NumDigits a ≤ (i : Int) - j ∧
      (i : Int) - j ≤ (NumDigits b : Int) - NumDigits a + 1 := by
  have ha1 := pow_NumDigits_le a ha
  have hb1 := pow_NumDigits_le b hb
  have ha2 := lt_pow_NumDigits a
  have hb2 := lt_pow_NumDigits b
  have hna := NumDigits_ge_one a
  have hnb := NumDigits_ge_one b
  constructor
  · have : 10 ^ (NumDigits b - 1 + j) < 10 ^ (NumDigits a + i) := by
      calc 10 ^ (NumDigits b - 1 + j) = 10 ^ (NumDigits b - 1) * 10 ^ j := pow_add _ _ _
        _ ≤ b * 10 ^ j := Nat.mul_le_mul_right _ hb1
        _ ≤ a * 10 ^ i := h1
        _ < 10 ^ NumDigits a * 10 ^ i := Nat.mul_lt_mul_of_pos_right ha2 (by positivity)
        _ = 10 ^ (NumDigits a + i) := (pow_add _ _ _).symm
    have := (Nat.pow_lt_pow_iff_right (by norm_num : 1 < 10)).1 this
    omega
  · have : 10 ^ (NumDigits a - 1 + i) < 10 ^ (NumDigits b + j + 1) := by
      calc 10 ^ (NumDigits a - 1 + i) = 10 ^ (NumDigits a - 1) * 10 ^ i := pow_add _ _ _
        _ ≤ a * 10 ^ i := Nat.mul_le_mul_right _ ha1
        _ < b * 10 ^ j * 10 := h2
        _ < 10 ^ NumDigits b * 10 ^ j * 10 :=
            Nat.mul_lt_mul_of_pos_right
              (Nat.mul_lt_mul_of_pos_right hb2 (by positivity)) (by norm_num)
        _ = 10 ^ (NumDigits b + j + 1) := by rw [pow_succ, pow_add]
    have := (Nat.pow_lt_pow_iff_right (by norm_num : 1 < 10)).1 this
    omega

end apd

namespace apd

theorem setExponent_quad (c : Nat) (e1 e2 e3 e4 : Int)
    (l1 : MinExponent ≤ e1) (u1 : e1 ≤ MaxExponent)
    (l2 : MinExponent ≤ e2) (u2 : e2 ≤ MaxExponent)
    (l3 : MinExponent ≤ e3) (u3 : e3 ≤ MaxExponent)
    (l4 : MinExponent ≤ e4) (u4 : e4 ≤ MaxExponent)
    (l : MinExponent ≤ e1 + e2 + e3 + e4 + NumDigits c - 1)
    (u : e1 + e2 + e3 + e4 + NumDigits c - 1 ≤ MaxExponent)
    (s : Int) (hs' : s = e1 + e2 + e3 + e4) :
    setExponent c [e1, e2, e3, e4] = some s := by
  subst hs'
  unfold setExponent
  simp only [MinExponent, MaxExponent] at *
  have h1 : ¬ (e1 > 100000 ∨ e1 < -100000) := by omega
  have h2 : ¬ (e2 > 100000 ∨ e2 < -100000) := by omega
  have h3 : ¬ (e3 > 100000 ∨ e3 < -100000) := by omega
  have h4 : ¬ (e4 > 100000 ∨ e4 < -100000) := by omega
  have hs : ([e1, e2, e3, e4] : List Int).sum = e1 + e2 + e3 + e4 := by simp; ring
  have h6 : ¬ (e1 + e2 + e3 + e4 + (NumDigits c : Int) - 1 > 100000 ∨
      e1 + e2 + e3 + e4 + (NumDigits c : Int) - 1 < -100000) := by omega
  simp only [List.any_cons, List.any_nil, h1, h2, h3, h4, decide_False, Bool.or_false,
    Bool.false_eq_true, if_false, hs, h6]

theorem roundHalfUp_rem (y : Nat) (neg : Bool) (R b1 : Nat) :
    roundHalfUp y neg (if R * 2 < b1 then -1 else if R * 2 = b1 then 0 else 1) =
      decide (b1 ≤ 2 * R) := by
  unfold roundHalfUp
  by_cases h1 : R * 2 < b1
  · simp [h1]; omega
  · by_cases h2 : R * 2 = b1
    · simp [h1, h2]; omega
    · simp [h1, h2]; omega

/-- Function `Quo` on finite non-zero operands within the limits: the result carries
the sign `nx != ny` and denotes `Q` or `Q + 1`, where the exact quotient of
the coefficients is `(Q + R / b1) * 10^(-adjust)` with `0 ≤ R < b1`; `Q + 1`
is chosen exactly when `2 * R ≥ b1`; `Q` has at most `prec` digits, and
exactly `prec` when `R ≠ 0`. -/
theorem Quo_nonzero (nx ny : Bool) (ex ey : Int) (a b prec : Nat) (ha : 0 < a) (hb : 0 < b)
    (hp1 : 1 ≤ prec)
    (hx1 : MinExponent ≤ ex) (hx2 : ex ≤ MaxExponent)
    (hy1 : MinExponent ≤ ey) (hy2 : ey ≤ MaxExponent)
    (hD1 : (NumDigits a : Int) - NumDigits b ≤ MaxExponent)
    (hD2 : MinExponent ≤ (NumDigits a : Int) - NumDigits b - prec)
    (hA1 : MinExponent ≤ ex - ey + ((NumDigits a : Int) - NumDigits b) - 1)
    (hA2 : ex - ey + ((NumDigits a : Int) - NumDigits b) + 1 ≤ MaxExponent) :
    ∃ (Q R b1 c' dN : Nat) (adjust : Int),
      Quo prec ⟨Form.Finite, nx, ex, a⟩ ⟨Form.Finite, ny, ey, b⟩ =
        some ⟨Form.Finite, (nx != ny), ex - ey - adjust + dN, c'⟩ ∧
      0 < b1 ∧ R < b1 ∧
      (a : ℚ) / (b : ℚ) = ((Q : ℚ) + (R : ℚ) / (b1 : ℚ)) * (10 : ℚ) ^ (-adjust) ∧
      Q < 10 ^ prec ∧ (R ≠ 0 → 10 ^ (prec - 1) ≤ Q) ∧ 0 < c' ∧
      c' * 10 ^ dN = Q + (if b1 ≤ 2 * R then 1 else 0) := by
  obtain ⟨i, j, n1, n2, n3, n4⟩ := quo_normalise a b ha hb
  have hb1 : 0 < b * 10 ^ j := by positivity
  obtain ⟨T, _, hT, d1, d2⟩ := quoDigits_spec (a * 10 ^ i) (b * 10 ^ j) prec hb1 n3 n4
    (prec + 1) 0 (a * 10 ^ i) 0 ((i : Int) - j) (by omega) (by omega) (by simp)
  obtain ⟨s1, s2⟩ := quo_shift_bounds a b i j ha hb n3 n4
  have hnd := quo_digit_count (a * 10 ^ i) (b * 10 ^ j) T hb1 n3 n4
  have hxz : Decimal.IsZero ⟨Form.Finite, nx, ex, a⟩ = false := by
    simp [Decimal.IsZero, Decimal.Sign, Nat.pos_iff_ne_zero.1 ha]; cases nx <;> simp
  have hyz : Decimal.IsZero ⟨Form.Finite, ny, ey, b⟩ = false := by
    simp [Decimal.IsZero, Decimal.Sign, Nat.pos_iff_ne_zero.1 hb]; cases ny <;> simp
  -- name the quotient and the remainder
  generalize hQ : a * 10 ^ i * 10 ^ T / (b * 10 ^ j) = Q at d1 d2 hnd
  generalize hR : a * 10 ^ i * 10 ^ T % (b * 10 ^ j) = R at d1 d2
  have hdm : b * 10 ^ j * Q + R = a * 10 ^ i * 10 ^ T := by
    rw [← hQ, ← hR]; exact Nat.div_add_mod _ _
  have hRlt : R < b * 10 ^ j := by rw [← hR]; exact Nat.mod_lt _ hb1
  have hQlt : Q < 10 ^ prec := by
    have := lt_pow_NumDigits Q
    rw [hnd] at this
    exact lt_of_lt_of_le this (Nat.pow_le_pow_right (by norm_num) hT)
  have hQpos : 0 < Q := by
    rcases Nat.eq_zero_or_pos Q with h | h
    · subst h
      have : a * 10 ^ i * 10 ^ T < b * 10 ^ j := by omega
      have h2 : a * 10 ^ i ≤ a * 10 ^ i * 10 ^ T := Nat.le_mul_of_pos_right _ (by positivity)
      omega
    · exact h
  have hQge : R ≠ 0 → 10 ^ (prec - 1) ≤ Q := by
    intro hne
    have hTp := d2 hne
    have := pow_NumDigits_le Q hQpos
    rw [hnd] at this
    have e : prec - 1 = T + 1 - 1 := by omega
    rw [e]; exact this
  -- the exact quotient
  have hquot : (a : ℚ) / (b : ℚ) =
      ((Q : ℚ) + (R : ℚ) / ((b * 10 ^ j : Nat) : ℚ)) *
        (10 : ℚ) ^ (-((i : Int) - j + ((T - 0 : Nat) : Int))) := by
    have hbq : (b : ℚ) ≠ 0 := by exact_mod_cast (Nat.pos_iff_ne_zero.1 hb)
    have hcast : ((b * 10 ^ j : Nat) : ℚ) * (Q : ℚ) + (R : ℚ) =
        (a : ℚ) * (10 : ℚ) ^ i * (10 : ℚ) ^ T := by exact_mod_cast hdm
    have hexp : (10 : ℚ) ^ (-((i : Int) - j + ((T - 0 : Nat) : Int))) =
        (10 : ℚ) ^ j / ((10 : ℚ) ^ i * (10 : ℚ) ^ T) := by
      have : -((i : Int) - j + ((T - 0 : Nat) : Int)) = (j : Int) - ((i : Int) + (T : Int)) := by
        simp; ring
      rw [this, zpow_sub₀ (by norm_num), zpow_add₀ (by norm_num)]
      simp [zpow_natCast]
    have hBne : ((b * 10 ^ j : Nat) : ℚ) ≠ 0 := by exact_mod_cast (Nat.pos_iff_ne_zero.1 hb1)
    have h1 : (Q : ℚ) + (R : ℚ) / ((b * 10 ^ j : Nat) : ℚ) =
        ((a : ℚ) * (10 : ℚ) ^ i * (10 : ℚ) ^ T) / ((b * 10 ^ j : Nat) : ℚ) := by
      rw [eq_div_iff hBne, add_mul, div_mul_cancel₀ _ hBne]
      linarith [hcast]
    rw [hexp, h1]
    push_cast
    field_simp
    ring
  have hfin : ¬ ((Form.Finite = Form.Infinite) ∨ (Form.Finite = Form.Infinite)) := by simp
  have hp0 : ¬ (prec = 0) := by omega
  simp only [MinExponent, MaxExponent] at hx1 hx2 hy1 hy2 hD1 hD2 hA1 hA2
  have hT0 : ((T - 0 : Nat) : Int) = (T : Int) := by simp
  unfold Quo
  rw [setIfNaN_finite2 _ _ rfl rfl]
  simp only [hfin, hp0, hxz, hyz, if_false, Bool.false_eq_true, n1, n2, hQ, hR, d1,
    roundHalfUp_rem]
  by_cases hR0 : R = 0
  · subst hR0
    simp only [ne_eq, not_true_eq_false, if_false]
    rw [setExponent_quad Q ex (-ey) (-((i : Int) - j + ((T - 0 : Nat) : Int))) 0
      (by simp only [MinExponent]; omega) (by simp only [MaxExponent]; omega)
      (by simp only [MinExponent]; omega) (by simp only [MaxExponent]; omega)
      (by simp only [MinExponent]; omega) (by simp only [MaxExponent]; omega)
      (by simp only [MinExponent]; omega) (by simp only [MaxExponent]; omega)
      (by simp only [MinExponent]; omega) (by simp only [MaxExponent]; omega)
      (ex - ey - ((i : Int) - j + ((T - 0 : Nat) : Int)) + ((0 : Nat) : Int)) (by push_cast; ring)]
    refine ⟨Q, 0, b * 10 ^ j, Q, 0, (i : Int) - j + ((T - 0 : Nat) : Int), ?_, hb1, hRlt,
      hquot, hQlt, hQge, hQpos, ?_⟩
    · rfl
    · simp [hb.ne']
  · simp only [ne_eq, hR0, not_false_eq_true, if_true]
    by_cases hup : b * 10 ^ j ≤ 2 * R
    · simp only [hup, decide_True, if_true]
      rcases roundAddOne_spec Q 0 with ⟨e1, e2, e3⟩ | ⟨e1, e2, e3⟩
      · rw [e1, e2]
        rw [setExponent_quad (Q + 1) ex (-ey) (-((i : Int) - j + ((T - 0 : Nat) : Int))) 0
          (by simp only [MinExponent]; omega) (by simp only [MaxExponent]; omega)
          (by simp only [MinExponent]; omega) (by simp only [MaxExponent]; omega)
          (by simp only [MinExponent]; omega) (by simp only [MaxExponent]; omega)
          (by simp only [MinExponent]; omega) (by simp only [MaxExponent]; omega)
          (by simp only [MinExponent]; omega) (by simp only [MaxExponent]; omega)
          (ex - ey - ((i : Int) - j + ((T - 0 : Nat) : Int)) + ((0 : Nat) : Int)) (by push_cast; ring)]
        refine ⟨Q, R, b * 10 ^ j, Q + 1, 0, (i : Int) - j + ((T - 0 : Nat) : Int), ?_, hb1, hRlt,
          hquot, hQlt, hQge, by omega, ?_⟩
        · rfl
        · simp [hup]
      · rw [e1]
        have hc'pos : 0 < (roundAddOne Q 0).1 := by
          rcases Nat.eq_zero_or_pos (roundAddOne Q 0).1 with h | h
          · rw [h] at e2; omega
          · exact h
        rw [setExponent_quad _ ex (-ey) (-((i : Int) - j + ((T - 0 : Nat) : Int))) (0 + 1)
          (by simp only [MinExponent]; omega) (by simp only [MaxExponent]; omega)
          (by simp only [MinExponent]; omega) (by simp only [MaxExponent]; omega)
          (by simp only [MinExponent]; omega) (by simp only [MaxExponent]; omega)
          (by simp only [MinExponent]; omega) (by simp only [MaxExponent]; omega)
          (by simp only [MinExponent]; omega) (by simp only [MaxExponent]; omega)
          (ex - ey - ((i : Int) - j + ((T - 0 : Nat) : Int)) + ((1 : Nat) : Int)) (by push_cast; ring)]
        refine ⟨Q, R, b * 10 ^ j, (roundAddOne Q 0).1, 1,
          (i : Int) - j + ((T - 0 : Nat) : Int), ?_, hb1, hRlt, hquot, hQlt, hQge, hc'pos, ?_⟩
        · rfl
        · simp [hup, e2]
    · simp only [hup, decide_False, Bool.false_eq_true, if_false]
      rw [setExponent_quad Q ex (-ey) (-((i : Int) - j + ((T - 0 : Nat) : Int))) 0
        (by simp only [MinExponent]; omega) (by simp only [MaxExponent]; omega)
        (by simp only [MinExponent]; omega) (by simp only [MaxExponent]; omega)
        (by simp only [MinExponent]; omega) (by simp only [MaxExponent]; omega)
        (by simp only [MinExponent]; omega) (by simp only [MaxExponent]; omega)
        (by simp only [MinExponent]; omega) (by simp only [MaxExponent]; omega)
        (ex - ey - ((i : Int) - j + ((T - 0 : Nat) : Int)) + ((0 : Nat) : Int)) (by push_cast; ring)]
      refine ⟨Q, R, b * 10 ^ j, Q, 0, (i : Int) - j + ((T - 0 : Nat) : Int), ?_, hb1, hRlt,
        hquot, hQlt, hQge, hQpos, ?_⟩
      · rfl
      · simp [hup]

end apd

namespace apd

/-- The trailing-zero loop strips every trailing zero and keeps the value. -/
theorem stripZeros_spec : ∀ (fuel c nd : Nat), 0 < c → c ≤ fuel →
    (stripZeros fuel c nd).1 * 10 ^ ((stripZeros fuel c nd).2 - nd) = c ∧
      nd ≤ (stripZeros fuel c nd).2 ∧ (stripZeros fuel c nd).1 % 10 ≠ 0 := by
  intro fuel
  induction fuel with
  | zero => intro c nd h1 h2; omega
  | succ f ih =>
    intro c nd h1 h2
    by_cases h0 : c % 10 = 0
    · have hc : ¬ c = 0 := by omega
      have hdiv : c / 10 * 10 = c := by omega
      obtain ⟨e1, e2, e3⟩ := ih (c / 10) (nd + 1) (by omega) (by omega)
      have hstep : stripZeros (f + 1) c nd = stripZeros f (c / 10) (nd + 1) := by
        simp [stripZeros, hc, h0]
      rw [hstep]
      refine ⟨?_, by omega, e3⟩
      have hk : (stripZeros f (c / 10) (nd + 1)).2 - nd
          = ((stripZeros f (c / 10) (nd + 1)).2 - (nd + 1)) + 1 := by omega
      rw [hk, pow_succ, ← Nat.mul_assoc, e1, hdiv]
    · have hstep : stripZeros (f + 1) c nd = (c, nd) := by
        simp [stripZeros, h0]
      rw [hstep]
      exact ⟨by simp, le_refl _, h0⟩

/-- Function `Reduce` of a finite non-zero decimal onto itself: same sign and value,
no trailing zero in the coefficient. -/
theorem Reduce_nonzero (neg : Bool) (e : Int) (c : Nat) (hc : 0 < c) :
    ∃ (c' : Nat) (k : Nat),
      (Reduce ⟨Form.Finite, neg, e, c⟩ ⟨Form.Finite, neg, e, c⟩).1 =
        ⟨Form.Finite, neg, e + k, c'⟩ ∧ c' * 10 ^ k = c ∧ c' % 10 ≠ 0 := by
  obtain ⟨e1, _, e3⟩ := stripZeros_spec c c 0 hc (le_refl _)
  have hs : Decimal.Sign ⟨Form.Finite, neg, e, c⟩ ≠ 0 := by
    simp [Decimal.Sign, Nat.pos_iff_ne_zero.1 hc]; cases neg <;> simp
  refine ⟨(stripZeros c c 0).1, (stripZeros c c 0).2, ?_, by simpa using e1, e3⟩
  unfold Reduce
  simp only [ne_eq, not_true_eq_false, if_false, hs]

theorem Reduce_zero (neg : Bool) (e : Int) :
    (Reduce ⟨Form.Finite, neg, e, 0⟩ ⟨Form.Finite, neg, e, 0⟩).1 = New 0 0 := by
  simp [Reduce, Decimal.Sign]

/-- Function `Quo` of a finite zero by a finite non-zero divisor. -/
theorem Quo_zero (nx ny : Bool) (ex ey : Int) (b prec : Nat) (hb : 0 < b)
    (hp1 : 1 ≤ prec)
    (hx1 : MinExponent ≤ ex) (hx2 : ex ≤ MaxExponent)
    (hy1 : MinExponent ≤ ey) (hy2 : ey ≤ MaxExponent)
    (hz1 : MinExponent ≤ ex - ey) (hz2 : ex - ey ≤ MaxExponent) :
    Quo prec ⟨Form.Finite, nx, ex, 0⟩ ⟨Form.Finite, ny, ey, b⟩ =
      some ⟨Form.Finite, (nx != ny), ex - ey, 0⟩ := by
  have hxz : Decimal.IsZero ⟨Form.Finite, nx, ex, 0⟩ = true := by
    simp [Decimal.IsZero, Decimal.Sign]
  have hyz : Decimal.IsZero ⟨Form.Finite, ny, ey, b⟩ = false := by
    simp [Decimal.IsZero, Decimal.Sign, Nat.pos_iff_ne_zero.1 hb]; cases ny <;> simp
  have hfin : ¬ ((Form.Finite = Form.Infinite) ∨ (Form.Finite = Form.Infinite)) := by simp
  have hp0 : ¬ (prec = 0) := by omega
  simp only [MinExponent, MaxExponent] at hx1 hx2 hy1 hy2 hz1 hz2
  unfold Quo
  rw [setIfNaN_finite2 _ _ rfl rfl]
  simp only [hfin, hp0, hxz, hyz, if_false, if_true, Bool.false_eq_true]
  rw [setExponent_quad 0 ex (-ey) (-0) 0
    (by simp only [MinExponent]; omega) (by simp only [MaxExponent]; omega)
    (by simp only [MinExponent]; omega) (by simp only [MaxExponent]; omega)
    (by simp only [MinExponent]; omega) (by simp only [MaxExponent]; omega)
    (by simp only [MinExponent]; omega) (by simp only [MaxExponent]; omega)
    (by rw [NumDigits_zero]; simp only [MinExponent]; omega)
    (by rw [NumDigits_zero]; simp only [MaxExponent]; omega)
    (ex - ey) (by ring)]
  rfl

end apd

namespace apd

theorem sign_div (nx ny : Bool) :
    (if nx then (-1 : ℚ) else 1) / (if ny then (-1 : ℚ) else 1) =
      (if (nx != ny) then (-1 : ℚ) else 1) := by
  cases nx <;> cases ny <;> norm_num

theorem sign_cases (n : Bool) :
    (if n then (-1 : ℚ) else 1) = 1 ∨ (if n then (-1 : ℚ) else 1) = -1 := by
  cases n <;> simp

/-- Function `Quo` followed by `Reduce`, as `DivPrecision` runs them: the result is
the exact quotient rounded half up to `prec` significant digits, with the
trailing zeros of the coefficient stripped. -/
theorem Quo_Reduce_rounds (nx ny : Bool) (ex ey : Int) (a b prec : Nat) (hb : 0 < b)
    (hp1 : 1 ≤ prec)
    (hx1 : MinExponent ≤ ex) (hx2 : ex ≤ MaxExponent)
    (hy1 : MinExponent ≤ ey) (hy2 : ey ≤ MaxExponent)
    (hz1 : MinExponent ≤ ex - ey) (hz2 : ex - ey ≤ MaxExponent)
    (hD1 : (NumDigits a : Int) - NumDigits b ≤ MaxExponent)
    (hD2 : MinExponent ≤ (NumDigits a : Int) - NumDigits b - prec)
    (hA1 : MinExponent ≤ ex - ey + ((NumDigits a : Int) - NumDigits b) - 1)
    (hA2 : ex - ey + ((NumDigits a : Int) - NumDigits b) + 1 ≤ MaxExponent) :
    ∃ r, (Quo prec ⟨Form.Finite, nx, ex, a⟩ ⟨Form.Finite, ny, ey, b⟩).map
        (fun r => (Reduce r r).1) = some r ∧
      r.Form = Form.Finite ∧ ((r.Coeff = 0 ∧ r.Exponent = 0) ∨ r.Coeff % 10 ≠ 0) ∧
      RoundedHalfUp prec
        (Decimal.value ⟨Form.Finite, nx, ex, a⟩ / Decimal.value ⟨Form.Finite, ny, ey, b⟩)
        r.value := by
  have hbq : (b : ℚ) ≠ 0 := by exact_mod_cast (Nat.pos_iff_ne_zero.1 hb)
  rcases Nat.eq_zero_or_pos a with ha | ha
  · subst ha
    rw [Quo_zero nx ny ex ey b prec hb hp1 hx1 hx2 hy1 hy2 hz1 hz2]
    refine ⟨New 0 0, ?_, rfl, Or.inl ⟨rfl, rfl⟩, ?_⟩
    · simp only [Option.map_some', Reduce_zero]
    · refine ⟨1, 0, 0, 0, Or.inl rfl, le_refl _, by norm_num, ?_, by positivity,
        fun h => absurd rfl h, ?_⟩
      · simp [value_mk]
      · simp [New, Decimal.value]
        norm_num
  · obtain ⟨Q, R, b1, c', dN, adjust, e0, hb1, hR, hquot, hQlt, hQge, hc', hround⟩ :=
      Quo_nonzero nx ny ex ey a b prec ha hb hp1 hx1 hx2 hy1 hy2 hD1 hD2 hA1 hA2
    obtain ⟨c'', k, r1, r2, r3⟩ :=
      Reduce_nonzero (nx != ny) (ex - ey - adjust + dN) c' hc'
    rw [e0]
    refine ⟨⟨Form.Finite, (nx != ny), ex - ey - adjust + dN + k, c''⟩,
      by simp only [Option.map_some', r1], rfl, Or.inr r3, ?_⟩
    have hb1q : (0 : ℚ) < (b1 : ℚ) := by exact_mod_cast hb1
    have hf0 : (0 : ℚ) ≤ (R : ℚ) / (b1 : ℚ) := by positivity
    have hf1 : (R : ℚ) / (b1 : ℚ) < 1 := by
      rw [div_lt_one hb1q]; exact_mod_cast hR
    have hite : (if 1 ≤ 2 * ((R : ℚ) / (b1 : ℚ)) then (1 : ℚ) else 0) =
        ((if b1 ≤ 2 * R then 1 else 0 : Nat) : ℚ) := by
      have key : (1 ≤ 2 * ((R : ℚ) / (b1 : ℚ))) ↔ b1 ≤ 2 * R := by
        rw [← mul_div_assoc, le_div_iff₀ hb1q, one_mul]
        constructor
        · intro h; exact_mod_cast h
        · intro h; exact_mod_cast h
      by_cases h : b1 ≤ 2 * R
      · rw [if_pos (key.2 h), if_pos h]; simp
      · rw [if_neg (mt key.1 h), if_neg h]; simp
    refine ⟨(if (nx != ny) then (-1 : ℚ) else 1), Q, ex - ey - adjust, (R : ℚ) / (b1 : ℚ),
      sign_cases _, hf0, hf1, ?_, hQlt, ?_, ?_⟩
    · rw [value_mk, value_mk]
      have h10 : (10 : ℚ) ^ (ex - ey - adjust) = (10 : ℚ) ^ ex / (10 : ℚ) ^ ey * (10 : ℚ) ^ (-adjust) := by
        rw [show ex - ey - adjust = ex - ey + -adjust by ring, zpow_add₀ (by norm_num),
          zpow_sub₀ (by norm_num)]
      rw [h10, ← sign_div nx ny]
      have hey : (10 : ℚ) ^ ey ≠ 0 := by positivity
      have hsy : (if ny then (-1 : ℚ) else 1) ≠ 0 := by cases ny <;> norm_num
      have e : (if nx then (-1 : ℚ) else 1) * (a : ℚ) * (10 : ℚ) ^ ex /
          ((if ny then (-1 : ℚ) else 1) * (b : ℚ) * (10 : ℚ) ^ ey) =
          (if nx then (-1 : ℚ) else 1) / (if ny then (-1 : ℚ) else 1) *
            (((a : ℚ) / (b : ℚ)) * ((10 : ℚ) ^ ex / (10 : ℚ) ^ ey)) := by
        field_simp
      rw [e, hquot]
      ring
    · intro hne
      apply hQge
      intro h0
      apply hne
      rw [h0]; simp
    · rw [value_mk, hite]
      have hk : (10 : ℚ) ^ (ex - ey - adjust + (dN : Int) + (k : Int)) =
          (10 : ℚ) ^ (ex - ey - adjust) * ((10 : ℚ) ^ dN * (10 : ℚ) ^ k) := by
        rw [zpow_add₀ (by norm_num), zpow_add₀ (by norm_num), zpow_natCast, zpow_natCast]
        ring
      have hcc : (c'' : ℚ) * (10 : ℚ) ^ k * (10 : ℚ) ^ dN =
          (Q : ℚ) + ((if b1 ≤ 2 * R then 1 else 0 : Nat) : ℚ) := by
        have : ((c'' * 10 ^ k * 10 ^ dN : Nat) : ℚ) =
            ((Q + (if b1 ≤ 2 * R then 1 else 0) : Nat) : ℚ) := by
          rw [r2, hround]
        rw [← Nat.cast_add, ← this]
        push_cast
        ring
      rw [hk, ← hcc]
      ring

end apd

/-- C5 (as stated, refuted): `1 / 8 = 0.125` to 2 significant digits is a tie;
`DivPrecision` renders `"0.13"`, not the half-even `"0.12"`.  The last step of
the claim's example does not return either: `Round(8)` of the quotient of
`1.23` by `1.24` panics. -/
theorem DivPrecision_tie_is_not_even :
    observe (Decimal.DivPrecision [⟨apd.Form.Finite, false, 0, 1⟩, ⟨apd.Form.Finite, false, 0, 8⟩]
      ⟨some 0⟩ ⟨some 1⟩ 2) = some (some "0.13") ∧
    observe (Decimal.DivPrecision [⟨apd.Form.Finite, false, 0, 1⟩, ⟨apd.Form.Finite, false, 0, 8⟩]
      ⟨some 0⟩ ⟨some 1⟩ 2) ≠ some (some "0.12") ∧
    (Decimal.Div [⟨apd.Form.Finite, false, -2, 123⟩, ⟨apd.Form.Finite, false, -2, 124⟩]
        ⟨some 0⟩ ⟨some 1⟩ DivisionPrecision).bind (fun q => Decimal.Round q.2 q.1 8) = none := by
  refine ⟨?_, ?_, ?_⟩ <;> decide

/-- C5 (amended): for finite `a` and non-zero finite `b` (an uninitialized
operand counts as zero) and a precision `p ≥ 1`, with exponents, their
difference, the difference of the digit counts (also less `p`) and the
adjusted exponent of the quotient within the library's limits,
`a.DivPrecision(b, p)` returns the exact rational quotient rounded to `p`
significant digits with ties away from zero (half up), its coefficient free of
trailing zeros (zero is `0` on exponent 0); `Div` is `DivPrecision` at the
global precision. -/
theorem DivPrecision_rounds_half_up (h : Heap) (d1 d2 : Decimal) (a b : apd.Decimal) (p : Nat)
    (h1 : d1.load h = some a) (h2 : d2.load h = some b)
    (fa : a.Form = apd.Form.Finite) (fb : b.Form = apd.Form.Finite)
    (hb : b.Coeff ≠ 0) (hp1 : 1 ≤ p)
    (hx1 : apd.MinExponent ≤ a.Exponent) (hx2 : a.Exponent ≤ apd.MaxExponent)
    (hy1 : apd.MinExponent ≤ b.Exponent) (hy2 : b.Exponent ≤ apd.MaxExponent)
    (hz1 : apd.MinExponent ≤ a.Exponent - b.Exponent)
    (hz2 : a.Exponent - b.Exponent ≤ apd.MaxExponent)
    (hD1 : (apd.NumDigits a.Coeff : Int) - apd.NumDigits b.Coeff ≤ apd.MaxExponent)
    (hD2 : apd.MinExponent ≤ (apd.NumDigits a.Coeff : Int) - apd.NumDigits b.Coeff - p)
    (hA1 : apd.MinExponent ≤
      a.Exponent - b.Exponent + ((apd.NumDigits a.Coeff : Int) - apd.NumDigits b.Coeff) - 1)
    (hA2 : a.Exponent - b.Exponent + ((apd.NumDigits a.Coeff : Int) - apd.NumDigits b.Coeff) + 1
      ≤ apd.MaxExponent) :
    (∃ res h' r, Decimal.DivPrecision h d1 d2 p = some (res, h') ∧ res.load h' = some r ∧
      r.Form = apd.Form.Finite ∧ ((r.Coeff = 0 ∧ r.Exponent = 0) ∨ r.Coeff % 10 ≠ 0) ∧
      RoundedHalfUp p (a.value / b.value) r.value) ∧
    Decimal.Div h d1 d2 p = Decimal.DivPrecision h d1 d2 p := by
  refine ⟨?_, rfl⟩
  obtain ⟨f1, nx, ex, ca⟩ := a
  obtain ⟨f2, ny, ey, cb⟩ := b
  simp only at fa fb hb hx1 hx2 hy1 hy2 hz1 hz2 hD1 hD2 hA1 hA2
  subst fa; subst fb
  obtain ⟨r, e1, e2, e3, e4⟩ := apd.Quo_Reduce_rounds nx ny ex ey ca cb p
    (Nat.pos_of_ne_zero hb) hp1 hx1 hx2 hy1 hy2 hz1 hz2 hD1 hD2 hA1 hA2
  have hmod : p % 4294967296 = p := by
    simp only [apd.MinExponent, apd.MaxExponent] at hD1 hD2
    exact Nat.mod_eq_of_lt (by omega)
  obtain ⟨res, h', q1, q2, _⟩ := binop_load
    (fun x y => (apd.Quo (p % 4294967296) x y).map (fun r => (apd.Reduce r r).1))
    h d1 d2 _ _ r h1 h2 (by simp only [hmod]; exact e1)
  exact ⟨res, h', r, q1, q2, e2, e3, e4⟩

/-- Witness for C5 at `1.23 / 1.24` with the default precision 32; the
quotient renders `"0.99193548387096774193548387096774"`. -/
theorem DivPrecision_rounds_half_up_witness :
    ((∃ res h' r, Decimal.DivPrecision [⟨apd.Form.Finite, false, -2, 123⟩,
          ⟨apd.Form.Finite, false, -2, 124⟩] ⟨some 0⟩ ⟨some 1⟩ DivisionPrecision
          = some (res, h') ∧ res.load h' = some r ∧
        r.Form = apd.Form.Finite ∧ ((r.Coeff = 0 ∧ r.Exponent = 0) ∨ r.Coeff % 10 ≠ 0) ∧
        RoundedHalfUp DivisionPrecision
          (apd.Decimal.value ⟨apd.Form.Finite, false, -2, 123⟩ /
            apd.Decimal.value ⟨apd.Form.Finite, false, -2, 124⟩) r.value) ∧
      Decimal.Div [⟨apd.Form.Finite, false, -2, 123⟩, ⟨apd.Form.Finite, false, -2, 124⟩]
          ⟨some 0⟩ ⟨some 1⟩ DivisionPrecision =
        Decimal.DivPrecision [⟨apd.Form.Finite, false, -2, 123⟩,
          ⟨apd.Form.Finite, false, -2, 124⟩] ⟨some 0⟩ ⟨some 1⟩ DivisionPrecision) ∧
    observe (Decimal.Div [⟨apd.Form.Finite, false, -2, 123⟩, ⟨apd.Form.Finite, false, -2, 124⟩]
        ⟨some 0⟩ ⟨some 1⟩ DivisionPrecision)
      = some (some "0.99193548387096774193548387096774") :=
  ⟨DivPrecision_rounds_half_up [⟨apd.Form.Finite, false, -2, 123⟩,
      ⟨apd.Form.Finite, false, -2, 124⟩] ⟨some 0⟩ ⟨some 1⟩
      ⟨apd.Form.Finite, false, -2, 123⟩ ⟨apd.Form.Finite, false, -2, 124⟩ DivisionPrecision
      rfl rfl rfl rfl (by decide) (by decide) (by decide) (by decide) (by decide) (by decide)
      (by decide) (by decide) (by decide) (by decide) (by decide) (by decide),
    by decide⟩

namespace apd

/-- A decimal digit character. -/
theorem digitChar_toNat (d : Nat) (hd : d < 10) : (digitChar d).toNat = 48 + d := by
  interval_cases d <;> rfl

theorem digitVal_digitChar (d : Nat) (hd : d < 10) : digitVal (digitChar d) = some d := by
  unfold digitVal
  rw [digitChar_toNat d hd]
  have : 48 ≤ 48 + d ∧ 48 + d ≤ 57 := by omega
  simp [this]

theorem parseDigitsAux_append (l1 l2 : List Char) : ∀ acc : Nat,
    parseDigitsAux (l1 ++ l2) acc = (parseDigitsAux l1 acc).bind (parseDigitsAux l2) := by
  induction l1 with
  | nil => intro acc; simp [parseDigitsAux]
  | cons c cs ih =>
    intro acc
    simp only [List.cons_append, parseDigitsAux]
    cases digitVal c with
    | none => rfl
    | some d => exact ih _

theorem parseDigitsAux_digitChars (l : List Nat) (hl : ∀ d ∈ l, d < 10) : ∀ acc : Nat,
    parseDigitsAux (l.map digitChar) acc = some (l.foldl (fun a d => a * 10 + d) acc) := by
  induction l with
  | nil => intro acc; rfl
  | cons d ds ih =>
    intro acc
    simp only [List.map_cons, parseDigitsAux, List.foldl_cons]
    rw [digitVal_digitChar d (hl d (List.mem_cons_self _ _))]
    exact ih (fun x hx => hl x (List.mem_cons_of_mem _ hx)) _

theorem foldl_digits_acc (l : List Nat) : ∀ acc : Nat,
    l.foldl (fun a d => a * 10 + d) acc =
      acc * 10 ^ l.length + l.foldl (fun a d => a * 10 + d) 0 := by
  induction l with
  | nil => intro acc; simp
  | cons d ds ih =>
    intro acc
    simp only [List.foldl_cons, List.length_cons]
    rw [ih (acc * 10 + d), ih (0 * 10 + d), pow_succ]
    ring

theorem foldl_reverse_digits (n : Nat) :
    (Nat.digits 10 n).reverse.foldl (fun a d => a * 10 + d) 0 = n := by
  rw [List.foldl_reverse]
  have h : ∀ L : List Nat, L.foldr (fun d a => a * 10 + d) 0 = Nat.ofDigits 10 L := by
    intro L
    induction L with
    | nil => rfl
    | cons d ds ih =>
      simp only [List.foldr_cons, Nat.ofDigits_cons, ih]
      ring
  rw [h, Nat.ofDigits_digits]

/-- Reading back the digits of `n` after an accumulator. -/
theorem parseDigitsAux_digits (n acc : Nat) :
    parseDigitsAux (digits n) acc = some (acc * 10 ^ NumDigits n + n) := by
  rcases Nat.eq_zero_or_pos n with h | h
  · subst h
    rw [digits_zero, NumDigits_zero]
    simp [parseDigitsAux, digitVal]
  · have hlen : NumDigits n = (Nat.digits 10 n).reverse.length := by
      unfold NumDigits; rw [digits_pos n h]; simp
    rw [digits_pos n h, parseDigitsAux_digitChars _ (by
      intro d hd
      exact Nat.digits_lt_base (by norm_num) (List.mem_reverse.1 hd)),
      foldl_digits_acc, foldl_reverse_digits, hlen]

theorem parseDigitsAux_zeros (k acc : Nat) :
    parseDigitsAux (List.replicate k '0') acc = some (acc * 10 ^ k) := by
  induction k generalizing acc with
  | zero => simp [parseDigitsAux]
  | succ k ih =>
    simp only [List.replicate_succ, parseDigitsAux]
    have : digitVal '0' = some 0 := by decide
    rw [this]
    simp only []
    rw [ih, pow_succ]
    congr 1
    ring

theorem digits_ne_nil (n : Nat) : digits n ≠ [] := by
  have := NumDigits_ge_one n
  unfold NumDigits at this
  intro h
  rw [h] at this
  simp at this

/-- Every character of `digits n` is a decimal digit. -/
theorem digits_all_digit (n : Nat) : ∀ ch ∈ digits n, 48 ≤ ch.toNat ∧ ch.toNat ≤ 57 := by
  intro ch hch
  rcases Nat.eq_zero_or_pos n with h | h
  · subst h
    rw [digits_zero] at hch
    simp at hch
    subst hch
    decide
  · rw [digits_pos n h] at hch
    simp only [List.mem_map, List.mem_reverse] at hch
    obtain ⟨d, hd, rfl⟩ := hch
    have hlt : d < 10 := Nat.digits_lt_base (by norm_num) hd
    rw [digitChar_toNat d hlt]
    omega

end apd

namespace apd

theorem splitFirst_none (c : Char) : ∀ l : List Char, (∀ ch ∈ l, ch ≠ c) →
    splitFirst c l = none := by
  intro l
  induction l with
  | nil => intro _; rfl
  | cons x xs ih =>
    intro h
    have hx : x ≠ c := h x (List.mem_cons_self _ _)
    simp only [splitFirst, hx, if_false]
    rw [ih (fun ch hch => h ch (List.mem_cons_of_mem _ hch))]

theorem splitFirst_append (c : Char) (l2 : List Char) : ∀ l1 : List Char,
    (∀ ch ∈ l1, ch ≠ c) → splitFirst c (l1 ++ c :: l2) = some (l1, l2) := by
  intro l1
  induction l1 with
  | nil => intro _; simp [splitFirst]
  | cons x xs ih =>
    intro h
    have hx : x ≠ c := h x (List.mem_cons_self _ _)
    have := ih (fun ch hch => h ch (List.mem_cons_of_mem _ hch))
    simp only [List.cons_append, splitFirst, hx, if_false, List.append_eq, this]

theorem digit_ne (ch c : Char) (h : 48 ≤ ch.toNat ∧ ch.toNat ≤ 57)
    (hc : c.toNat < 48 ∨ 57 < c.toNat) : ch ≠ c := by
  intro e
  subst e
  omega

theorem toLower_id (ch : Char) (h : ch.toNat < 65 ∨ (90 < ch.toNat ∧ ch.toNat < 304)) :
    toLower ch = ch := by
  unfold toLower
  rw [if_neg (by omega), if_neg (by omega), if_neg (by omega)]

theorem map_toLower_id (l : List Char)
    (h : ∀ ch ∈ l, ch.toNat < 65 ∨ (90 < ch.toNat ∧ ch.toNat < 304)) :
    l.map toLower = l := by
  induction l with
  | nil => rfl
  | cons x xs ih =>
    simp only [List.map_cons]
    rw [toLower_id x (h x (List.mem_cons_self _ _)),
      ih (fun ch hch => h ch (List.mem_cons_of_mem _ hch))]

theorem parseDigits_digits_tail (pre : List Char) (n k : Nat) (hp : parseDigitsAux pre 0 = some k) :
    parseDigits (pre ++ digits n) = some (k * 10 ^ NumDigits n + n) := by
  unfold parseDigits
  have hne : pre ++ digits n ≠ [] := by
    intro h
    exact digits_ne_nil n (List.append_eq_nil.1 h).2
  rw [if_neg hne, parseDigitsAux_append, hp]
  exact parseDigitsAux_digits n k

theorem parseDigits_digits (n : Nat) : parseDigits (digits n) = some n := by
  have := parseDigits_digits_tail [] n 0 rfl
  simpa using this

theorem parseCoeff_of_digit_head (ch : Char) (rest : List Char) :
    parseCoeff (ch :: rest) = parseDigits (ch :: rest) := rfl

theorem parseInt32_plus (n : Nat) (hn : n ≤ 2147483647) :
    parseInt32 ('+' :: digits n) = some (n : Int) := by
  simp [parseInt32, parseDigits_digits, hn]

theorem parseInt32_minus (n : Nat) (hn : n ≤ 2147483648) :
    parseInt32 ('-' :: digits n) = some (-(n : Int)) := by
  simp [parseInt32, parseDigits_digits, hn]

/-- With a decimal digit in front, `setString` goes to the finite branch. -/
theorem setStringBody_of_digit_head (neg : Bool) (ch : Char) (rest : List Char)
    (h : 48 ≤ ch.toNat ∧ ch.toNat ≤ 57) :
    setStringBody neg (ch :: rest) = parseFinite neg (ch :: rest) := by
  have h1 : ch ≠ '-' := digit_ne ch '-' h (by decide)
  have h2 : ch ≠ '+' := digit_ne ch '+' h (by decide)
  have h3 : ch ≠ 'i' := digit_ne ch 'i' h (by decide)
  have h4 : ch ≠ 's' := digit_ne ch 's' h (by decide)
  have h5 : ch ≠ 'n' := digit_ne ch 'n' h (by decide)
  unfold setStringBody
  have e1 : "infinity".toList = ['i', 'n', 'f', 'i', 'n', 'i', 't', 'y'] := rfl
  have e2 : "inf".toList = ['i', 'n', 'f'] := rfl
  have e3 : "snan".toList = ['s', 'n', 'a', 'n'] := rfl
  have e4 : "nan".toList = ['n', 'a', 'n'] := rfl
  rw [e1, e2, e3, e4]
  simp [h1, h2, h3, h4, h5, List.isPrefixOf, Ne.symm h4, Ne.symm h5]

end apd

namespace apd

theorem digits_cons (n : Nat) : ∃ ch rest, digits n = ch :: rest ∧ 48 ≤ ch.toNat ∧ ch.toNat ≤ 57 := by
  cases hd : digits n with
  | nil => exact absurd hd (digits_ne_nil n)
  | cons ch rest =>
    have := digits_all_digit n ch (by rw [hd]; exact List.mem_cons_self _ _)
    exact ⟨ch, rest, rfl, this⟩

theorem parseCoeff_digits (n : Nat) : parseCoeff (digits n) = some n := by
  obtain ⟨ch, rest, e, h⟩ := digits_cons n
  rw [e, parseCoeff_of_digit_head ch rest, ← e]
  exact parseDigits_digits n

theorem digits_no (n : Nat) (c : Char) (hc : c.toNat < 48 ∨ 57 < c.toNat) :
    ∀ ch ∈ digits n, ch ≠ c :=
  fun ch hch => digit_ne ch c (digits_all_digit n ch hch) hc

/-- Mantissa without a decimal point. -/
theorem parseMantissa_plain (neg : Bool) (c : Nat) (exps : List Int) :
    parseMantissa neg (digits c) exps =
      (setExponent c exps).map
        (fun e => { Form := Form.Finite, Negative := neg, Exponent := e, Coeff := c }) := by
  unfold parseMantissa
  rw [splitFirst_none '.' (digits c) (digits_no c '.' (by decide))]
  simp only [parseCoeff_digits]

/-- Mantissa `0.000ddd`. -/
theorem parseMantissa_lead (neg : Bool) (c k : Nat) (exps : List Int) :
    parseMantissa neg ('0' :: '.' :: (List.replicate k '0' ++ digits c)) exps =
      (setExponent c (exps ++ [-((k + NumDigits c : Nat) : Int)])).map
        (fun e => { Form := Form.Finite, Negative := neg, Exponent := e, Coeff := c }) := by
  unfold parseMantissa
  have hs : splitFirst '.' ('0' :: '.' :: (List.replicate k '0' ++ digits c)) =
      some (['0'], List.replicate k '0' ++ digits c) :=
    splitFirst_append '.' _ ['0'] (by intro ch hch; simp at hch; subst hch; decide)
  rw [hs]
  have hc : parseCoeff (['0'] ++ (List.replicate k '0' ++ digits c)) = some c := by
    rw [show ['0'] ++ (List.replicate k '0' ++ digits c) = '0' :: (List.replicate k '0' ++ digits c)
      from rfl, parseCoeff_of_digit_head '0' _]
    have hz := parseDigitsAux_zeros (k + 1) 0
    rw [List.replicate_succ] at hz
    have := parseDigits_digits_tail ('0' :: List.replicate k '0') c 0 (by simpa using hz)
    simpa using this
  have hl : (List.replicate k '0' ++ digits c).length = k + NumDigits c := by
    simp [NumDigits]
  simp only [hc, hl]

/-- Mantissa `ddd.ddd` with the point after `o` digits. -/
theorem parseMantissa_point (neg : Bool) (c o : Nat) (exps : List Int) :
    parseMantissa neg ((digits c).take o ++ '.' :: (digits c).drop o) exps =
      (setExponent c (exps ++ [-((NumDigits c - o : Nat) : Int)])).map
        (fun e => { Form := Form.Finite, Negative := neg, Exponent := e, Coeff := c }) := by
  unfold parseMantissa
  have hs : splitFirst '.' ((digits c).take o ++ '.' :: (digits c).drop o) =
      some ((digits c).take o, (digits c).drop o) :=
    splitFirst_append '.' _ _
      (fun ch hch => digits_no c '.' (by decide) ch (List.mem_of_mem_take hch))
  rw [hs]
  have hl : ((digits c).drop o).length = NumDigits c - o := by simp [NumDigits]
  simp only [List.take_append_drop, parseCoeff_digits, hl]

end apd

namespace apd

theorem digit_not_upper (ch : Char) (h : 48 ≤ ch.toNat ∧ ch.toNat ≤ 57) :
    ch.toNat < 65 ∨ (90 < ch.toNat ∧ ch.toNat < 304) := by omega

theorem map_lower_digits (n : Nat) : (digits n).map toLower = digits n :=
  map_toLower_id _ (fun ch hch => digit_not_upper ch (digits_all_digit n ch hch))

theorem map_lower_sublist_digits (n : Nat) (l : List Char) (hl : ∀ ch ∈ l, ch ∈ digits n) :
    l.map toLower = l :=
  map_toLower_id _ (fun ch hch => digit_not_upper ch (digits_all_digit n ch (hl ch hch)))

theorem map_lower_zeros (k : Nat) :
    (List.replicate k '0').map toLower = List.replicate k '0' := by
  apply map_toLower_id
  intro ch hch
  rw [List.mem_replicate] at hch
  rw [hch.2]
  decide

/-- Function `setString` on a rendered finite number: an optional `-`, then a body
whose lower-cased form starts with a digit. -/
theorem setString_sign_body (neg : Bool) (b b' : List Char) (ch : Char) (rest : List Char)
    (hmap : b.map toLower = b') (hb : b' = ch :: rest)
    (hd : 48 ≤ ch.toNat ∧ ch.toNat ≤ 57) :
    setString ((if neg then ['-'] else []) ++ b) = parseFinite neg b' := by
  have h1 : ch ≠ '-' := digit_ne ch '-' hd (by decide)
  have h2 : ch ≠ '+' := digit_ne ch '+' hd (by decide)
  unfold setString
  cases neg with
  | true =>
    have : (['-'] ++ b).map toLower = '-' :: b' := by
      rw [List.map_append, hmap]; rfl
    simp only [if_true, this]
    rw [hb, setStringBody_of_digit_head true ch rest hd]
  | false =>
    have : (([] : List Char) ++ b).map toLower = ch :: rest := by
      rw [List.nil_append, hmap, hb]
    simp only [Bool.false_eq_true, if_false, this]
    split
    · rename_i heq; simp at heq; exact absurd heq.1 h1
    · rename_i heq; simp at heq; exact absurd heq.1 h2
    · rw [hb]; exact setStringBody_of_digit_head false ch rest hd

theorem setExponent_nil (c : Nat)
    (u : (NumDigits c : Int) - 1 ≤ MaxExponent) : setExponent c [] = some 0 := by
  unfold setExponent
  simp only [MinExponent, MaxExponent] at *
  have h : ¬ ((0 : Int) + (NumDigits c : Int) - 1 > 100000 ∨
      (0 : Int) + (NumDigits c : Int) - 1 < -100000) := by omega
  simp only [List.any_nil, Bool.false_eq_true, if_false, List.sum_nil, h]

end apd

namespace apd

theorem setString_sign_head (neg : Bool) (b b' : List Char) (ch : Char)
    (hmap : b.map toLower = b') (hh : b'.head? = some ch)
    (hd : 48 ≤ ch.toNat ∧ ch.toNat ≤ 57) :
    setString ((if neg then ['-'] else []) ++ b) = parseFinite neg b' := by
  cases hb : b' with
  | nil => rw [hb] at hh; simp at hh
  | cons x rest =>
    rw [hb] at hh
    simp only [List.head?_cons, Option.some.injEq] at hh
    subst hh
    rw [← hb]
    exact setString_sign_body neg b b' x rest hmap hb hd

theorem digits_head (n : Nat) : ∃ ch, (digits n).head? = some ch ∧ 48 ≤ ch.toNat ∧ ch.toNat ≤ 57 := by
  obtain ⟨ch, rest, e, h⟩ := digits_cons n
  exact ⟨ch, by rw [e]; rfl, h⟩

theorem parseFinite_no_e (neg : Bool) (s : List Char) (h : ∀ ch ∈ s, ch ≠ 'e') :
    parseFinite neg s = parseMantissa neg s [] := by
  unfold parseFinite
  rw [splitFirst_none 'e' s h]

theorem parseFinite_e (neg : Bool) (m ex : List Char) (v : Int) (h : ∀ ch ∈ m, ch ≠ 'e')
    (hv : parseInt32 ex = some v) :
    parseFinite neg (m ++ 'e' :: ex) = parseMantissa neg m [v] := by
  unfold parseFinite
  rw [splitFirst_append 'e' ex m h]
  simp only [hv]

/-- Parsing the plain rendering `fmtF` of a finite decimal returns it. -/
theorem setString_fmtF (neg : Bool) (e : Int) (c : Nat)
    (h0 : e ≤ 0) (h1 : MinExponent ≤ e)
    (h3 : MinExponent ≤ e + NumDigits c - 1) (h4 : e + NumDigits c - 1 ≤ MaxExponent) :
    setString ((if neg then ['-'] else []) ++ fmtF ⟨Form.Finite, neg, e, c⟩ (digits c)) =
      some ⟨Form.Finite, neg, e, c⟩ := by
  obtain ⟨ch, hch, hd⟩ := digits_head c
  have hL : (digits c).length = NumDigits c := rfl
  have hLpos := NumDigits_ge_one c
  have hMax : e ≤ MaxExponent := by simp only [MaxExponent]; omega
  unfold fmtF
  simp only [hL]
  by_cases hneg : e < 0
  · simp only [hneg, if_true]
    by_cases hleft : -e - (NumDigits c : Int) ≥ 0
    · -- 0.000ddd
      simp only [hleft, if_true]
      have hbody : ['0', '.'] ++ List.replicate (-e - (NumDigits c : Int)).toNat '0' ++ digits c =
          '0' :: '.' :: (List.replicate (-e - (NumDigits c : Int)).toNat '0' ++ digits c) := rfl
      rw [hbody]
      have hmap : ('0' :: '.' :: (List.replicate (-e - (NumDigits c : Int)).toNat '0' ++
          digits c)).map toLower =
          '0' :: '.' :: (List.replicate (-e - (NumDigits c : Int)).toNat '0' ++ digits c) := by
        simp only [List.map_cons, List.map_append, map_lower_zeros, map_lower_digits]
        rfl
      rw [setString_sign_head neg _ _ '0' hmap rfl (by decide)]
      rw [parseFinite_no_e, parseMantissa_lead]
      · have hexp : -(((-e - (NumDigits c : Int)).toNat + NumDigits c : Nat) : Int) = e := by
          push_cast
          rw [Int.toNat_of_nonneg hleft]
          ring
        simp only [List.nil_append, hexp]
        rw [setExponent_single c e h1 hMax h4]
        rfl
      · intro x hx
        simp only [List.mem_cons, List.mem_append, List.mem_replicate] at hx
        rcases hx with hx | hx | hx | hx
        · subst hx; decide
        · subst hx; decide
        · rw [hx.2]; decide
        · exact digits_no c 'e' (by decide) x hx
    · -- ddd.ddd
      simp only [hleft, if_false]
      have ho : 0 < (-(-e - (NumDigits c : Int))).toNat := by omega
      have hbody : List.take (-(-e - (NumDigits c : Int))).toNat (digits c) ++ ['.'] ++
          List.drop (-(-e - (NumDigits c : Int))).toNat (digits c) =
          List.take (-(-e - (NumDigits c : Int))).toNat (digits c) ++ '.' ::
          List.drop (-(-e - (NumDigits c : Int))).toNat (digits c) := by simp
      rw [hbody]
      have hmap : (List.take (-(-e - (NumDigits c : Int))).toNat (digits c) ++ '.' ::
          List.drop (-(-e - (NumDigits c : Int))).toNat (digits c)).map toLower =
          List.take (-(-e - (NumDigits c : Int))).toNat (digits c) ++ '.' ::
          List.drop (-(-e - (NumDigits c : Int))).toNat (digits c) := by
        rw [List.map_append, List.map_cons,
          map_lower_sublist_digits c _ (fun x hx => List.mem_of_mem_take hx),
          map_lower_sublist_digits c _ (fun x hx => List.mem_of_mem_drop hx)]
        rfl
      have hhead : (List.take (-(-e - (NumDigits c : Int))).toNat (digits c) ++ '.' ::
          List.drop (-(-e - (NumDigits c : Int))).toNat (digits c)).head? = some ch := by
        obtain ⟨k, hk⟩ : ∃ k, (-(-e - (NumDigits c : Int))).toNat = k + 1 :=
          ⟨(-(-e - (NumDigits c : Int))).toNat - 1, by omega⟩
        obtain ⟨x, rest, ex, _⟩ := digits_cons c
        rw [ex] at hch
        simp only [List.head?_cons, Option.some.injEq] at hch
        rw [hk, ex]
        simp [hch]
      rw [setString_sign_head neg _ _ ch hmap hhead hd]
      rw [parseFinite_no_e, parseMantissa_point]
      · have hexp : -((NumDigits c - (-(-e - (NumDigits c : Int))).toNat : Nat) : Int) = e := by
          omega
        simp only [List.nil_append, hexp]
        rw [setExponent_single c e h1 hMax h4]
        rfl
      · intro x hx
        simp only [List.mem_cons, List.mem_append] at hx
        rcases hx with hx | hx | hx
        · exact digits_no c 'e' (by decide) x (List.mem_of_mem_take hx)
        · subst hx; decide
        · exact digits_no c 'e' (by decide) x (List.mem_of_mem_drop hx)
  · -- e = 0: the digits alone
    have he : e = 0 := by omega
    subst he
    simp only [hneg, if_false, Int.toNat_zero, List.replicate_zero, List.append_nil]
    rw [setString_sign_head neg _ _ ch (map_lower_digits c) hch hd]
    rw [parseFinite_no_e neg _ (digits_no c 'e' (by decide)), parseMantissa_plain]
    rw [setExponent_nil c (by simpa using h4)]
    rfl

end apd

namespace apd

theorem toLower_E : toLower 'E' = 'e' := by decide

/-- Parsing the scientific rendering `fmtE` of a finite decimal returns it. -/
theorem setString_fmtE (neg : Bool) (e : Int) (c : Nat)
    (hE : (NumDigits c : Int) - 1 ≤ 100000)
    (h3 : MinExponent ≤ e + NumDigits c - 1) (h4 : e + NumDigits c - 1 ≤ MaxExponent) :
    setString ((if neg then ['-'] else []) ++ fmtE ⟨Form.Finite, neg, e, c⟩ (digits c)) =
      some ⟨Form.Finite, neg, e, c⟩ := by
  obtain ⟨ch, hch, hd⟩ := digits_head c
  have hL : (digits c).length = NumDigits c := rfl
  have hLpos := NumDigits_ge_one c
  simp only [MinExponent, MaxExponent] at h3 h4
  have hLle : (NumDigits c : Int) - 1 ≤ 100000 := hE
  -- the exponent text
  have hexp : parseInt32 ((if e + (NumDigits c : Int) - 1 < 0 then '-' else '+') ::
      digits (e + (NumDigits c : Int) - 1).natAbs) = some (e + (NumDigits c : Int) - 1) := by
    by_cases hn : e + (NumDigits c : Int) - 1 < 0
    · rw [if_pos hn, parseInt32_minus _ (by omega)]
      congr 1; omega
    · rw [if_neg hn, parseInt32_plus _ (by omega)]
      congr 1; omega
  have hmapExp : ((if e + (NumDigits c : Int) - 1 < 0 then ['-'] else ['+']) ++
      digits (e + (NumDigits c : Int) - 1).natAbs).map toLower =
      (if e + (NumDigits c : Int) - 1 < 0 then '-' else '+') ::
        digits (e + (NumDigits c : Int) - 1).natAbs := by
    rw [List.map_append, map_lower_digits]
    by_cases hn : e + (NumDigits c : Int) - 1 < 0
    · simp only [hn, if_true]; rfl
    · simp only [hn, if_false]; rfl
  unfold fmtE
  simp only [hL]
  by_cases hlen : NumDigits c > 1
  · simp only [hlen, if_true]
    have hmant : (List.take 1 (digits c) ++ ['.'] ++ List.drop 1 (digits c)).map toLower =
        List.take 1 (digits c) ++ '.' :: List.drop 1 (digits c) := by
      rw [List.map_append, List.map_append,
        map_lower_sublist_digits c _ (fun x hx => List.mem_of_mem_take hx),
        map_lower_sublist_digits c _ (fun x hx => List.mem_of_mem_drop hx)]
      simp
      rfl
    have hmap : (List.take 1 (digits c) ++ ['.'] ++ List.drop 1 (digits c) ++ ['E'] ++
        (if e + (NumDigits c : Int) - 1 < 0 then ['-'] else ['+']) ++
        digits (e + (NumDigits c : Int) - 1).natAbs).map toLower =
        (List.take 1 (digits c) ++ '.' :: List.drop 1 (digits c)) ++ 'e' ::
          ((if e + (NumDigits c : Int) - 1 < 0 then '-' else '+') ::
            digits (e + (NumDigits c : Int) - 1).natAbs) := by
      rw [List.append_assoc _ _ (digits _), List.map_append, hmapExp, List.map_append, hmant]
      simp [toLower_E]
    have hhead : ((List.take 1 (digits c) ++ '.' :: List.drop 1 (digits c)) ++ 'e' ::
          ((if e + (NumDigits c : Int) - 1 < 0 then '-' else '+') ::
            digits (e + (NumDigits c : Int) - 1).natAbs)).head? = some ch := by
      obtain ⟨x, rest, ex, _⟩ := digits_cons c
      rw [ex] at hch
      simp only [List.head?_cons, Option.some.injEq] at hch
      rw [ex]
      simp [hch]
    rw [setString_sign_head neg _ _ ch hmap hhead hd]
    rw [parseFinite_e neg _ _ _ ?_ hexp, parseMantissa_point]
    · simp only [List.cons_append, List.nil_append]
      rw [setExponent_pair c (e + (NumDigits c : Int) - 1) (-((NumDigits c - 1 : Nat) : Int))
        (by simp only [MinExponent]; omega) (by simp only [MaxExponent]; omega)
        (by simp only [MinExponent]; omega) (by simp only [MaxExponent]; omega)
        (by simp only [MinExponent]; omega) (by simp only [MaxExponent]; omega)]
      simp only [Option.map_some', Option.some.injEq, Decimal.mk.injEq, true_and, and_true]
      omega
    · intro x hx
      simp only [List.mem_cons, List.mem_append] at hx
      rcases hx with hx | hx | hx
      · exact digits_no c 'e' (by decide) x (List.mem_of_mem_take hx)
      · subst hx; decide
      · exact digits_no c 'e' (by decide) x (List.mem_of_mem_drop hx)
  · simp only [hlen, if_false]
    have hone : NumDigits c = 1 := by omega
    have htake : List.take 1 (digits c) = digits c := by
      apply List.take_of_length_le
      rw [hL, hone]
    rw [htake]
    have hmap : (digits c ++ ['E'] ++
        (if e + (NumDigits c : Int) - 1 < 0 then ['-'] else ['+']) ++
        digits (e + (NumDigits c : Int) - 1).natAbs).map toLower =
        digits c ++ 'e' ::
          ((if e + (NumDigits c : Int) - 1 < 0 then '-' else '+') ::
            digits (e + (NumDigits c : Int) - 1).natAbs) := by
      rw [List.append_assoc _ _ (digits _), List.map_append, hmapExp, List.map_append,
        map_lower_digits]
      simp [toLower_E]
    have hhead : (digits c ++ 'e' ::
          ((if e + (NumDigits c : Int) - 1 < 0 then '-' else '+') ::
            digits (e + (NumDigits c : Int) - 1).natAbs)).head? = some ch := by
      obtain ⟨x, rest, ex, _⟩ := digits_cons c
      rw [ex] at hch
      simp only [List.head?_cons, Option.some.injEq] at hch
      rw [ex]
      simp [hch]
    rw [setString_sign_head neg _ _ ch hmap hhead hd]
    rw [parseFinite_e neg _ _ _ (digits_no c 'e' (by decide)) hexp, parseMantissa_plain]
    rw [setExponent_single c (e + (NumDigits c : Int) - 1)
      (by simp only [MinExponent]; omega) (by simp only [MaxExponent]; omega)
      (by simp only [MaxExponent]; omega)]
    simp only [Option.map_some', Option.some.injEq, Decimal.mk.injEq, true_and, and_true]
    omega

end apd

namespace apd

theorem setExponent_single_inv (c : Nat) (e e' : Int) (h : setExponent c [e] = some e') :
    e' = e ∧ MinExponent ≤ e ∧ e ≤ MaxExponent ∧
      MinExponent ≤ e + NumDigits c - 1 ∧ e + NumDigits c - 1 ≤ MaxExponent := by
  unfold setExponent at h
  simp only [List.any_cons, List.any_nil, Bool.or_false, List.sum_cons, List.sum_nil,
    add_zero] at h
  split_ifs at h with h1 h2
  · simp only [decide_eq_true_eq, not_or, not_lt, gt_iff_lt] at h1
    simp only [not_or, not_lt, gt_iff_lt] at h2
    simp only [Option.some.injEq] at h
    exact ⟨h.symm, h1.2, h1.1, h2.2, h2.1⟩

theorem parseMantissa_form (neg : Bool) (m : List Char) (exps : List Int) (y : Decimal)
    (h : parseMantissa neg m exps = some y) : y.Form = Form.Finite := by
  unfold parseMantissa at h
  simp only at h
  split at h
  · exact absurd h (by simp)
  · rename_i c _
    rw [Option.map_eq_some'] at h
    obtain ⟨e, _, he⟩ := h
    rw [← he]

theorem parseFinite_form (neg : Bool) (s : List Char) (y : Decimal)
    (h : parseFinite neg s = some y) : y.Form = Form.Finite := by
  unfold parseFinite at h
  split at h
  · exact parseMantissa_form neg s [] y h
  · split at h
    · exact absurd h (by simp)
    · exact parseMantissa_form neg _ _ y h

theorem setStringBody_form (neg : Bool) (s : List Char) (y : Decimal)
    (h : setStringBody neg s = some y) :
    y.Form = Form.Finite ∨ (y.Form ≠ Form.Finite ∧ y.Coeff = 0 ∧ y.Exponent = 0) := by
  unfold setStringBody at h
  by_cases h1 : s.head? = some '-' ∨ s.head? = some '+'
  · rw [if_pos h1] at h; simp at h
  rw [if_neg h1] at h
  by_cases h2 : s = "infinity".toList ∨ s = "inf".toList
  · rw [if_pos h2] at h
    simp only [Option.some.injEq] at h
    rw [← h]; right; exact ⟨by simp, rfl, rfl⟩
  rw [if_neg h2] at h
  simp only at h
  split_ifs at h
  all_goals first
    | exact Or.inl (parseFinite_form neg s y h)
    | (simp only [Option.some.injEq] at h
       rw [← h]
       right
       exact ⟨by simp, rfl, rfl⟩)

theorem setString_form (s : List Char) (y : Decimal) (h : setString s = some y) :
    y.Form = Form.Finite ∨ (y.Form ≠ Form.Finite ∧ y.Coeff = 0 ∧ y.Exponent = 0) := by
  unfold setString at h
  split at h
  · exact setStringBody_form _ _ y h
  · exact setStringBody_form _ _ y h
  · exact setStringBody_form _ _ y h

/-- Every decimal returned by `NewFromString` has the parsed shape. -/
theorem NewFromString_parsed (s : List Char) (x : Decimal) (h : NewFromString s = some x) :
    x.parsed := by
  unfold NewFromString at h
  cases hy : setString s with
  | none => rw [hy] at h; exact absurd h (by simp)
  | some y =>
    rw [hy] at h
    simp only [Option.some_bind, roundDisabled] at h
    cases he : setExponent y.Coeff [y.Exponent] with
    | none => rw [he] at h; exact absurd h (by simp)
    | some e' =>
      rw [he] at h
      simp only [Option.map_some', Option.some.injEq] at h
      obtain ⟨e1, e2, e3, e4, e5⟩ := setExponent_single_inv _ _ _ he
      subst e1
      subst h
      rcases setString_form s y hy with hf | ⟨hf, hc, hz⟩
      · left; exact ⟨hf, e2, e3, e4, e5⟩
      · right; exact ⟨hf, hc, hz⟩

/-- Function `Cmp` of any decimal with itself is 0. -/
theorem Cmp_self (x : Decimal) : x.Cmp x = 0 := by
  unfold Decimal.Cmp
  simp only [lt_self_iff_false, if_false, gt_iff_lt, if_true]
  split_ifs <;> simp

end apd

namespace apd

/-- Rendering a parsed decimal and parsing the text returns the decimal. -/
theorem NewFromString_String (x : Decimal) (hx : x.parsed) :
    NewFromString x.String.toList = some x := by
  obtain ⟨f, neg, e, c⟩ := x
  rcases hx with ⟨hf, h1, h2, h3, h4⟩ | ⟨hf, hc, hz⟩
  · simp only at hf h1 h2 h3 h4
    subst hf
    have hrd : roundDisabled ⟨Form.Finite, neg, e, c⟩ = some ⟨Form.Finite, neg, e, c⟩ :=
      roundDisabled_ok _ h1 h2 h4
    have hL : (digits c).length = NumDigits c := rfl
    unfold NewFromString
    simp only [MinExponent, MaxExponent] at h1 h2 h3 h4
    have hLpos := NumDigits_ge_one c
    simp only [Decimal.String, hL, String.toList, lowestZeroNegativeCoefficientCockroach,
      adjExponentLimit]
    by_cases hpad : c = 0 ∧ e ≥ -2000 ∧ e < 0
    · rw [if_pos hpad, if_pos ⟨by omega, by omega⟩]
      have := setString_fmtF neg e c (by omega) (by simp only [MinExponent]; omega)
        (by simp only [MinExponent]; omega) (by simp only [MaxExponent]; omega)
      simp only [this, Option.some_bind, hrd]
    · rw [if_neg hpad]
      by_cases hcond : e ≤ 0 ∧ e + ((NumDigits c : Int) - 1) ≥ -6
      · rw [if_pos hcond]
        have := setString_fmtF neg e c hcond.1 (by simp only [MinExponent]; omega)
          (by simp only [MinExponent]; omega) (by simp only [MaxExponent]; omega)
        simp only [this, Option.some_bind, hrd]
      · rw [if_neg hcond]
        have := setString_fmtE neg e c (by omega) (by simp only [MinExponent]; omega)
          (by simp only [MaxExponent]; omega)
        simp only [this, Option.some_bind, hrd]
  · simp only at hf hc hz
    subst hc; subst hz
    cases f with
    | Finite => exact absurd rfl hf
    | Infinite => cases neg <;> decide
    | NaNSignaling => cases neg <;> decide
    | NaN => cases neg <;> decide

end apd

theorem FromStr_eq (h : Heap) (s : GoString) (d : Decimal) (h1 : Heap)
    (hs : FromStr h s = some (d, h1)) :
    ∃ x, apd.NewFromString s.toList = some x ∧ d = ⟨some h.length⟩ ∧ h1 = h ++ [x] := by
  unfold FromStr at hs
  cases hx : apd.NewFromString s.toList with
  | none => rw [hx] at hs; exact absurd hs (by simp)
  | some x =>
    rw [hx] at hs
    simp only [Option.map_some', Option.some.injEq, Prod.mk.injEq] at hs
    exact ⟨x, rfl, hs.1.symm, hs.2.symm⟩

/-- C10: string round-trip.  Whenever `FromStr(s)` succeeds with `d`, the
rendering `d.String()` exists, `FromStr` accepts it, and the Decimal it
returns is `Equal` to `d`. -/
theorem FromStr_String_roundtrip (h : Heap) (s : GoString) (d : Decimal) (h1 : Heap)
    (hs : FromStr h s = some (d, h1)) :
    ∃ txt d2 h2, Decimal.String h1 d = some txt ∧ FromStr h1 txt = some (d2, h2) ∧
      Decimal.Equal h2 d2 d = some true := by
  obtain ⟨x, hx, hd, hh⟩ := FromStr_eq h s d h1 hs
  subst hd; subst hh
  have hp := apd.NewFromString_parsed s.toList x hx
  have hback := apd.NewFromString_String x hp
  have hload : Decimal.load (h ++ [x]) ⟨some h.length⟩ = some x := by
    simp only [Decimal.load]; exact getElem?_append_new h x
  refine ⟨x.String, ⟨some (h ++ [x]).length⟩, h ++ [x] ++ [x], ?_, ?_, ?_⟩
  · rw [String_load, hload]; rfl
  · unfold FromStr
    rw [hback]; rfl
  · have l2 : Decimal.load (h ++ [x] ++ [x]) ⟨some (h ++ [x]).length⟩ = some x := by
      simp only [Decimal.load]; exact getElem?_append_new _ x
    have l1 : Decimal.load (h ++ [x] ++ [x]) ⟨some h.length⟩ = some x :=
      load_append _ _ _ _ hload
    unfold Decimal.Equal
    rw [Decimal.Cmp_load _ _ _ x x l2 l1, apd.Cmp_self]
    rfl

/-- Witness for C10 at the input `"1.23"`. -/
theorem FromStr_String_roundtrip_witness :
    ∃ txt d2 h2, Decimal.String [⟨apd.Form.Finite, false, -2, 123⟩] ⟨some 0⟩ = some txt ∧
      FromStr [⟨apd.Form.Finite, false, -2, 123⟩] txt = some (d2, h2) ∧
      Decimal.Equal h2 d2 ⟨some 0⟩ = some true :=
  FromStr_String_roundtrip [] "1.23" ⟨some 0⟩ [⟨apd.Form.Finite, false, -2, 123⟩] (by decide)

theorem cmpQ_ge_zero_iff (x y : ℚ) : apd.cmpQ x y ≥ 0 ↔ y ≤ x := by
  unfold apd.cmpQ
  rcases lt_trichotomy x y with h | h | h
  · simp [h, not_le.2 h]
  · simp [h]
  · simp [not_lt.2 (le_of_lt h), ne_of_gt h, le_of_lt h]

theorem value_New_int (i : Int) : (apd.New i 0).value = (i : ℚ) := by
  unfold apd.New apd.Decimal.value
  simp only [zpow_zero, mul_one, Nat.cast_natAbs, Int.cast_abs]
  by_cases hi : i < 0
  · simp only [hi, decide_True, if_true]
    have : (i : ℚ) < 0 := by exact_mod_cast hi
    rw [abs_of_neg this]; ring
  · simp only [hi, decide_False, Bool.false_eq_true, if_false, one_mul]
    have : (0 : ℚ) ≤ (i : ℚ) := by exact_mod_cast not_lt.1 hi
    rw [abs_of_nonneg this]

/-- C19: for a finite Decimal (an uninitialized one counts as zero) and all
integers `min`, `max`, `InRangeInt(min, max)` is true exactly when
`min ≤ value(d) ≤ max`, both bounds included; it returns what
`InRange(FromInt(min), FromInt(max))` returns; and it is false whenever
`min > max`. -/
theorem InRangeInt_inclusive (h : Heap) (d : Decimal) (x : apd.Decimal) (mn mx : Int)
    (hx : d.load h = some x) (hf : x.Form = apd.Form.Finite) :
    Decimal.InRangeInt h d mn mx =
        some (decide ((mn : ℚ) ≤ x.value ∧ x.value ≤ (mx : ℚ))) ∧
      Decimal.InRangeInt h d mn mx =
        Decimal.InRange (FromInt (FromInt h mn).2 mx).2 d (FromInt h mn).1
          (FromInt (FromInt h mn).2 mx).1 ∧
      (mx < mn → Decimal.InRangeInt h d mn mx = some false) := by
  have e0 := InRangeInt_load h d mn mx x hx
  have e1 : Decimal.InRangeInt h d mn mx =
      some (decide ((mn : ℚ) ≤ x.value ∧ x.value ≤ (mx : ℚ))) := by
    rw [e0, apd.Cmp_eq_cmpQ x _ hf rfl, apd.Cmp_eq_cmpQ x _ hf rfl, value_New_int,
      value_New_int]
    congr 1
    rw [Bool.decide_and]
    congr 1
    · exact decide_eq_decide.2 (cmpQ_ge_zero_iff _ _)
    · exact decide_eq_decide.2 (cmpQ_le_zero_iff _ _)
  refine ⟨e1, ?_, ?_⟩
  · have hx1 := load_append h d x (apd.New mn 0) hx
    have hx2 := load_append (h ++ [apd.New mn 0]) d x (apd.New mx 0) hx1
    have ha : (FromInt h mn).1.load (h ++ [apd.New mn 0] ++ [apd.New mx 0]) =
        some (apd.New mn 0) :=
      load_append _ _ _ _ (load_FromInt h mn)
    have hb : (FromInt (FromInt h mn).2 mx).1.load (h ++ [apd.New mn 0] ++ [apd.New mx 0]) =
        some (apd.New mx 0) := load_FromInt (h ++ [apd.New mn 0]) mx
    have e2 := InRange_load (h ++ [apd.New mn 0] ++ [apd.New mx 0]) d (FromInt h mn).1
      (FromInt (FromInt h mn).2 mx).1 x _ _ hx2 ha hb
    rw [e0]
    exact e2.symm
  · intro hlt
    rw [e1]
    congr 1
    rw [decide_eq_false_iff_not]
    rintro ⟨h1, h2⟩
    have : (mn : ℚ) ≤ (mx : ℚ) := le_trans h1 h2
    have : mn ≤ mx := by exact_mod_cast this
    omega

/-- Witness for C19 on the heap holding `5.5`, with the bounds 1 and 10 swapped. -/
theorem InRangeInt_inclusive_witness :
    Decimal.InRangeInt [⟨apd.Form.Finite, false, -1, 55⟩] ⟨some 0⟩ 10 1 = some false :=
  (InRangeInt_inclusive [⟨apd.Form.Finite, false, -1, 55⟩] ⟨some 0⟩
    ⟨apd.Form.Finite, false, -1, 55⟩ 10 1 rfl rfl).2.2 (by decide)

namespace apd

theorem Quo_zero_divisor (p : Nat) (x y : Decimal)
    (fx : x.Form = Form.Finite) (fy : y.Form = Form.Finite) (hy : y.Coeff = 0) :
    Quo p x y = none := by
  have hz : y.IsZero = true := by simp [Decimal.IsZero, Decimal.Sign, fy, hy]
  unfold Quo
  rw [setIfNaN_finite2 x y fx fy]
  simp only [fx, fy, hz]
  by_cases hp : p = 0
  · simp [hp]
  · simp [hp]

theorem Quo_zero_precision (x y : Decimal)
    (fx : x.Form = Form.Finite) (fy : y.Form = Form.Finite) :
    Quo 0 x y = none := by
  unfold Quo
  rw [setIfNaN_finite2 x y fx fy]
  simp [fx, fy]

end apd

/-- C12 counterexample: the claim covers every dividend, but dividing the
Decimal parsed from "NaN" by the uninitialized Decimal, or the one parsed from
"Infinity" by the one parsed from "0.00", does not panic under `Div`: the
calls return Decimals rendering "NaN" and "Infinity". -/
theorem Div_by_zero_special_dividend_returns :
    observe ((FromStr [] "NaN").bind
        (fun a => Decimal.Div a.2 a.1 ⟨none⟩ DivisionPrecision)) = some (some "NaN") ∧
      observe ((FromStr [] "Infinity").bind (fun a => (FromStr a.2 "0.00").bind
        (fun b => Decimal.Div b.2 a.1 b.1 DivisionPrecision))) = some (some "Infinity") := by
  decide

/-- C12 as amended: for every finite dividend (an uninitialized Decimal
counts as zero) and every zero-valued finite divisor, whatever its exponent,
`DivPrecision(b, p)` panics for every precision `p`, and so does `Div`
whatever the value of `DivisionPrecision`. -/
theorem Div_by_zero_panics (h : Heap) (d d2 : Decimal) (x y : apd.Decimal) (p : Nat)
    (hx : d.load h = some x) (hy : d2.load h = some y)
    (fx : x.Form = apd.Form.Finite) (fy : y.Form = apd.Form.Finite) (hz : y.Coeff = 0) :
    Decimal.DivPrecision h d d2 p = none ∧ Decimal.Div h d d2 p = none := by
  have k : Decimal.DivPrecision h d d2 p = none := by
    unfold Decimal.DivPrecision
    apply binop_none _ h d d2 x y hx hy
    rw [apd.Quo_zero_divisor _ x y fx fy hz]
    rfl
  exact ⟨k, k⟩

/-- Witness for C12: `1.5` divided by `0.00` and by the uninitialized Decimal. -/
theorem Div_by_zero_panics_witness :
    Decimal.DivPrecision [⟨apd.Form.Finite, false, -1, 15⟩, ⟨apd.Form.Finite, false, -2, 0⟩]
        ⟨some 0⟩ ⟨some 1⟩ 7 = none ∧
      Decimal.Div [⟨apd.Form.Finite, false, -1, 15⟩, ⟨apd.Form.Finite, false, -2, 0⟩]
        ⟨some 0⟩ ⟨none⟩ 32 = none :=
  ⟨(Div_by_zero_panics [⟨apd.Form.Finite, false, -1, 15⟩, ⟨apd.Form.Finite, false, -2, 0⟩]
      ⟨some 0⟩ ⟨some 1⟩ ⟨apd.Form.Finite, false, -1, 15⟩ ⟨apd.Form.Finite, false, -2, 0⟩ 7
      rfl rfl rfl rfl rfl).1,
    (Div_by_zero_panics [⟨apd.Form.Finite, false, -1, 15⟩, ⟨apd.Form.Finite, false, -2, 0⟩]
      ⟨some 0⟩ ⟨none⟩ ⟨apd.Form.Finite, false, -1, 15⟩ (apd.New 0 0) 32
      rfl rfl rfl rfl rfl).2⟩

/-- C20 counterexample: with precision 0, dividing the Decimal parsed from
"NaN" by 1, or the one parsed from "-Infinity" by 2, does not panic: the NaN
and infinity operands are answered before the precision is looked at. -/
theorem DivPrecision_zero_special_operand_returns :
    observe ((FromStr [] "NaN").bind (fun a =>
        Decimal.DivPrecision (FromInt a.2 1).2 a.1 (FromInt a.2 1).1 0)) = some (some "NaN") ∧
      observe ((FromStr [] "-Infinity").bind (fun a =>
        Decimal.Div (FromInt a.2 2).2 a.1 (FromInt a.2 2).1 0)) = some (some "-Infinity") := by
  decide

/-- C20 as amended: for all finite operands (an uninitialized Decimal counts
as zero; the divisor zero or not), `DivPrecision(b, 0)` panics, and so does
`Div` once `DivisionPrecision` is 0. -/
theorem DivPrecision_zero_panics (h : Heap) (d d2 : Decimal) (x y : apd.Decimal)
    (hx : d.load h = some x) (hy : d2.load h = some y)
    (fx : x.Form = apd.Form.Finite) (fy : y.Form = apd.Form.Finite) :
    Decimal.DivPrecision h d d2 0 = none ∧ Decimal.Div h d d2 0 = none := by
  have k : Decimal.DivPrecision h d d2 0 = none := by
    unfold Decimal.DivPrecision
    apply binop_none _ h d d2 x y hx hy
    rw [show 0 % 4294967296 = 0 from rfl, apd.Quo_zero_precision x y fx fy]
    rfl
  exact ⟨k, k⟩

/-- Witness for C20: `6` divided by `3` with precision 0. -/
theorem DivPrecision_zero_panics_witness :
    Decimal.DivPrecision [⟨apd.Form.Finite, false, 0, 6⟩, ⟨apd.Form.Finite, false, 0, 3⟩]
        ⟨some 0⟩ ⟨some 1⟩ 0 = none :=
  (DivPrecision_zero_panics [⟨apd.Form.Finite, false, 0, 6⟩, ⟨apd.Form.Finite, false, 0, 3⟩]
    ⟨some 0⟩ ⟨some 1⟩ ⟨apd.Form.Finite, false, 0, 6⟩ ⟨apd.Form.Finite, false, 0, 3⟩
    rfl rfl rfl rfl).1

namespace apd

/-- Function `Mul` on finite operands with exponents inside the limits returns
exactly when the exponent sum and the adjusted exponent of the product stay
inside the limits. -/
theorem Mul_isSome_iff (x y : Decimal)
    (fx : x.Form = Form.Finite) (fy : y.Form = Form.Finite)
    (lx : MinExponent ≤ x.Exponent) (ux : x.Exponent ≤ MaxExponent)
    (ly : MinExponent ≤ y.Exponent) (uy : y.Exponent ≤ MaxExponent) :
    (Mul x y).isSome = true ↔
      (MinExponent ≤ x.Exponent + y.Exponent ∧
        x.Exponent + y.Exponent + NumDigits (x.Coeff * y.Coeff) - 1 ≤ MaxExponent) := by
  have hn := NumDigits_ge_one (x.Coeff * y.Coeff)
  unfold Mul
  rw [setIfNaN_finite2 x y fx fy]
  simp only [fx, fy]
  by_cases hc : MinExponent ≤ x.Exponent + y.Exponent ∧
      x.Exponent + y.Exponent + NumDigits (x.Coeff * y.Coeff) - 1 ≤ MaxExponent
  · obtain ⟨c1, c2⟩ := hc
    have e1 := setExponent_pair (x.Coeff * y.Coeff) x.Exponent y.Exponent lx ux ly uy
      (by omega) c2
    have e2 := roundDisabled_ok ⟨Form.Finite, (x.Negative != y.Negative),
      x.Exponent + y.Exponent, x.Coeff * y.Coeff⟩ c1 (by simp only; omega) c2
    rw [if_neg (by simp), e1]
    simp [e2, c1, c2]
  · rw [if_neg (by simp)]
    cases hs : setExponent (x.Coeff * y.Coeff) [x.Exponent, y.Exponent] with
    | none =>
      simp only [Option.isSome_none, Bool.false_eq_true, false_iff]
      exact hc
    | some e =>
      unfold setExponent at hs
      simp only [List.any_cons, List.any_nil, Bool.or_false, List.sum_cons, List.sum_nil,
        add_zero] at hs
      split_ifs at hs with h1 h2
      simp only [Option.some.injEq] at hs
      subst hs
      have c1 : ¬ MinExponent ≤ x.Exponent + y.Exponent := by
        intro c1; apply hc; exact ⟨c1, by omega⟩
      have : roundDisabled ⟨Form.Finite, (x.Negative != y.Negative),
          x.Exponent + y.Exponent, x.Coeff * y.Coeff⟩ = none := by
        unfold roundDisabled setExponent
        simp only [List.any_cons, List.any_nil, Bool.or_false, List.sum_cons, List.sum_nil,
          add_zero]
        have : (x.Exponent + y.Exponent > MaxExponent ∨
            x.Exponent + y.Exponent < MinExponent) := Or.inr (by omega)
        simp [this]
      simp only [this, Option.isSome_none, Bool.false_eq_true, false_iff]
      exact hc

end apd

theorem binop_isSome (f : apd.Decimal → apd.Decimal → Option apd.Decimal)
    (h : Heap) (d d2 : Decimal) (x y : apd.Decimal)
    (hx : d.load h = some x) (hy : d2.load h = some y) :
    (binop f h d d2).isSome = (f x y).isSome := by
  cases hr : f x y with
  | none => rw [binop_none f h d d2 x y hx hy hr]; rfl
  | some r =>
    obtain ⟨res, h1, e1, _, _⟩ := binop_load f h d d2 x y r hx hy hr
    rw [e1]; rfl

/-- C16 counterexample: both operands come from `FromStr`, yet `Mul` panics:
`1E+100000` times `10` overflows the exponent limit, `1E-100000` times `0.1`
underflows it, and `Infinity` times the uninitialized Decimal is an invalid
operation. -/
theorem Mul_FromStr_operands_panics :
    (FromStr [] "1E+100000").bind (fun a => (FromStr a.2 "10").bind
        (fun b => Decimal.Mul b.2 a.1 b.1)) = none ∧
      (FromStr [] "1E-100000").bind (fun a => (FromStr a.2 "0.1").bind
        (fun b => Decimal.Mul b.2 a.1 b.1)) = none ∧
      (FromStr [] "Infinity").bind (fun a => Decimal.Mul a.2 a.1 ⟨none⟩) = none ∧
      ((FromStr [] "1E+100000").isSome ∧ (FromStr [] "1E-100000").isSome ∧
        (FromStr [] "Infinity").isSome) := by
  decide

/-- C16 as amended: for finite operands as `FromStr`, `FromInt` or the zero
value give them (exponent within ±100000), `Mul` returns a result exactly
when the sum of the exponents is at least -100000 and the adjusted exponent of
the product (exponent sum plus digit count of the coefficient product minus 1)
is at most 100000; otherwise it panics. -/
theorem Mul_returns_iff (h : Heap) (d d2 : Decimal) (x y : apd.Decimal)
    (hx : d.load h = some x) (hy : d2.load h = some y)
    (fx : x.Form = apd.Form.Finite) (fy : y.Form = apd.Form.Finite)
    (lx : apd.MinExponent ≤ x.Exponent) (ux : x.Exponent ≤ apd.MaxExponent)
    (ly : apd.MinExponent ≤ y.Exponent) (uy : y.Exponent ≤ apd.MaxExponent) :
    (Decimal.Mul h d d2).isSome = true ↔
      (apd.MinExponent ≤ x.Exponent + y.Exponent ∧
        x.Exponent + y.Exponent + apd.NumDigits (x.Coeff * y.Coeff) - 1 ≤ apd.MaxExponent) := by
  unfold Decimal.Mul
  rw [binop_isSome apd.Mul h d d2 x y hx hy]
  exact apd.Mul_isSome_iff x y fx fy lx ux ly uy

/-- Witness for C16: `2E+50000` times `5E+49999` (adjusted exponent 100000)
is returned. -/
theorem Mul_returns_iff_witness :
    (Decimal.Mul [⟨apd.Form.Finite, false, 50000, 2⟩, ⟨apd.Form.Finite, false, 49999, 5⟩]
      ⟨some 0⟩ ⟨some 1⟩).isSome = true :=
  (Mul_returns_iff [⟨apd.Form.Finite, false, 50000, 2⟩, ⟨apd.Form.Finite, false, 49999, 5⟩]
    ⟨some 0⟩ ⟨some 1⟩ ⟨apd.Form.Finite, false, 50000, 2⟩ ⟨apd.Form.Finite, false, 49999, 5⟩
    rfl rfl rfl rfl (by decide) (by decide) (by decide) (by decide)).2
    ⟨by decide, by decide⟩

theorem cmpQ_eq_neg_one_iff (x y : ℚ) : apd.cmpQ x y = -1 ↔ x < y := by
  unfold apd.cmpQ
  rcases lt_trichotomy x y with h | h | h
  · simp [h]
  · simp [h]
  · simp [not_lt.2 (le_of_lt h), ne_of_gt h]

theorem value_neg_iff (x : apd.Decimal) :
    x.value < 0 ↔ (x.Negative = true ∧ x.Coeff ≠ 0) := by
  obtain ⟨f, neg, e, c⟩ := x
  have hp := apd.ten_zpow_pos e
  unfold apd.Decimal.value
  simp only
  rcases Nat.eq_zero_or_pos c with hc | hc
  · subst hc; simp
  · have hc' : (0 : ℚ) < (c : ℚ) := by exact_mod_cast hc
    cases neg with
    | false =>
      simp only [Bool.false_eq_true, if_false, one_mul, false_and, iff_false, not_lt]
      positivity
    | true =>
      simp only [if_true, true_and]
      constructor
      · intro _; omega
      · intro _
        have : (0 : ℚ) < (c : ℚ) * (10 : ℚ) ^ e := mul_pos hc' hp
        linarith

/-- C13: `Round` returns on no finite operand.  For every finite Decimal (an
uninitialized one counts as zero) and every `n`, `Round(n)` panics: the
quantization runs under `BaseContext`, whose precision of 0 digits no result
fits. -/
theorem Round_panics_on_every_finite_operand (h : Heap) (d : Decimal) (x : apd.Decimal)
    (n : Nat) (hx : d.load h = some x) (fx : x.Form = apd.Form.Finite) :
    Decimal.Round h d n = none :=
  Round_none h d n x hx (Or.inl fx)

/-- Witness for C13: `1.5` rounded to 3 digits, where zeros would be appended,
and the uninitialized Decimal rounded to 0 digits. -/
theorem Round_panics_on_every_finite_operand_witness :
    Decimal.Round [⟨apd.Form.Finite, false, -1, 15⟩] ⟨some 0⟩ 3 = none ∧
      Decimal.Round [] ⟨none⟩ 0 = none :=
  ⟨Round_panics_on_every_finite_operand [⟨apd.Form.Finite, false, -1, 15⟩] ⟨some 0⟩
      ⟨apd.Form.Finite, false, -1, 15⟩ 3 rfl rfl,
    Round_panics_on_every_finite_operand [] ⟨none⟩ (apd.New 0 0) 0 rfl rfl⟩

/-- C14: where the claim and the tests expect the rendering of the operand,
`Round` returns nothing.  `MustFromStr("1")` renders "1" and
`MustFromStr("1.23456789")` renders "1.23456789", but `Round(10)` of the
first and `Round(8)` and `Round(9)` of the second panic. -/
theorem Round_panics_where_no_digit_is_dropped :
    ((FromStr [] "1").bind (fun a => Decimal.String a.2 a.1) = some "1" ∧
        (FromStr [] "1").bind (fun a => Decimal.Round a.2 a.1 10) = none) ∧
      ((FromStr [] "1.23456789").bind (fun a => Decimal.String a.2 a.1) = some "1.23456789" ∧
        (FromStr [] "1.23456789").bind (fun a => Decimal.Round a.2 a.1 8) = none ∧
        (FromStr [] "1.23456789").bind (fun a => Decimal.Round a.2 a.1 9) = none) := by
  decide

/-- C15 counterexample: the sign flag and the comparison with zero disagree on
negative zero.  For the Decimal parsed from "-0", and for `MustFromStr("-1")`
times `FromInt(0)`, `IsNegative` returns true while `Less(FromInt(0))` returns
false. -/
theorem IsNegative_true_on_negative_zero :
    (((FromStr [] "-0").bind (fun a => Decimal.IsNegative a.2 a.1)).map (fun r => r.1) =
          some true ∧
        (FromStr [] "-0").bind (fun a =>
          Decimal.Less (FromInt a.2 0).2 a.1 (FromInt a.2 0).1) = some false) ∧
      ((((FromStr [] "-1").bind (fun a =>
            Decimal.Mul (FromInt a.2 0).2 a.1 (FromInt a.2 0).1)).bind
          (fun p => Decimal.IsNegative p.2 p.1)).map (fun r => r.1) = some true ∧
        ((FromStr [] "-1").bind (fun a =>
            Decimal.Mul (FromInt a.2 0).2 a.1 (FromInt a.2 0).1)).bind
          (fun p => Decimal.Less (FromInt p.2 0).2 p.1 (FromInt p.2 0).1) = some false) := by
  decide

/-- C15 as amended: `IsNegative` returns the stored sign flag.  For every
finite Decimal (an uninitialized one counts as zero) it is true exactly when
the sign is set, `Less(FromInt(0))` is true exactly when the value is below
zero, and the two agree on every Decimal except negative zero (sign set,
coefficient 0). -/
theorem IsNegative_is_sign_flag (h : Heap) (d : Decimal) (x : apd.Decimal)
    (hx : d.load h = some x) (fx : x.Form = apd.Form.Finite) :
    (Decimal.IsNegative h d).map (fun r => r.1) = some x.Negative ∧
      Decimal.Less (FromInt h 0).2 d (FromInt h 0).1 = some (decide (x.value < 0)) ∧
      ((Decimal.IsNegative h d).map (fun r => r.1) =
          Decimal.Less (FromInt h 0).2 d (FromInt h 0).1 ↔
        ¬ (x.Negative = true ∧ x.Coeff = 0)) := by
  have e1 : (Decimal.IsNegative h d).map (fun r => r.1) = some x.Negative := by
    rw [IsNegative_load, hx]; rfl
  have e2 : Decimal.Less (FromInt h 0).2 d (FromInt h 0).1 = some (decide (x.value < 0)) := by
    have l1 : d.load (FromInt h 0).2 = some x := load_append h d x (apd.New 0 0) hx
    unfold Decimal.Less
    rw [Decimal.Cmp_load _ _ _ x (apd.New 0 0) l1 (load_FromInt h 0),
      apd.Cmp_eq_cmpQ x _ fx rfl, value_New_int]
    simp only [Option.map_some', Int.cast_zero]
    congr 1
    exact decide_eq_decide.2 (cmpQ_eq_neg_one_iff _ _)
  refine ⟨e1, e2, ?_⟩
  rw [e1, e2, Option.some.injEq]
  have hv := value_neg_iff x
  cases hn : x.Negative with
  | false =>
    simp only [hn, Bool.false_eq_true, false_and, iff_false] at hv
    simp [hv]
  | true =>
    simp only [hn, true_and] at hv
    by_cases hc : x.Coeff = 0
    · simp [hv, hc]
    · simp [hv, hc]

/-- Witness for C15: on `-5` both answers are true; on negative zero the sign
flag is set. -/
theorem IsNegative_is_sign_flag_witness :
    (Decimal.IsNegative [⟨apd.Form.Finite, true, 0, 5⟩] ⟨some 0⟩).map (fun r => r.1) =
        Decimal.Less (FromInt [⟨apd.Form.Finite, true, 0, 5⟩] 0).2 ⟨some 0⟩
          (FromInt [⟨apd.Form.Finite, true, 0, 5⟩] 0).1 ∧
      (Decimal.IsNegative [⟨apd.Form.Finite, true, 0, 0⟩] ⟨some 0⟩).map (fun r => r.1) =
        some true :=
  ⟨(IsNegative_is_sign_flag [⟨apd.Form.Finite, true, 0, 5⟩] ⟨some 0⟩
      ⟨apd.Form.Finite, true, 0, 5⟩ rfl rfl).2.2.2 (by decide),
    (IsNegative_is_sign_flag [⟨apd.Form.Finite, true, 0, 0⟩] ⟨some 0⟩
      ⟨apd.Form.Finite, true, 0, 0⟩ rfl rfl).1⟩

/-- C18: a copy shares the cell its original points to, and `UnmarshalText` and
`Scan` write into that cell.  With `a` parsed from "1.23" and `b := a`, after
`b.UnmarshalText("4.56")`, after `b.Scan("4.56")` and after `b.Scan(int64(-7))`
the original `a` renders "4.56", "4.56" and "-7" instead of "1.23". -/
theorem UnmarshalText_Scan_write_through_copy :
    (FromStr [] "1.23").bind (fun a => Decimal.String a.2 a.1) = some "1.23" ∧
      (FromStr [] "1.23").bind (fun a => (Decimal.UnmarshalText a.2 a.1 "4.56").bind
        (fun b => Decimal.String b.2 a.1)) = some "4.56" ∧
      (FromStr [] "1.23").bind (fun a => (Decimal.Scan a.2 a.1 (ScanSrc.string "4.56")).bind
        (fun b => Decimal.String b.2 a.1)) = some "4.56" ∧
      (FromStr [] "1.23").bind (fun a => (Decimal.Scan a.2 a.1 (ScanSrc.int64 (-7))).bind
        (fun b => Decimal.String b.2 a.1)) = some "-7" := by
  decide

/-- C17 counterexample: `FromFloat64` returns no error for NaN, +Infinity and
-Infinity: their `strconv` texts "NaN", "+Inf" and "-Inf" parse, and the
returned Decimals render "NaN", "Infinity" and "-Infinity". -/
theorem FromFloat64_NaN_Inf_no_error :
    observe (FromFloat64 [] Float64.NaN) = some (some "NaN") ∧
      observe (FromFloat64 [] (Float64.Inf false)) = some (some "Infinity") ∧
      observe (FromFloat64 [] (Float64.Inf true)) = some (some "-Infinity") := by
  decide

namespace apd

theorem digits_lt_ten (n : Nat) (hn : n < 10) : digits n = [digitChar n] := by
  interval_cases n <;> rfl

theorem parseDigits_expDigits (n : Nat) : parseDigits (strconv.expDigits n) = some n := by
  unfold strconv.expDigits
  by_cases hn : n < 10
  · rw [if_pos hn]
    have h1 : ['0', digitChar n] = ['0'] ++ digits n := by rw [digits_lt_ten n hn]; rfl
    rw [h1, parseDigits_digits_tail ['0'] n 0 rfl]
    simp
  · rw [if_neg hn, parseDigits_digits]

theorem map_lower_expDigits (n : Nat) :
    (strconv.expDigits n).map toLower = strconv.expDigits n := by
  unfold strconv.expDigits
  by_cases hn : n < 10
  · rw [if_pos hn]
    have h1 : ['0', digitChar n] = ['0'] ++ digits n := by rw [digits_lt_ten n hn]; rfl
    rw [h1, List.map_append, map_lower_digits]
    rfl
  · rw [if_neg hn, map_lower_digits]

theorem parseInt32_expDigits (e : Int) (h1 : -2147483648 ≤ e) (h2 : e ≤ 2147483647) :
    parseInt32 ((if e < 0 then '-' else '+') :: strconv.expDigits e.natAbs) = some e := by
  by_cases hn : e < 0
  · rw [if_pos hn]
    simp only [parseInt32, parseDigits_expDigits]
    rw [if_pos (by omega)]
    congr 1; omega
  · rw [if_neg hn]
    simp only [parseInt32, parseDigits_expDigits]
    rw [if_pos (by omega)]
    congr 1; omega

end apd

namespace apd

/-- Parsing the `'E'` formatting of a finite `float64` gives its digits as
coefficient, exactly. -/
theorem setString_FormatFloatE (neg : Bool) (m : Nat) (e : Int)
    (h1 : MinExponent ≤ e - ((NumDigits m : Int) - 1)) (h2 : MinExponent ≤ e)
    (h3 : e ≤ MaxExponent) (h4 : (NumDigits m : Int) - 1 ≤ MaxExponent) :
    setString (strconv.FormatFloatE (Float64.Finite neg m e)) =
      some ⟨Form.Finite, neg, e - ((NumDigits m : Int) - 1), m⟩ := by
  obtain ⟨ch, hch, hd⟩ := digits_head m
  have hL : (digits m).length = NumDigits m := rfl
  have hLpos := NumDigits_ge_one m
  simp only [MinExponent, MaxExponent] at h1 h2 h3 h4
  have hexp := parseInt32_expDigits e (by omega) (by omega)
  have hmapExp : ((if e < 0 then ['-'] else ['+']) ++ strconv.expDigits e.natAbs).map
      toLower = (if e < 0 then '-' else '+') :: strconv.expDigits e.natAbs := by
    rw [List.map_append, map_lower_expDigits]
    by_cases hn : e < 0
    · simp only [hn, if_true]; rfl
    · simp only [hn, if_false]; rfl
  unfold strconv.FormatFloatE
  simp only [hL]
  by_cases hlen : NumDigits m > 1
  · simp only [hlen, if_true]
    have hmant : (List.take 1 (digits m) ++ ['.'] ++ List.drop 1 (digits m)).map toLower =
        List.take 1 (digits m) ++ '.' :: List.drop 1 (digits m) := by
      rw [List.map_append, List.map_append,
        map_lower_sublist_digits m _ (fun x hx => List.mem_of_mem_take hx),
        map_lower_sublist_digits m _ (fun x hx => List.mem_of_mem_drop hx)]
      simp
      rfl
    have hmap : (List.take 1 (digits m) ++ ['.'] ++ List.drop 1 (digits m) ++ ['E'] ++
        (if e < 0 then ['-'] else ['+']) ++ strconv.expDigits e.natAbs).map toLower =
        (List.take 1 (digits m) ++ '.' :: List.drop 1 (digits m)) ++ 'e' ::
          ((if e < 0 then '-' else '+') :: strconv.expDigits e.natAbs) := by
      rw [List.append_assoc _ _ (strconv.expDigits _), List.map_append, hmapExp,
        List.map_append, hmant]
      simp [toLower_E]
    have hhead : ((List.take 1 (digits m) ++ '.' :: List.drop 1 (digits m)) ++ 'e' ::
          ((if e < 0 then '-' else '+') :: strconv.expDigits e.natAbs)).head? = some ch := by
      obtain ⟨x, rest, ex, _⟩ := digits_cons m
      rw [ex] at hch
      simp only [List.head?_cons, Option.some.injEq] at hch
      rw [ex]
      simp [hch]
    rw [setString_sign_head neg _ _ ch hmap hhead hd]
    rw [parseFinite_e neg _ _ _ ?_ hexp, parseMantissa_point]
    · simp only [List.cons_append, List.nil_append]
      rw [setExponent_pair m e (-((NumDigits m - 1 : Nat) : Int))
        (by simp only [MinExponent]; omega) (by simp only [MaxExponent]; omega)
        (by simp only [MinExponent]; omega) (by simp only [MaxExponent]; omega)
        (by simp only [MinExponent]; omega) (by simp only [MaxExponent]; omega)]
      simp only [Option.map_some', Option.some.injEq, Decimal.mk.injEq, true_and, and_true]
      omega
    · intro x hx
      simp only [List.mem_cons, List.mem_append] at hx
      rcases hx with hx | hx | hx
      · exact digits_no m 'e' (by decide) x (List.mem_of_mem_take hx)
      · subst hx; decide
      · exact digits_no m 'e' (by decide) x (List.mem_of_mem_drop hx)
  · simp only [hlen, if_false]
    have hone : NumDigits m = 1 := by omega
    have htake : List.take 1 (digits m) = digits m := by
      apply List.take_of_length_le
      rw [hL, hone]
    rw [htake]
    have hmap : (digits m ++ ['E'] ++ (if e < 0 then ['-'] else ['+']) ++
        strconv.expDigits e.natAbs).map toLower =
        digits m ++ 'e' :: ((if e < 0 then '-' else '+') :: strconv.expDigits e.natAbs) := by
      rw [List.append_assoc _ _ (strconv.expDigits _), List.map_append, hmapExp,
        List.map_append, map_lower_digits]
      simp [toLower_E]
    have hhead : (digits m ++ 'e' ::
        ((if e < 0 then '-' else '+') :: strconv.expDigits e.natAbs)).head? = some ch := by
      obtain ⟨x, rest, ex, _⟩ := digits_cons m
      rw [ex] at hch
      simp only [List.head?_cons, Option.some.injEq] at hch
      rw [ex]
      simp [hch]
    rw [setString_sign_head neg _ _ ch hmap hhead hd]
    rw [parseFinite_e neg _ _ _ (digits_no m 'e' (by decide)) hexp, parseMantissa_plain]
    rw [setExponent_single m e (by simp only [MinExponent]; omega)
      (by simp only [MaxExponent]; omega) (by simp only [MaxExponent]; omega)]
    simp only [Option.map_some', Option.some.injEq, Decimal.mk.injEq, true_and, and_true]
    omega

end apd

/-- C17 as amended: `FromFloat64` returns no error for any `float64`.  NaN
gives the Decimal NaN, an infinity the Decimal infinity of the same sign, and
every finite `float64` (at most 17 shortest digits, decimal exponent between
-324 and 308) a finite Decimal: its coefficient is the digits of the shortest
decimal text of the float and its value is that text's value. -/
theorem FromFloat64_returns (h : Heap) (f : Float64)
    (hf : ∀ neg m e, f = Float64.Finite neg m e →
      apd.NumDigits m ≤ 17 ∧ -324 ≤ e ∧ e ≤ 308) :
    ∃ d h' x, FromFloat64 h f = some (d, h') ∧ d.load h' = some x ∧
      match f with
      | Float64.NaN => x.Form = apd.Form.NaN
      | Float64.Inf neg => x.Form = apd.Form.Infinite ∧ x.Negative = neg
      | Float64.Finite neg m e =>
        x = ⟨apd.Form.Finite, neg, e - ((apd.NumDigits m : Int) - 1), m⟩ := by
  have key : ∀ y, apd.SetFloat64 f = some y →
      ∃ d h' x, FromFloat64 h f = some (d, h') ∧ d.load h' = some x ∧ x = y := by
    intro y hy
    refine ⟨⟨some h.length⟩, h ++ [y], y, ?_, ?_, rfl⟩
    · unfold FromFloat64; rw [hy]; rfl
    · simp only [Decimal.load]; exact getElem?_append_new h y
  cases f with
  | NaN =>
    obtain ⟨d, h', x, e1, e2, e3⟩ := key ⟨apd.Form.NaN, false, 0, 0⟩ (by decide)
    exact ⟨d, h', x, e1, e2, by rw [e3]⟩
  | Inf neg =>
    obtain ⟨d, h', x, e1, e2, e3⟩ := key ⟨apd.Form.Infinite, neg, 0, 0⟩
      (by cases neg <;> decide)
    exact ⟨d, h', x, e1, e2, by rw [e3]; exact ⟨rfl, rfl⟩⟩
  | Finite neg m e =>
    obtain ⟨b1, b2, b3⟩ := hf neg m e rfl
    have hn := apd.NumDigits_ge_one m
    have hs := apd.setString_FormatFloatE neg m e
      (by simp only [apd.MinExponent]; omega) (by simp only [apd.MinExponent]; omega)
      (by simp only [apd.MaxExponent]; omega) (by simp only [apd.MaxExponent]; omega)
    have hr := apd.roundDisabled_ok
      ⟨apd.Form.Finite, neg, e - ((apd.NumDigits m : Int) - 1), m⟩
      (by simp only [apd.MinExponent]; omega) (by simp only [apd.MaxExponent]; omega)
      (by simp only [apd.MaxExponent]; omega)
    obtain ⟨d, h', x, e1, e2, e3⟩ :=
      key ⟨apd.Form.Finite, neg, e - ((apd.NumDigits m : Int) - 1), m⟩
        (by unfold apd.SetFloat64 apd.NewFromString; rw [hs]; exact hr)
    exact ⟨d, h', x, e1, e2, e3⟩

/-- Witness for C17: the `float64` 1.23 (shortest digits 123, exponent 0)
becomes the Decimal `123E-2`. -/
theorem FromFloat64_returns_witness :
    ∃ d h' x, FromFloat64 [] (Float64.Finite false 123 0) = some (d, h') ∧
      d.load h' = some x ∧
      x = ⟨apd.Form.Finite, false, 0 - ((apd.NumDigits 123 : Int) - 1), 123⟩ :=
  FromFloat64_returns [] (Float64.Finite false 123 0)
    (fun neg m e hfe => by
      cases hfe
      exact ⟨by decide, by decide, by decide⟩)

namespace apd

theorem parseDigitsAux_inv : ∀ (l : List Char) (acc n : Nat),
    parseDigitsAux l acc = some n → l.all isDigit = true
  | [], _, _, _ => rfl
  | c :: cs, acc, n, h => by
    simp only [parseDigitsAux] at h
    cases hd : digitVal c with
    | none => rw [hd] at h; simp at h
    | some d =>
      rw [hd] at h
      simp only at h
      have ih := parseDigitsAux_inv cs _ n h
      have hc : isDigit c = true := by
        unfold digitVal at hd
        unfold isDigit
        split_ifs at hd with hh
        simp [hh]
      simp [List.all_cons, hc, ih]

theorem parseDigits_inv (l : List Char) (n : Nat) (h : parseDigits l = some n) :
    l.isEmpty = false ∧ l.all isDigit = true := by
  unfold parseDigits at h
  split_ifs at h with h0
  refine ⟨?_, parseDigitsAux_inv l 0 n h⟩
  cases l with
  | nil => exact absurd rfl h0
  | cons a t => rfl

theorem parseInt32_inv (l : List Char) (v : Int) (h : parseInt32 l = some v) :
    signedDigits l = true := by
  unfold parseInt32 at h
  split at h
  · rename_i t
    cases hp : parseDigits t with
    | none => rw [hp] at h; simp at h
    | some n =>
      obtain ⟨h1, h2⟩ := parseDigits_inv t n hp
      simp [signedDigits, h1, h2]
  · rename_i t
    cases hp : parseDigits t with
    | none => rw [hp] at h; simp at h
    | some n =>
      obtain ⟨h1, h2⟩ := parseDigits_inv t n hp
      simp [signedDigits, h1, h2]
  · rename_i hm hp'
    cases hp : parseDigits l with
    | none => rw [hp] at h; simp at h
    | some n =>
      obtain ⟨h1, h2⟩ := parseDigits_inv l n hp
      unfold signedDigits
      split
      · exact absurd rfl (hp' _)
      · exact absurd rfl (hm _)
      · simp [h1, h2]

theorem parseCoeff_inv (l : List Char) (n : Nat) (h : parseCoeff l = some n) :
    l.isEmpty = false ∧ l.all isDigit = true :=
  parseDigits_inv l n h

theorem splitFirst_some (c : Char) : ∀ (l a b : List Char),
    splitFirst c l = some (a, b) → l = a ++ c :: b ∧ c ∉ a
  | [], _, _, h => by simp [splitFirst] at h
  | x :: xs, a, b, h => by
    simp only [splitFirst] at h
    split_ifs at h with hx
    · simp only [Option.some.injEq, Prod.mk.injEq] at h
      obtain ⟨h1, h2⟩ := h
      subst h1; subst h2; subst hx
      exact ⟨rfl, by simp⟩
    · cases hs : splitFirst c xs with
      | none => rw [hs] at h; simp at h
      | some p =>
        obtain ⟨a', b'⟩ := p
        rw [hs] at h
        simp only [Option.some.injEq, Prod.mk.injEq] at h
        obtain ⟨h1, h2⟩ := h
        subst h1; subst h2
        obtain ⟨e1, e2⟩ := splitFirst_some c xs a' b' hs
        refine ⟨by rw [e1]; rfl, ?_⟩
        simp only [List.mem_cons, not_or]
        exact ⟨fun hc => hx hc.symm, e2⟩

theorem splitFirst_none_inv (c : Char) : ∀ (l : List Char), splitFirst c l = none → c ∉ l
  | [], _ => by simp
  | x :: xs, h => by
    simp only [splitFirst] at h
    split_ifs at h with hx
    cases hs : splitFirst c xs with
    | none =>
      have := splitFirst_none_inv c xs hs
      simp only [List.mem_cons, not_or]
      exact ⟨fun hc => hx hc.symm, this⟩
    | some p => rw [hs] at h; simp at h

theorem signedDigits_mem (l : List Char) (h : signedDigits l = true) :
    (∀ ch ∈ l, isDigit ch = true ∨ ch = '+' ∨ ch = '-') ∧ (∃ ch ∈ l, isDigit ch = true) := by
  have key : ∀ t : List Char, t.isEmpty = false → t.all isDigit = true →
      (∀ ch ∈ t, isDigit ch = true) ∧ (∃ ch ∈ t, isDigit ch = true) := by
    intro t h1 h2
    rw [List.all_eq_true] at h2
    refine ⟨h2, ?_⟩
    cases t with
    | nil => simp at h1
    | cons a t' => exact ⟨a, by simp, h2 a (by simp)⟩
  unfold signedDigits at h
  split at h
  · rename_i t
    simp only [Bool.and_eq_true, Bool.not_eq_true'] at h
    obtain ⟨k1, k2⟩ := key t h.1 h.2
    refine ⟨?_, ?_⟩
    · intro ch hch
      rcases List.mem_cons.1 hch with e | e
      · right; left; exact e
      · left; exact k1 ch e
    · obtain ⟨ch, hc1, hc2⟩ := k2
      exact ⟨ch, List.mem_cons_of_mem _ hc1, hc2⟩
  · rename_i t
    simp only [Bool.and_eq_true, Bool.not_eq_true'] at h
    obtain ⟨k1, k2⟩ := key t h.1 h.2
    refine ⟨?_, ?_⟩
    · intro ch hch
      rcases List.mem_cons.1 hch with e | e
      · right; right; exact e
      · left; exact k1 ch e
    · obtain ⟨ch, hc1, hc2⟩ := k2
      exact ⟨ch, List.mem_cons_of_mem _ hc1, hc2⟩
  · simp only [Bool.and_eq_true, Bool.not_eq_true'] at h
    obtain ⟨k1, k2⟩ := key l h.1 h.2
    exact ⟨fun ch hch => Or.inl (k1 ch hch), k2⟩

end apd

namespace apd

theorem mantissaText_mem (m : List Char) (h : mantissaText m = true) :
    ∀ ch ∈ m, isDigit ch = true ∨ ch = '.' := by
  unfold mantissaText at h
  simp only [Bool.and_eq_true] at h
  intro ch hch
  have := (List.all_eq_true.1 h.1.1) ch hch
  simpa using this

theorem parseMantissa_inv (neg : Bool) (m : List Char) (exps : List Int) (y : Decimal)
    (h : parseMantissa neg m exps = some y) : mantissaText m = true := by
  have nodot : ∀ l : List Char, l.all isDigit = true → '.' ∉ l := by
    intro l hl hmem
    exact absurd ((List.all_eq_true.1 hl) '.' hmem) (by decide)
  unfold parseMantissa at h
  cases hs : splitFirst '.' m with
  | none =>
    rw [hs] at h
    simp only at h
    cases hc : parseCoeff m with
    | none => rw [hc] at h; simp at h
    | some c =>
      obtain ⟨k1, k2⟩ := parseCoeff_inv m c hc
      have a1 : m.all (fun c => isDigit c || c == '.') = true := by
        rw [List.all_eq_true] at k2 ⊢
        intro x hx
        rw [k2 x hx]; rfl
      have a2 : m.any isDigit = true := by
        cases m with
        | nil => simp at k1
        | cons a t =>
          rw [List.all_eq_true] at k2
          rw [List.any_cons, k2 a (List.mem_cons_self _ _)]; rfl
      unfold mantissaText
      rw [a1, a2, List.count_eq_zero_of_not_mem (nodot m k2)]
      rfl
  | some p =>
    obtain ⟨a, b⟩ := p
    rw [hs] at h
    simp only at h
    cases hc : parseCoeff (a ++ b) with
    | none => rw [hc] at h; simp at h
    | some c =>
      obtain ⟨e1, _⟩ := splitFirst_some '.' m a b hs
      obtain ⟨k1, k2⟩ := parseCoeff_inv (a ++ b) c hc
      have kd := List.all_eq_true.1 k2
      have na : '.' ∉ a := fun hm => nodot _ k2 (List.mem_append_left _ hm)
      have nb : '.' ∉ b := fun hm => nodot _ k2 (List.mem_append_right _ hm)
      subst e1
      have a1 : (a ++ '.' :: b).all (fun c => isDigit c || c == '.') = true := by
        rw [List.all_eq_true]
        intro x hx
        rcases List.mem_append.1 hx with k | k
        · rw [kd x (List.mem_append_left _ k)]; rfl
        · rcases List.mem_cons.1 k with k | k
          · subst k; decide
          · rw [kd x (List.mem_append_right _ k)]; rfl
      have a2 : (a ++ '.' :: b).any isDigit = true := by
        rw [List.any_eq_true]
        cases hab : a ++ b with
        | nil => rw [hab] at k1; simp at k1
        | cons x t =>
          have hx : x ∈ a ++ b := by rw [hab]; exact List.mem_cons_self _ _
          refine ⟨x, ?_, kd x hx⟩
          rcases List.mem_append.1 hx with k | k
          · exact List.mem_append_left _ k
          · exact List.mem_append_right _ (List.mem_cons_of_mem _ k)
      have a3 : (a ++ '.' :: b).count '.' = 1 := by
        rw [List.count_append, List.count_cons_self, List.count_eq_zero_of_not_mem na,
          List.count_eq_zero_of_not_mem nb]
      unfold mantissaText
      rw [a1, a2, a3]
      rfl

/-- What the finite branch accepts: a mantissa of digits around at most one
point, and after a first `e` a signed integer. -/
theorem parseFinite_inv (neg : Bool) (s : List Char) (y : Decimal)
    (h : parseFinite neg s = some y) :
    (match splitFirst 'e' s with
      | none => mantissaText s
      | some (m, ex) => mantissaText m && signedDigits ex) = true ∧
      (∀ ch ∈ s, isDigit ch = true ∨ ch = '+' ∨ ch = '-' ∨ ch = '.' ∨ ch = 'e') := by
  unfold parseFinite at h
  cases hs : splitFirst 'e' s with
  | none =>
    rw [hs] at h
    simp only at h
    have hm := parseMantissa_inv neg s [] y h
    refine ⟨hm, fun ch hch => ?_⟩
    rcases mantissaText_mem s hm ch hch with e | e
    · exact Or.inl e
    · exact Or.inr (Or.inr (Or.inr (Or.inl e)))
  | some p =>
    obtain ⟨m, ex⟩ := p
    rw [hs] at h
    simp only at h
    cases hv : parseInt32 ex with
    | none => rw [hv] at h; simp at h
    | some v =>
      rw [hv] at h
      simp only at h
      have hm := parseMantissa_inv neg m [v] y h
      have sx := parseInt32_inv ex v hv
      obtain ⟨e1, _⟩ := splitFirst_some 'e' s m ex hs
      refine ⟨by simp only [hm, sx]; rfl, fun ch hch => ?_⟩
      rw [e1] at hch
      rcases List.mem_append.1 hch with k | k
      · rcases mantissaText_mem m hm ch k with e | e
        · exact Or.inl e
        · exact Or.inr (Or.inr (Or.inr (Or.inl e)))
      · rcases List.mem_cons.1 k with k | k
        · exact Or.inr (Or.inr (Or.inr (Or.inr k)))
        · rcases (signedDigits_mem ex sx).1 ch k with e | e | e
          · exact Or.inl e
          · exact Or.inr (Or.inl e)
          · exact Or.inr (Or.inr (Or.inl e))

end apd

namespace apd

/-- Case folding does not produce a character of a number out of anything but
that character, or `e` out of `E`. -/
theorem toLower_fold (ch : Char)
    (h : isDigit (toLower ch) = true ∨ toLower ch = '+' ∨ toLower ch = '-' ∨
      toLower ch = '.' ∨ toLower ch = 'e') :
    toLower ch = (if ch = 'E' then 'e' else ch) := by
  have hc : ch = Char.ofNat ch.toNat := (Char.ofNat_toNat ch).symm
  by_cases hu : 65 ≤ ch.toNat ∧ ch.toNat ≤ 90
  · obtain ⟨n, hn⟩ : ∃ n, ch.toNat = n := ⟨_, rfl⟩
    rw [hn] at hc hu
    obtain ⟨h1, h2⟩ := hu
    subst hc
    revert h
    interval_cases n <;> decide
  · by_cases h304 : ch.toNat = 304
    · rw [h304] at hc
      subst hc
      revert h
      decide
    · by_cases h8490 : ch.toNat = 8490
      · rw [h8490] at hc
        subst hc
        revert h
        decide
      · have hE : ch ≠ 'E' := by
          intro e
          apply hu
          rw [e]
          decide
        unfold toLower
        rw [if_neg hu, if_neg h304, if_neg h8490, if_neg hE]

theorem map_toLower_fold (l0 : List Char)
    (h : ∀ ch ∈ l0.map toLower,
      isDigit ch = true ∨ ch = '+' ∨ ch = '-' ∨ ch = '.' ∨ ch = 'e') :
    l0.map toLower = l0.map (fun c => if c = 'E' then 'e' else c) := by
  apply List.map_congr_left
  intro c hc
  exact toLower_fold c (h _ (List.mem_map_of_mem _ hc))

theorem stripSign_of_head (t : List Char)
    (h : ¬ (t.head? = some '-' ∨ t.head? = some '+')) : stripSign t = t := by
  cases t with
  | nil => rfl
  | cons c r =>
    simp only [List.head?_cons, Option.some.injEq, not_or] at h
    unfold stripSign
    split
    · rename_i heq; simp only [List.cons.injEq] at heq; exact absurd heq.1 h.2
    · rename_i heq; simp only [List.cons.injEq] at heq; exact absurd heq.1 h.1
    · rfl

theorem isPrefixOf_eq_append (w s : List Char) (h : w.isPrefixOf s = true) :
    w ++ s.drop w.length = s :=
  List.prefix_iff_eq_append.1 (List.isPrefixOf_iff_prefix.1 h)

/-- What `setStringBody` accepts: no leading sign, and either a text of the
finite branch or one of the special words. -/
theorem setStringBody_inv (neg : Bool) (s : List Char) (y : Decimal)
    (h : setStringBody neg s = some y) :
    ¬ (s.head? = some '-' ∨ s.head? = some '+') ∧
      ((y.Form = Form.Finite ∧ parseFinite neg s = some y) ∨
        (y.Form ≠ Form.Finite ∧ specialWord s = true)) := by
  have payload : ∀ t : List Char,
      (t = [] ∨ ((parseDigits t).any (fun n => decide (n < 2 ^ 64))) = true) →
      t.all isDigit = true := by
    intro t ht
    rcases ht with ht | ht
    · rw [ht]; rfl
    · cases hp : parseDigits t with
      | none => rw [hp] at ht; simp at ht
      | some n => exact (parseDigits_inv t n hp).2
  unfold setStringBody at h
  by_cases h1 : s.head? = some '-' ∨ s.head? = some '+'
  · rw [if_pos h1] at h; simp at h
  rw [if_neg h1] at h
  refine ⟨h1, ?_⟩
  by_cases h2 : s = "infinity".toList ∨ s = "inf".toList
  · rw [if_pos h2] at h
    simp only [Option.some.injEq] at h
    right
    refine ⟨by rw [← h]; simp, ?_⟩
    rcases h2 with h2 | h2
    · rw [h2]; decide
    · rw [h2]; decide
  rw [if_neg h2] at h
  simp only at h
  by_cases hn : "nan".toList.isPrefixOf s = true
  · simp only [hn, if_true, true_or] at h
    by_cases hs : "snan".toList.isPrefixOf (s.drop 3) = true
    · simp only [hs, if_true] at h
      split_ifs at h with hp
      simp only [Option.some.injEq] at h
      right
      refine ⟨by rw [← h]; simp, ?_⟩
      have e1 := isPrefixOf_eq_append _ _ hn
      have e2 := isPrefixOf_eq_append _ _ hs
      have e3 : "nansnan".toList ++ s.drop 7 = s := by
        have : List.drop 4 (List.drop 3 s) = List.drop 7 s := by rw [List.drop_drop]
        have l3 : "nan".toList.length = 3 := rfl
        have l4 : "snan".toList.length = 4 := rfl
        rw [l3] at e1
        rw [l4, this] at e2
        have e4 : "nansnan".toList = "nan".toList ++ "snan".toList := by decide
        rw [e4, List.append_assoc, e2, e1]
      have p7 : "nansnan".toList.isPrefixOf s = true :=
        List.isPrefixOf_iff_prefix.2 ⟨_, e3⟩
      have d7 : (s.drop 7).all isDigit = true := by
        have := payload _ hp
        rwa [List.drop_drop] at this
      unfold specialWord
      rw [p7, d7]
      simp
    · simp only [hs, if_false, Bool.false_eq_true] at h
      split_ifs at h with hp
      simp only [Option.some.injEq] at h
      right
      refine ⟨by rw [← h]; simp, ?_⟩
      unfold specialWord
      rw [hn, payload _ hp]
      simp
  · simp only [hn, if_false, Bool.false_eq_true, false_or] at h
    by_cases hs : "snan".toList.isPrefixOf s = true
    · simp only [hs, if_true] at h
      split_ifs at h with hp
      simp only [Option.some.injEq] at h
      right
      refine ⟨by rw [← h]; simp, ?_⟩
      unfold specialWord
      rw [hs, payload _ hp]
      simp
    · simp only [hs, if_false, Bool.false_eq_true] at h
      left
      exact ⟨parseFinite_form neg s y h, h⟩

theorem setString_inv (l0 : List Char) (y : Decimal) (h : setString l0 = some y) :
    ∃ neg body, (l0.map toLower = body ∨ l0.map toLower = '+' :: body ∨
        l0.map toLower = '-' :: body) ∧ setStringBody neg body = some y := by
  unfold setString at h
  split at h
  · rename_i t heq
    exact ⟨true, t, Or.inr (Or.inr heq), h⟩
  · rename_i t heq
    exact ⟨false, t, Or.inr (Or.inl heq), h⟩
  · exact ⟨false, _, Or.inl rfl, h⟩

theorem roundDisabled_form (y x : Decimal) (h : roundDisabled y = some x) : x.Form = y.Form := by
  unfold roundDisabled at h
  cases hs : setExponent y.Coeff [y.Exponent] with
  | none => rw [hs] at h; simp at h
  | some e =>
    rw [hs] at h
    simp only [Option.map_some', Option.some.injEq] at h
    rw [← h]

end apd

namespace apd

/-- What `NewFromString` accepts: a finite result comes from a text in standard
decimal notation, any other result from one of the special words. -/
theorem NewFromString_inv (l0 : List Char) (x : Decimal) (h : NewFromString l0 = some x) :
    (x.Form = Form.Finite ∧ decimalText l0 = true) ∨
      (x.Form ≠ Form.Finite ∧ specialText l0 = true) := by
  unfold NewFromString at h
  cases hy : setString l0 with
  | none => rw [hy] at h; simp at h
  | some y =>
    rw [hy] at h
    simp only [Option.some_bind] at h
    have hform := roundDisabled_form y x h
    obtain ⟨neg, body, hl, hb⟩ := setString_inv l0 y hy
    obtain ⟨hhead, hcase⟩ := setStringBody_inv neg body y hb
    have hstrip : stripSign (l0.map toLower) = body := by
      rcases hl with e | e | e
      · rw [e]; exact stripSign_of_head body hhead
      · rw [e]; rfl
      · rw [e]; rfl
    rcases hcase with ⟨f1, f2⟩ | ⟨f1, f2⟩
    · left
      obtain ⟨p1, p2⟩ := parseFinite_inv neg body y f2
      have hchars : ∀ ch ∈ l0.map toLower,
          isDigit ch = true ∨ ch = '+' ∨ ch = '-' ∨ ch = '.' ∨ ch = 'e' := by
        intro ch hch
        rcases hl with e | e | e
        · rw [e] at hch; exact p2 ch hch
        · rw [e] at hch
          rcases List.mem_cons.1 hch with k | k
          · exact Or.inr (Or.inl k)
          · exact p2 ch k
        · rw [e] at hch
          rcases List.mem_cons.1 hch with k | k
          · exact Or.inr (Or.inr (Or.inl k))
          · exact p2 ch k
      have hfold := map_toLower_fold l0 hchars
      refine ⟨by rw [hform]; exact f1, ?_⟩
      unfold decimalText
      simp only
      rw [← hfold, hstrip]
      exact p1
    · right
      refine ⟨by rw [hform]; exact f1, ?_⟩
      unfold specialText
      rw [hstrip]
      exact f2

end apd

/-- C11 counterexample: `FromStr` returns no error for "NaN", "Infinity" and
"-inf"; the Decimals it returns are not finite numbers: their forms are NaN
and Infinite, and they render "NaN", "Infinity" and "-Infinity". -/
theorem FromStr_accepts_NaN_and_Infinity :
    (FromStr [] "NaN").bind (fun a => a.1.load a.2) = some ⟨apd.Form.NaN, false, 0, 0⟩ ∧
      (FromStr [] "Infinity").bind (fun a => a.1.load a.2) =
        some ⟨apd.Form.Infinite, false, 0, 0⟩ ∧
      observe (FromStr [] "NaN") = some (some "NaN") ∧
      observe (FromStr [] "Infinity") = some (some "Infinity") ∧
      observe (FromStr [] "-inf") = some (some "-Infinity") := by
  decide

/-- C11 as amended: `FromStr` returns an error for every string that is
neither standard decimal notation (an optional sign, digits with an optional
decimal point, an optional `e`/`E` exponent with a signed integer) nor, letter
case and one leading sign apart, one of the special words `inf`, `infinity`,
`nan`, `snan`, `nansnan` (the last three optionally followed by digits).
Whenever it returns a Decimal, either the Decimal is a finite number and the
string is standard decimal notation, or the Decimal is not finite and the
string is one of the special words. -/
theorem FromStr_rejects_malformed (h : Heap) (s : GoString) :
    (apd.decimalText s.toList = false → apd.specialText s.toList = false →
        FromStr h s = none) ∧
      (∀ d h', FromStr h s = some (d, h') → ∃ x, d.load h' = some x ∧
        ((x.Form = apd.Form.Finite ∧ apd.decimalText s.toList = true) ∨
          (x.Form ≠ apd.Form.Finite ∧ apd.specialText s.toList = true))) := by
  have main : ∀ d h', FromStr h s = some (d, h') → ∃ x, d.load h' = some x ∧
      ((x.Form = apd.Form.Finite ∧ apd.decimalText s.toList = true) ∨
        (x.Form ≠ apd.Form.Finite ∧ apd.specialText s.toList = true)) := by
    intro d h' hr
    obtain ⟨x, hx, hd, hh⟩ := FromStr_eq h s d h' hr
    refine ⟨x, ?_, apd.NewFromString_inv s.toList x hx⟩
    rw [hd, hh]
    simp only [Decimal.load]
    exact getElem?_append_new h x
  refine ⟨?_, main⟩
  intro h1 h2
  cases hr : FromStr h s with
  | none => rfl
  | some p =>
    obtain ⟨d, h'⟩ := p
    obtain ⟨x, _, hc⟩ := main d h' hr
    rcases hc with ⟨_, hc⟩ | ⟨_, hc⟩
    · rw [h1] at hc; exact absurd hc (by simp)
    · rw [h2] at hc; exact absurd hc (by simp)

/-- Witness for C11: the empty string, two signs, a sign inside the number, two
points, an exponent without digits, a fractional exponent, a second exponent
marker, a letter and a blank are all rejected. -/
theorem FromStr_rejects_malformed_witness :
    FromStr [] "" = none ∧ FromStr [] "+-1" = none ∧ FromStr [] "1-2" = none ∧
      FromStr [] "1.2.3" = none ∧ FromStr [] "1e" = none ∧ FromStr [] "1e+" = none ∧
      FromStr [] "1e2.5" = none ∧ FromStr [] "1e2e3" = none ∧ FromStr [] "12a" = none ∧
      FromStr [] " 1" = none :=
  ⟨(FromStr_rejects_malformed [] "").1 (by decide) (by decide),
    (FromStr_rejects_malformed [] "+-1").1 (by decide) (by decide),
    (FromStr_rejects_malformed [] "1-2").1 (by decide) (by decide),
    (FromStr_rejects_malformed [] "1.2.3").1 (by decide) (by decide),
    (FromStr_rejects_malformed [] "1e").1 (by decide) (by decide),
    (FromStr_rejects_malformed [] "1e+").1 (by decide) (by decide),
    (FromStr_rejects_malformed [] "1e2.5").1 (by decide) (by decide),
    (FromStr_rejects_malformed [] "1e2e3").1 (by decide) (by decide),
    (FromStr_rejects_malformed [] "12a").1 (by decide) (by decide),
    (FromStr_rejects_malformed [] " 1").1 (by decide) (by decide)⟩
